import Mathlib

/-!
Mark-and-sweep simulator: shallow embedding and verification.

Embedding of `gc_simulator.h`, `gc_functions.c` and the menu loop of `main.c`.

Modelling conventions.

* A C pointer to an `Object` is a natural number (`Ptr`); a nullable pointer
  is an `Option Ptr`, `none` being `NULL`.
* The linked list hanging off `heap_head` is the list of its nodes, head
  first; the `next` field of a node is its successor in that list.
* The `RefNode` list hanging off `obj->refs` is the list of its targets,
  head first.
* `malloc` is assumed to succeed (the `exit(1)` paths are not modelled) and
  hands out addresses from a counter, so that a freed address is never
  confused with a live one.
* Dereferencing a pointer that names no live object, writing past the end of
  `roots[50]`, and running out of recursion fuel have no result: the
  operation returns `none`.
* The four counter fields of a state are exact counts, natural numbers that
  never wrap. The C variables are two `int`s and two `size_t`s; what they
  hold is `State.ledger`, the image of the exact counts under `c_int` and
  `c_size_t`, which carries each `+ 1` and `+ k` on a count to the `++` and
  `+=` of the code on the variable (`c_int_succ`, `c_size_t_add`). What a
  variable holds at the limits of its type is stated on `State.ledger`.
* `sizeof (Object)` and `sizeof (RefNode)` are parameters gathered in a
  `Layout`; `int` has 32 bits and `size_t` 64.
-/

namespace GcSim

/-- Address of an `Object` in the C heap. -/
abbrev Ptr := Nat

/-- The two `sizeof` values the accounting uses. -/
structure Layout where
  sizeofObject : Nat
  sizeofRefNode : Nat
deriving DecidableEq

/-- Sizes on an LP64 target: `struct Object` is 40 bytes, `struct RefNode` 16. -/
def lp64 : Layout := ⟨40, 16⟩

/-- `struct Object`, together with the address it lives at. The `refs` field
is the list of `to` pointers of its `RefNode` chain. -/
structure Object where
  addr : Ptr
  id : Int
  name : String
  marked : Bool
  refs : List Ptr
deriving DecidableEq

/-- The global variables of `gc_functions.c`. `roots` holds the entries
`roots[0 .. root_count)`; `next_ptr` is the allocation counter. The four
`total_` fields are the exact counts since the last reset; the values of the
C variables of these names are `State.ledger`. -/
structure State where
  heap_head : List Object
  roots : List (Option Ptr)
  total_objects_allocated : Nat
  total_objects_freed : Nat
  total_memory_allocated : Nat
  total_memory_freed : Nat
  next_ptr : Ptr
deriving DecidableEq

/-- Value of the global `root_count`. -/
def State.root_count (s : State) : Nat := s.roots.length

/-- The state at program start: the initialisers of the globals. -/
def State.init : State :=
  { heap_head := [], roots := [], total_objects_allocated := 0,
    total_objects_freed := 0, total_memory_allocated := 0,
    total_memory_freed := 0, next_ptr := 0 }

/-- C `strlen`: the number of bytes before the terminating NUL. A name is a C
string, so it holds no NUL and this is its size in bytes. -/
def strlen (s : String) : Nat := s.utf8ByteSize

/-- Dereference a pointer: the live object at that address, if any. -/
def deref (h : List Object) (p : Ptr) : Option Object :=
  h.find? (fun o => decide (o.addr = p))

/-- `find_object_by_name`: linear scan of the heap list with `strcmp`. -/
def find_object_by_name (s : State) (name : String) : Option Ptr :=
  (s.heap_head.find? (fun o => decide (o.name = name))).map Object.addr

/-- The approximate size `sizeof(Object) + strlen(name) + 1` of an object. -/
def object_size (L : Layout) (name : String) : Nat :=
  L.sizeofObject + strlen name + 1

/-- `create_object`: rejects a name already in the heap, otherwise links a
fresh unmarked, edgeless object at the head and bumps the two allocation
counters. Returns the new state and the returned pointer. The counts are
exact; on the C variables the two updates are `create_object_counters`
(`create_object_ledger`). -/
def create_object (L : Layout) (s : State) (id : Int) (name : String) :
    State × Option Ptr :=
  match find_object_by_name s name with
  | some _ => (s, none)
  | none =>
    let obj : Object :=
      { addr := s.next_ptr, id := id, name := name, marked := false, refs := [] }
    ({ s with
        heap_head := obj :: s.heap_head
        total_objects_allocated := s.total_objects_allocated + 1
        total_memory_allocated := s.total_memory_allocated + object_size L name
        next_ptr := s.next_ptr + 1 },
     some obj.addr)

/-- The assignment `from->refs = node` seen from the heap list. -/
def set_refs (h : List Object) (p : Ptr) (refs : List Ptr) : List Object :=
  h.map (fun o => if o.addr = p then { o with refs := refs } else o)

/-- `add_reference`: no-op on a null argument, a self reference or an edge
already present, otherwise pushes a `RefNode` at the head of `from->refs` and
adds `sizeof(RefNode)` to the allocated bytes. -/
def add_reference (L : Layout) (s : State) (frm tgt : Option Ptr) : Option State :=
  match frm, tgt with
  | none, _ => some s
  | some _, none => some s
  | some f, some t =>
    match deref s.heap_head f with
    | none => none
    | some fo =>
      if f = t then some s
      else
        match deref s.heap_head t with
        | none => none
        | some _ =>
          if t ∈ fo.refs then some s
          else
            some { s with
              heap_head := set_refs s.heap_head f (t :: fo.refs)
              total_memory_allocated := s.total_memory_allocated + L.sizeofRefNode }

/-- `clear_references`: frees every `RefNode` of the object, adding
`sizeof(RefNode)` to the freed bytes for each, and empties its list. -/
def clear_references (L : Layout) (s : State) (o : Object) : State × Object :=
  ({ s with
      total_memory_freed :=
        o.refs.foldl (fun acc _ => acc + L.sizeofRefNode) s.total_memory_freed },
   { o with refs := [] })

/-- The assignment `root->marked = 1` seen from the heap list. -/
def set_marked (h : List Object) (p : Ptr) : List Object :=
  h.map (fun o => if o.addr = p then { o with marked := true } else o)

/-- The loop `for (ref = root->refs; ref; ref = ref->next) gc_mark(ref->to)`
of `gc_mark`, over the recursive call `mark`. -/
def gc_mark_refs (mark : List Object → Option Ptr → Option (List Object)) :
    List Ptr → List Object → Option (List Object)
  | [], h => some h
  | r :: rs, h =>
    match mark h (some r) with
    | none => none
    | some h1 => gc_mark_refs mark rs h1

/-- `gc_mark` with a bound on the depth of the C recursion: a null pointer or
a marked object returns at once, an unmarked object is marked and its edges
are followed with one unit of depth less. -/
def gc_mark_fuel : Nat → List Object → Option Ptr → Option (List Object)
  | _, h, none => some h
  | 0, _, some _ => none
  | fuel + 1, h, some p =>
    match deref h p with
    | none => none
    | some o =>
      if o.marked then some h
      else gc_mark_refs (gc_mark_fuel fuel) o.refs (set_marked h p)

/-- `gc_mark`: every nested call marks an object that was unmarked, so the
recursion is never deeper than the number of objects plus one. -/
def gc_mark (h : List Object) (root : Option Ptr) : Option (List Object) :=
  gc_mark_fuel (h.length + 1) h root

/-- `gc_mark_all`: marks from `roots[0]`, ..., `roots[root_count - 1]` in
turn, skipping null entries. -/
def gc_mark_all : List Object → List (Option Ptr) → Option (List Object)
  | h, [] => some h
  | h, none :: rs => gc_mark_all h rs
  | h, some p :: rs =>
    match gc_mark h (some p) with
    | none => none
    | some h1 => gc_mark_all h1 rs

/-- The `while (*cur)` loop of `gc_sweep` from the node `*cur` on: returns
the nodes that stay linked, the state with its counters updated, and
`collected_count`. -/
def gc_sweep_loop (L : Layout) : List Object → State → Nat → List Object × State × Nat
  | [], s, c => ([], s, c)
  | o :: rest, s, c =>
    if o.marked then
      let r := gc_sweep_loop L rest s c
      ({ o with marked := false } :: r.1, r.2.1, r.2.2)
    else
      let s1 := (clear_references L s o).1
      let s2 := { s1 with
        total_objects_freed := s1.total_objects_freed + 1
        total_memory_freed := s1.total_memory_freed + object_size L o.name }
      gc_sweep_loop L rest s2 (c + 1)

/-- The three figures `gc_sweep` prints when its loop is over. -/
structure SweepReport where
  collected_count : Nat
  memory_freed_this_cycle : Nat
  current_memory_in_use : Nat
deriving DecidableEq

/-- `gc_sweep`: unlinks and frees every unmarked object, clears the mark of
the others, then prints its report. -/
def gc_sweep (L : Layout) (s : State) : State × SweepReport :=
  let r := gc_sweep_loop L s.heap_head s 0
  let s1 := { r.2.1 with heap_head := r.1 }
  (s1, { collected_count := r.2.2
         memory_freed_this_cycle := s1.total_memory_freed
         current_memory_in_use := s1.total_memory_allocated - s1.total_memory_freed })

/-- `run_gc (roots, root_count)`: nothing on an empty heap, otherwise
`gc_mark_all` followed by `gc_sweep`. -/
def run_gc (L : Layout) (s : State) (roots : List (Option Ptr)) : Option State :=
  match s.heap_head with
  | [] => some s
  | _ :: _ =>
    match gc_mark_all s.heap_head roots with
    | none => none
    | some h => some (gc_sweep L { s with heap_head := h }).1

/-- The loop shared by `reset_simulator_state` and `final_cleanup` as far as
the edges go: `clear_references` on every node of the heap list. -/
def clear_all_references (L : Layout) : List Object → State → State
  | [], s => s
  | o :: rest, s => clear_all_references L rest (clear_references L s o).1

/-- `reset_simulator_state`: frees every object and its edges, empties the
root set and zeroes the four counters. No pointer survives a reset, so the
allocation counter restarts as well. -/
def reset_simulator_state (L : Layout) (s : State) : State :=
  let s1 := clear_all_references L s.heap_head s
  { s1 with
    heap_head := []
    roots := []
    total_objects_allocated := 0
    total_objects_freed := 0
    total_memory_allocated := 0
    total_memory_freed := 0
    next_ptr := 0 }

/-- The `while (cur)` loop of `final_cleanup`. -/
def final_cleanup_loop (L : Layout) : List Object → State → State
  | [], s => s
  | o :: rest, s =>
    let s1 := (clear_references L s o).1
    final_cleanup_loop L rest
      { s1 with
        total_objects_freed := s1.total_objects_freed + 1
        total_memory_freed := s1.total_memory_freed + object_size L o.name }

/-- `final_cleanup`: nothing on an empty heap, otherwise frees every object
with its edges, counting each as freed. The root array is left as it is. -/
def final_cleanup (L : Layout) (s : State) : State :=
  match s.heap_head with
  | [] => s
  | _ :: _ => { final_cleanup_loop L s.heap_head s with heap_head := [] }

/-- The statement `roots[root_count++] = p`; the array has 50 slots. -/
def push_root (s : State) (p : Option Ptr) : Option State :=
  if s.root_count < 50 then some { s with roots := s.roots ++ [p] } else none

/-- Scenario 1 of `force_leak_scenario`: A -> B -> C rooted at A, and D -> E.
Returns the state and `scenario_created`. -/
def scenario_1 (L : Layout) (s : State) : Option (State × List (Option Ptr)) :=
  let a := create_object L s 1000 "A"
  let b := create_object L a.1 1001 "B"
  let c := create_object L b.1 1002 "C"
  let d := create_object L c.1 1003 "D"
  let e := create_object L d.1 1004 "E"
  (add_reference L e.1 a.2 b.2).bind fun s1 =>
  (add_reference L s1 b.2 c.2).bind fun s2 =>
  (add_reference L s2 d.2 e.2).bind fun s3 =>
  (push_root s3 a.2).bind fun s4 =>
  some (s4, [a.2, b.2, c.2, d.2, e.2])

/-- Scenario 2 of `force_leak_scenario`: the cycle A -> B -> C -> A rooted at
A, and the cycle D <-> E. -/
def scenario_2 (L : Layout) (s : State) : Option (State × List (Option Ptr)) :=
  let a := create_object L s 1000 "A"
  let b := create_object L a.1 1001 "B"
  let c := create_object L b.1 1002 "C"
  (add_reference L c.1 a.2 b.2).bind fun s1 =>
  (add_reference L s1 b.2 c.2).bind fun s2 =>
  (add_reference L s2 c.2 a.2).bind fun s3 =>
  let d := create_object L s3 1003 "D"
  let e := create_object L d.1 1004 "E"
  (add_reference L e.1 d.2 e.2).bind fun s4 =>
  (add_reference L s4 e.2 d.2).bind fun s5 =>
  (push_root s5 a.2).bind fun s6 =>
  some (s6, [a.2, b.2, c.2, d.2, e.2])

/-- First loop of scenario 3, over the values of `i` still to come: creates
`N<i>`, links it after `prev` or, when `prev` is null, makes it a root.
Carries `scenario_id_counter`, `prev` and `scenario_created`. -/
def scenario_3_chain (L : Layout) :
    List Nat → State → Int → Option Ptr → List (Option Ptr) →
      Option (State × Int × List (Option Ptr))
  | [], s, idc, _, created => some (s, idc, created)
  | i :: rest, s, idc, prev, created =>
    let node := create_object L s idc ("N" ++ toString i)
    let linked :=
      match prev with
      | some _ => add_reference L node.1 prev node.2
      | none => push_root node.1 node.2
    linked.bind fun s1 =>
      scenario_3_chain L rest s1 (idc + 1) node.2 (created ++ [node.2])

/-- Second loop of scenario 3: creates the edgeless objects `X<i>`. -/
def scenario_3_extra (L : Layout) :
    List Nat → State → Int → List (Option Ptr) → State × List (Option Ptr)
  | [], s, _, created => (s, created)
  | i :: rest, s, idc, created =>
    let x := create_object L s idc ("X" ++ toString i)
    scenario_3_extra L rest x.1 (idc + 1) (created ++ [x.2])

/-- Scenario 3 of `force_leak_scenario`: the chain N0 -> ... -> N9 rooted at
N0, and X1 .. X5. -/
def scenario_3 (L : Layout) (s : State) : Option (State × List (Option Ptr)) :=
  (scenario_3_chain L (List.range 10) s 1000 none []).bind fun r =>
  some (scenario_3_extra L [1, 2, 3, 4, 5] r.1 r.2.1 r.2.2)

/-- The construction part of `force_leak_scenario`, for a valid id. -/
def force_leak_scenario_setup (L : Layout) (s : State) (scenario_id : Int) :
    Option (State × List (Option Ptr)) :=
  if scenario_id = 1 then scenario_1 L s
  else if scenario_id = 2 then scenario_2 L s
  else scenario_3 L s

/-- The loop of `force_leak_scenario` over `scenario_created` that lists the
unmarked objects: carries the names printed, `unreachable_count` and
`garbage_bytes_est`. -/
def scenario_unreachable (L : Layout) (h : List Object) :
    List (Option Ptr) → List String → Nat → Nat → Option (List String × Nat × Nat)
  | [], names, n, g => some (names, n, g)
  | none :: rest, names, n, g => scenario_unreachable L h rest names n g
  | some p :: rest, names, n, g =>
    match deref h p with
    | none => none
    | some o =>
      if o.marked then scenario_unreachable L h rest names n g
      else scenario_unreachable L h rest (names ++ [o.name]) (n + 1)
        (g + object_size L o.name)

/-- What `force_leak_scenario` prints for a valid id: the unreachable objects,
their number, the garbage estimate, the report of `gc_sweep` if it ran, and
the memory status after the scenario. -/
structure ScenarioReport where
  unreachable : List String
  unreachable_count : Nat
  garbage_bytes_est : Nat
  sweep : Option SweepReport
  total_objects_allocated : Nat
  total_objects_freed : Nat
  total_memory_allocated : Nat
  total_memory_freed : Nat
deriving DecidableEq

/-- The mark, report and sweep phases of `force_leak_scenario`, from the
state the construction left: returns the state before the final reset and
the report. -/
def force_leak_scenario_collect (L : Layout) (s : State)
    (scenario_created : List (Option Ptr)) : Option (State × ScenarioReport) :=
  (gc_mark_all s.heap_head s.roots).bind fun h =>
  (scenario_unreachable L h scenario_created [] 0 0).bind fun u =>
  let swept : State × Option SweepReport :=
    if 0 < u.2.1 then
      let r := gc_sweep L { s with heap_head := h }
      (r.1, some r.2)
    else
      ({ s with heap_head := h.map fun o => { o with marked := false } }, none)
  some (swept.1,
    { unreachable := u.1
      unreachable_count := u.2.1
      garbage_bytes_est := u.2.2
      sweep := swept.2
      total_objects_allocated := swept.1.total_objects_allocated
      total_objects_freed := swept.1.total_objects_freed
      total_memory_allocated := swept.1.total_memory_allocated
      total_memory_freed := swept.1.total_memory_freed })

/-- `force_leak_scenario`: reset, build the scenario (an id other than 1, 2
and 3 returns here), mark, report, sweep, report, reset. -/
def force_leak_scenario (L : Layout) (s : State) (scenario_id : Int) :
    Option (State × Option ScenarioReport) :=
  let s0 := reset_simulator_state L s
  if scenario_id = 1 ∨ scenario_id = 2 ∨ scenario_id = 3 then
    (force_leak_scenario_setup L s0 scenario_id).bind fun b =>
    (force_leak_scenario_collect L b.1 b.2).bind fun c =>
    some (reset_simulator_state L c.1, some c.2)
  else some (s0, none)

/-- Menu option 2 of `main`: resolve both names, then `add_reference`. -/
def menu_create_reference (L : Layout) (s : State) (name1 name2 : String) :
    Option State :=
  match find_object_by_name s name1, find_object_by_name s name2 with
  | some f, some t => add_reference L s (some f) (some t)
  | _, _ => some s

/-- Menu option 3 of `main`: resolve the name, then append the object to
`roots` unless it is already there. -/
def menu_mark_root (s : State) (name : String) : Option State :=
  match find_object_by_name s name with
  | none => some s
  | some p => if some p ∈ s.roots then some s else push_root s (some p)

/-- Menu option 5 of `main`: `gc_mark_all (roots, root_count)`, then
`write_dot`, which only reads the state. -/
def menu_visualize (s : State) : Option State :=
  (gc_mark_all s.heap_head s.roots).map fun h => { s with heap_head := h }

/-- The operations on the simulator: the menu options of `main` that change
the state, and the functions of `gc_functions.c` called on their own. -/
inductive Op where
  | create_object (id : Int) (name : String)
  | add_reference (frm tgt : Option Ptr)
  | create_reference (name1 name2 : String)
  | mark_root (name : String)
  | run_gc
  | visualize
  | gc_sweep
  | force_leak_scenario (scenario_id : Int)
  | reset_simulator_state
  | final_cleanup
deriving DecidableEq

/-- Effect of one operation on the globals. -/
def step (L : Layout) (s : State) : Op → Option State
  | .create_object id name => some (create_object L s id name).1
  | .add_reference frm tgt => add_reference L s frm tgt
  | .create_reference name1 name2 => menu_create_reference L s name1 name2
  | .mark_root name => menu_mark_root s name
  | .run_gc => run_gc L s s.roots
  | .visualize => menu_visualize s
  | .gc_sweep => some (gc_sweep L s).1
  | .force_leak_scenario scenario_id => (force_leak_scenario L s scenario_id).map Prod.fst
  | .reset_simulator_state => some (reset_simulator_state L s)
  | .final_cleanup => some (final_cleanup L s)

/-- Effect of a sequence of operations, first to last. -/
def run (L : Layout) : State → List Op → Option State
  | s, [] => some s
  | s, op :: ops =>
    match step L s op with
    | none => none
    | some s1 => run L s1 ops

/-! ## Specification vocabulary -/

/-- Bytes the ledger attributes to one object: its approximate size and one
`RefNode` for each outgoing edge. -/
def object_bytes (L : Layout) (o : Object) : Nat :=
  object_size L o.name + L.sizeofRefNode * o.refs.length

/-- Bytes the ledger attributes to a list of objects. -/
def live_bytes (L : Layout) (h : List Object) : Nat :=
  (h.map (object_bytes L)).sum

/-- The objects a sweep keeps: the marked ones, in order, marks cleared. -/
def swept (h : List Object) : List Object :=
  (h.filter fun o => o.marked).map fun o => { o with marked := false }

/-- The objects a sweep removes: the unmarked ones. -/
def garbage (h : List Object) : List Object :=
  h.filter fun o => !o.marked

/-- The pointer names a live object whose mark is set. -/
def is_marked (h : List Object) (a : Ptr) : Prop :=
  ∃ o, deref h a = some o ∧ o.marked = true

/-- The second object is the first one, except that its mark may have been set. -/
def MarkLe (o o1 : Object) : Prop :=
  o1.addr = o.addr ∧ o1.id = o.id ∧ o1.name = o.name ∧ o1.refs = o.refs ∧
    (o.marked = true → o1.marked = true)

/-- The second heap list is the first one with some more marks set. -/
def HeapLe (h h1 : List Object) : Prop := List.Forall₂ MarkLe h h1

/-- The pointer names a live object whose mark is clear. -/
def is_unmarked (h : List Object) (a : Ptr) : Prop :=
  ∃ o, deref h a = some o ∧ o.marked = false

/-- Every edge of every object of the list targets an object of the list. -/
def EdgesLive (h : List Object) : Prop :=
  ∀ o ∈ h, ∀ b ∈ o.refs, (deref h b).isSome = true

/-- The predicate is carried along the edges of the heap. -/
def EdgeClosed (P : Ptr → Prop) (h : List Object) : Prop :=
  ∀ a o, P a → deref h a = some o → ∀ b ∈ o.refs, P b

/-- What a marking pass from pointers satisfying `P` does to a heap: it only
sets marks, every object it marks has all its live successors marked, and
every object it marks satisfies `P`. -/
structure MarkRel (P : Ptr → Prop) (h h1 : List Object) : Prop where
  le : HeapLe h h1
  closed : ∀ a o, deref h a = some o → o.marked = false → is_marked h1 a →
    ∀ b ∈ o.refs, (deref h b).isSome = true → is_marked h1 b
  sound : ∀ a, is_unmarked h a → is_marked h1 a → P a

/-- Every root is null or names an object of the list. -/
def RootsLive (h : List Object) (roots : List (Option Ptr)) : Prop :=
  ∀ r, some r ∈ roots → (deref h r).isSome = true

/-- Reachability from the roots along the edges of the heap: a non-null root
is reachable, and so is every target of an edge of a reachable live object. -/
inductive Reachable (h : List Object) (roots : List (Option Ptr)) : Ptr → Prop
  | root {a : Ptr} : some a ∈ roots → Reachable h roots a
  | edge {a b : Ptr} {o : Object} :
      Reachable h roots a → deref h a = some o → b ∈ o.refs → Reachable h roots b

/-- No two objects of the list live at the same address. -/
def DistinctAddrs (h : List Object) : Prop := (h.map Object.addr).Nodup

/-- Every object of the list has its mark clear. -/
def AllUnmarked (h : List Object) : Prop := ∀ o ∈ h, o.marked = false

/-- The pointers form a reference cycle of the heap: each names a live object
holding an edge to the next one, the last to the first. -/
def IsCycle (h : List Object) (c : List Ptr) : Prop :=
  2 ≤ c.length ∧
    ∀ i, i < c.length → ∃ o, deref h (c.getD i 0) = some o ∧
      c.getD ((i + 1) % c.length) 0 ∈ o.refs

/-- A heap for the examples: A (address 0) -> B (1) -> C (2) -> A, and
D (3) <-> E (4), all unmarked. -/
def two_cycles : State :=
  { heap_head :=
      [⟨4, 1004, "E", false, [3]⟩, ⟨3, 1003, "D", false, [4]⟩, ⟨2, 1002, "C", false, [0]⟩,
        ⟨1, 1001, "B", false, [2]⟩, ⟨0, 1000, "A", false, [1]⟩]
    roots := [some 0]
    total_objects_allocated := 5
    total_objects_freed := 0
    total_memory_allocated := 290
    total_memory_freed := 0
    next_ptr := 5 }

instance (h : List Object) : Decidable (DistinctAddrs h) := by
  unfold DistinctAddrs; infer_instance

instance (h : List Object) : Decidable (AllUnmarked h) := by
  unfold AllUnmarked; infer_instance

instance (h : List Object) : Decidable (EdgesLive h) := by
  unfold EdgesLive; infer_instance

/-- A heap for the examples: the root A (address 0) carries a stale mark and
holds an edge to the unmarked B (1); C (2) is unmarked and unrooted. -/
def stale_marks : State :=
  { heap_head :=
      [⟨2, 3, "C", false, []⟩, ⟨1, 2, "B", false, []⟩, ⟨0, 1, "A", true, [1]⟩]
    roots := [some 0]
    total_objects_allocated := 3
    total_objects_freed := 0
    total_memory_allocated := 142
    total_memory_freed := 0
    next_ptr := 3 }

/-- The state scenario 1 builds: A (address 0) -> B (1) -> C (2) rooted at A,
and D (3) -> E (4). -/
def scenario_1_state (L : Layout) : State :=
  { heap_head :=
      [⟨4, 1004, "E", false, []⟩, ⟨3, 1003, "D", false, [4]⟩, ⟨2, 1002, "C", false, []⟩,
        ⟨1, 1001, "B", false, [2]⟩, ⟨0, 1000, "A", false, [1]⟩]
    roots := [some 0]
    total_objects_allocated := 5
    total_objects_freed := 0
    total_memory_allocated := 5 * (L.sizeofObject + 2) + 3 * L.sizeofRefNode
    total_memory_freed := 0
    next_ptr := 5 }

/-- The state scenario 2 builds: A (address 0) -> B (1) -> C (2) -> A rooted at
A, and D (3) <-> E (4). -/
def scenario_2_state (L : Layout) : State :=
  { heap_head :=
      [⟨4, 1004, "E", false, [3]⟩, ⟨3, 1003, "D", false, [4]⟩, ⟨2, 1002, "C", false, [0]⟩,
        ⟨1, 1001, "B", false, [2]⟩, ⟨0, 1000, "A", false, [1]⟩]
    roots := [some 0]
    total_objects_allocated := 5
    total_objects_freed := 0
    total_memory_allocated := 5 * (L.sizeofObject + 2) + 5 * L.sizeofRefNode
    total_memory_freed := 0
    next_ptr := 5 }

/-- The state scenario 1 is in after its sweep. -/
def scenario_1_swept (L : Layout) : State :=
  { heap_head :=
      [⟨2, 1002, "C", false, []⟩, ⟨1, 1001, "B", false, [2]⟩, ⟨0, 1000, "A", false, [1]⟩]
    roots := [some 0]
    total_objects_allocated := 5
    total_objects_freed := 2
    total_memory_allocated := 5 * (L.sizeofObject + 2) + 3 * L.sizeofRefNode
    total_memory_freed := 2 * (L.sizeofObject + 2) + L.sizeofRefNode
    next_ptr := 5 }

/-- The state scenario 2 is in after its sweep. -/
def scenario_2_swept (L : Layout) : State :=
  { heap_head :=
      [⟨2, 1002, "C", false, [0]⟩, ⟨1, 1001, "B", false, [2]⟩, ⟨0, 1000, "A", false, [1]⟩]
    roots := [some 0]
    total_objects_allocated := 5
    total_objects_freed := 2
    total_memory_allocated := 5 * (L.sizeofObject + 2) + 5 * L.sizeofRefNode
    total_memory_freed := 2 * (L.sizeofObject + 2) + 2 * L.sizeofRefNode
    next_ptr := 5 }

/-- The menu session that shows the stale marks of Visualize at work. -/
def stale_session : List Op :=
  [.create_object 1 "A", .mark_root "A", .visualize, .create_object 2 "B",
    .create_reference "A" "B"]

/-- The state that session leaves: B (address 1) unmarked, the root A
(address 0) still marked by Visualize and holding an edge to B. -/
def stale_before : State :=
  { heap_head := [⟨1, 2, "B", false, []⟩, ⟨0, 1, "A", true, [1]⟩]
    roots := [some 0]
    total_objects_allocated := 2
    total_objects_freed := 0
    total_memory_allocated := 100
    total_memory_freed := 0
    next_ptr := 2 }

/-- The state the collector leaves when run on `stale_before`. -/
def stale_after : State :=
  { heap_head := [⟨0, 1, "A", false, [1]⟩]
    roots := [some 0]
    total_objects_allocated := 2
    total_objects_freed := 1
    total_memory_allocated := 100
    total_memory_freed := 42
    next_ptr := 2 }

/-- The accounting equation: the bytes allocated are the bytes freed plus the
bytes of the live objects and their edges. -/
def Acct (L : Layout) (s : State) : Prop :=
  s.total_memory_allocated = s.total_memory_freed + live_bytes L s.heap_head

/-- Representation invariant of the store: live objects have distinct
addresses, all below the allocation counter. -/
def WellFormed (s : State) : Prop :=
  DistinctAddrs s.heap_head ∧ ∀ o ∈ s.heap_head, o.addr < s.next_ptr

/-- No two objects of the heap list carry the same name. -/
def NamesDistinct (s : State) : Prop := (s.heap_head.map Object.name).Nodup

/-- The invariant that carries the accounting equation: a well-formed store
whose ledger balances. -/
def Inv (L : Layout) (s : State) : Prop := WellFormed s ∧ Acct L s

/-- A session for the examples: a duplicate creation, an edge, a root, a run of
the collector and a creation under a name the collector has released. -/
def naming_session : List Op :=
  [.create_object 1 "A", .create_object 2 "A", .create_object 3 "B",
    .create_reference "A" "B", .create_object 4 "C", .mark_root "A", .run_gc,
    .create_object 5 "C"]

/-- The state `naming_session` leaves. -/
def naming_state : State :=
  { heap_head := [⟨3, 5, "C", false, []⟩, ⟨1, 3, "B", false, []⟩, ⟨0, 1, "A", false, [1]⟩]
    roots := [some 0]
    total_objects_allocated := 4
    total_objects_freed := 1
    total_memory_allocated := 184
    total_memory_freed := 42
    next_ptr := 4 }

/-- Each of the four counters of the second state is at least its value in
the first. -/
def LedgerLe (s s1 : State) : Prop :=
  s.total_objects_allocated ≤ s1.total_objects_allocated ∧
    s.total_objects_freed ≤ s1.total_objects_freed ∧
    s.total_memory_allocated ≤ s1.total_memory_allocated ∧
    s.total_memory_freed ≤ s1.total_memory_freed

/-- The four counters are 0. -/
def LedgerZero (s : State) : Prop :=
  s.total_objects_allocated = 0 ∧ s.total_objects_freed = 0 ∧
    s.total_memory_allocated = 0 ∧ s.total_memory_freed = 0

instance (s s1 : State) : Decidable (LedgerLe s s1) := by
  unfold LedgerLe; infer_instance

/-- A session for the examples: an unrooted object is created and collected,
then a second unrooted object is created. -/
def second_cycle_session : List Op :=
  [.create_object 1 "A", .run_gc, .create_object 2 "B"]

/-- The state `second_cycle_session` leaves: B alone in the heap, the 42 bytes
of A already counted as freed. -/
def second_cycle_state : State :=
  { heap_head := [⟨1, 2, "B", false, []⟩]
    roots := []
    total_objects_allocated := 2
    total_objects_freed := 1
    total_memory_allocated := 84
    total_memory_freed := 42
    next_ptr := 2 }

/-- Menu option 3 of `main` again: the index of `roots` its statement
`roots[root_count++] = root_obj` writes to, when it gets to it. -/
def menu_mark_root_index (s : State) (name : String) : Option Nat :=
  match find_object_by_name s name with
  | none => none
  | some p => if some p ∈ s.roots then none else some s.root_count

/-- A menu session for the examples: 51 objects `r0` .. `r50` are created,
then the first 50 are marked as roots one after the other. -/
def overflow_session : List Op :=
  ((List.range 51).map fun i => Op.create_object (Int.ofNat i + 1) ("r" ++ toString i)) ++
    ((List.range 50).map fun i => Op.mark_root ("r" ++ toString i))

/-- The operations that never unlink a root: all but `gc_sweep` called
without a mark phase and `final_cleanup`. -/
def keeps_roots : Op → Bool
  | .gc_sweep => false
  | .final_cleanup => false
  | _ => true

/-- The root set is well formed: its entries are pairwise distinct and each
is a pointer to an object of the heap list. -/
def RootsWellFormed (s : State) : Prop :=
  s.roots.Nodup ∧ ∀ r ∈ s.roots, ∃ p, r = some p ∧ (deref s.heap_head p).isSome = true

/-- The heap list scenario 3 builds: N0 (address 0) -> N1 -> ... -> N9 (9),
and the edgeless X1 (10) .. X5 (14). -/
def scenario_3_heap : List Object :=
      [⟨14, 1014, "X5", false, []⟩, ⟨13, 1013, "X4", false, []⟩, ⟨12, 1012, "X3", false, []⟩,
        ⟨11, 1011, "X2", false, []⟩, ⟨10, 1010, "X1", false, []⟩, ⟨9, 1009, "N9", false, []⟩,
        ⟨8, 1008, "N8", false, [9]⟩, ⟨7, 1007, "N7", false, [8]⟩, ⟨6, 1006, "N6", false, [7]⟩,
        ⟨5, 1005, "N5", false, [6]⟩, ⟨4, 1004, "N4", false, [5]⟩, ⟨3, 1003, "N3", false, [4]⟩,
        ⟨2, 1002, "N2", false, [3]⟩, ⟨1, 1001, "N1", false, [2]⟩, ⟨0, 1000, "N0", false, [1]⟩]

/-- The heap list of scenario 3 after its mark phase. -/
def scenario_3_marked : List Object :=
      [⟨14, 1014, "X5", false, []⟩, ⟨13, 1013, "X4", false, []⟩, ⟨12, 1012, "X3", false, []⟩,
        ⟨11, 1011, "X2", false, []⟩, ⟨10, 1010, "X1", false, []⟩, ⟨9, 1009, "N9", true, []⟩,
        ⟨8, 1008, "N8", true, [9]⟩, ⟨7, 1007, "N7", true, [8]⟩, ⟨6, 1006, "N6", true, [7]⟩,
        ⟨5, 1005, "N5", true, [6]⟩, ⟨4, 1004, "N4", true, [5]⟩, ⟨3, 1003, "N3", true, [4]⟩,
        ⟨2, 1002, "N2", true, [3]⟩, ⟨1, 1001, "N1", true, [2]⟩, ⟨0, 1000, "N0", true, [1]⟩]

/-- The heap list of scenario 3 after its sweep. -/
def scenario_3_kept : List Object :=
      [⟨9, 1009, "N9", false, []⟩, ⟨8, 1008, "N8", false, [9]⟩, ⟨7, 1007, "N7", false, [8]⟩,
        ⟨6, 1006, "N6", false, [7]⟩, ⟨5, 1005, "N5", false, [6]⟩, ⟨4, 1004, "N4", false, [5]⟩,
        ⟨3, 1003, "N3", false, [4]⟩, ⟨2, 1002, "N2", false, [3]⟩, ⟨1, 1001, "N1", false, [2]⟩,
        ⟨0, 1000, "N0", false, [1]⟩]

/-- The pointers scenario 3 stores in `scenario_created`. -/
def scenario_3_created : List (Option Ptr) :=
  [some 0, some 1, some 2, some 3, some 4, some 5, some 6, some 7, some 8, some 9,
    some 10, some 11, some 12, some 13, some 14]

/-- The state scenario 3 builds. -/
def scenario_3_state (L : Layout) : State :=
  { heap_head := scenario_3_heap
    roots := [some 0]
    total_objects_allocated := 15
    total_objects_freed := 0
    total_memory_allocated := 15 * (L.sizeofObject + 3) + 9 * L.sizeofRefNode
    total_memory_freed := 0
    next_ptr := 15 }

/-- The state scenario 3 is in after its sweep. -/
def scenario_3_swept (L : Layout) : State :=
  { heap_head := scenario_3_kept
    roots := [some 0]
    total_objects_allocated := 15
    total_objects_freed := 5
    total_memory_allocated := 15 * (L.sizeofObject + 3) + 9 * L.sizeofRefNode
    total_memory_freed := 5 * (L.sizeofObject + 3)
    next_ptr := 15 }

/-- The part of the state the layout has no bearing on: the heap list, the
root set and the allocation counter. -/
def store (s : State) : List Object × List (Option Ptr) × Ptr :=
  (s.heap_head, s.roots, s.next_ptr)

/-- The objects the sweep of scenario 3 removes. -/
def scenario_3_garbage : List Object :=
  [⟨14, 1014, "X5", false, []⟩, ⟨13, 1013, "X4", false, []⟩, ⟨12, 1012, "X3", false, []⟩,
    ⟨11, 1011, "X2", false, []⟩, ⟨10, 1010, "X1", false, []⟩]

/-- The loop over the edges of `gc_mark`, keeping a log: the recursive call
`mark` returns the heap and the addresses whose mark it set, in order. -/
def gc_mark_refs_log (mark : List Object → Option Ptr → Option (List Object × List Ptr)) :
    List Ptr → List Object → Option (List Object × List Ptr)
  | [], h => some (h, [])
  | r :: rs, h =>
    match mark h (some r) with
    | none => none
    | some r1 =>
      match gc_mark_refs_log mark rs r1.1 with
      | none => none
      | some r2 => some (r2.1, r1.2 ++ r2.2)

/-- `gc_mark` with a bound on the depth of the recursion, keeping a log of
the executions of `root->marked = 1`: the addresses assigned to, in order. -/
def gc_mark_fuel_log : Nat → List Object → Option Ptr → Option (List Object × List Ptr)
  | _, h, none => some (h, [])
  | 0, _, some _ => none
  | fuel + 1, h, some p =>
    match deref h p with
    | none => none
    | some o =>
      if o.marked then some (h, [])
      else
        match gc_mark_refs_log (gc_mark_fuel_log fuel) o.refs (set_marked h p) with
        | none => none
        | some r => some (r.1, p :: r.2)

/-- What a log of mark assignments between two heaps must satisfy: the second
heap is the first with more marks, no address is logged twice, and every
logged address had its mark clear before and has it set after. -/
def LogOK (h h1 : List Object) (l : List Ptr) : Prop :=
  HeapLe h h1 ∧ l.Nodup ∧ ∀ a ∈ l, is_unmarked h a ∧ is_marked h1 a

/-- The object count of the ledger balances: the objects allocated are the
objects freed plus the objects of the heap list. -/
def ObjCount (s : State) : Prop :=
  s.total_objects_allocated = s.total_objects_freed + s.heap_head.length

/-! ## The counters as C variables

The counter fields of `State` are exact counts. The definitions below give
the C side: the types of the four variables (`gc_functions.c`, lines 9-12),
the two arithmetic operations the code applies to them, and the value each
variable holds for a given exact count. -/

/-- `INT_MAX` of the reference build: `int` has 32 bits. -/
def INT_MAX : Int := 2147483647

/-- `SIZE_MAX` of the reference build: `size_t` has 64 bits. -/
def SIZE_MAX : Nat := 18446744073709551615

/-- `x++` on an `int`, as in `total_objects_allocated++` and
`total_objects_freed++`. At `INT_MAX` the increment overflows: C leaves the
result undefined, the reference build wraps to `INT_MIN`. -/
def int_incr (x : Int) : Int :=
  if x = INT_MAX then -2147483648 else x + 1

/-- `x += k` on a `size_t`, as in `total_memory_allocated += ...` and
`total_memory_freed += ...`: unsigned arithmetic, modulo `SIZE_MAX + 1`. -/
def size_add (x k : Nat) : Nat := (x + k) % (SIZE_MAX + 1)

/-- The four counter variables with their C types: `int
total_objects_allocated`, `int total_objects_freed`, `size_t
total_memory_allocated`, `size_t total_memory_freed`. -/
structure Ledger where
  total_objects_allocated : Int
  total_objects_freed : Int
  total_memory_allocated : Nat
  total_memory_freed : Nat
deriving DecidableEq

/-- What an `int` counter holds when the exact count is `n`: the result of
`n` increments (`int_incr`) from 0. -/
def c_int (n : Nat) : Int :=
  (((n + 2147483648) % 4294967296 : Nat) : Int) - 2147483648

/-- What a `size_t` counter holds when the exact count is `n`: the result of
additions (`size_add`) from 0 that sum to `n`. -/
def c_size_t (n : Nat) : Nat := n % (SIZE_MAX + 1)

/-- The four counter variables as the program holds them in state `s`. -/
def State.ledger (s : State) : Ledger :=
  { total_objects_allocated := c_int s.total_objects_allocated
    total_objects_freed := c_int s.total_objects_freed
    total_memory_allocated := c_size_t s.total_memory_allocated
    total_memory_freed := c_size_t s.total_memory_freed }

/-- The counter updates of a successful `create_object` (lines 67-68) on the
C variables. -/
def create_object_counters (L : Layout) (g : Ledger) (name : String) : Ledger :=
  { g with
    total_objects_allocated := int_incr g.total_objects_allocated
    total_memory_allocated := size_add g.total_memory_allocated (object_size L name) }

/-- Each of the four counter variables of the second ledger is at least its
value in the first. -/
def CountersLe (g g1 : Ledger) : Prop :=
  g.total_objects_allocated ≤ g1.total_objects_allocated ∧
    g.total_objects_freed ≤ g1.total_objects_freed ∧
    g.total_memory_allocated ≤ g1.total_memory_allocated ∧
    g.total_memory_freed ≤ g1.total_memory_freed

/-- The additions that lead from `s` to `s1` overflow no counter variable:
the value each variable holds in `s` plus what is added to it on the way to
`s1` is at most `INT_MAX` for the two object counts and at most `SIZE_MAX`
for the two byte counts. -/
def AddsFit (s s1 : State) : Prop :=
  s.ledger.total_objects_allocated +
      ((s1.total_objects_allocated - s.total_objects_allocated : Nat) : Int) ≤ INT_MAX ∧
    s.ledger.total_objects_freed +
      ((s1.total_objects_freed - s.total_objects_freed : Nat) : Int) ≤ INT_MAX ∧
    s.ledger.total_memory_allocated +
      (s1.total_memory_allocated - s.total_memory_allocated) ≤ SIZE_MAX ∧
    s.ledger.total_memory_freed +
      (s1.total_memory_freed - s.total_memory_freed) ≤ SIZE_MAX

instance (g g1 : Ledger) : Decidable (CountersLe g g1) := by
  unfold CountersLe; infer_instance

instance (s s1 : State) : Decidable (AddsFit s s1) := by
  unfold AddsFit; infer_instance

/-- A store with no live object whose counter variables are about to
overflow: `total_objects_allocated` holds `INT_MAX` and
`total_memory_allocated` holds `SIZE_MAX - 10`, every object having been
freed again. -/
def brim_state : State :=
  { heap_head := []
    roots := []
    total_objects_allocated := 2147483647
    total_objects_freed := 2147483647
    total_memory_allocated := 18446744073709551605
    total_memory_freed := 18446744073709551605
    next_ptr := 2147483647 }

/-! ## Theorems -/

theorem foldl_add_const (k : Nat) (l : List Ptr) (a : Nat) :
    l.foldl (fun acc _ => acc + k) a = a + k * l.length := by
  induction l generalizing a with
  | nil => simp
  | cons x xs ih => simp [ih, Nat.mul_succ]; omega

theorem clear_references_fst (L : Layout) (s : State) (o : Object) :
    (clear_references L s o).1 =
      { s with total_memory_freed :=
          s.total_memory_freed + L.sizeofRefNode * o.refs.length } := by
  simp [clear_references, foldl_add_const]

theorem gc_sweep_loop_kept (L : Layout) (h : List Object) (s : State) (c : Nat) :
    (gc_sweep_loop L h s c).1 = swept h := by
  induction h generalizing s c with
  | nil => rfl
  | cons o rest ih =>
    by_cases hm : o.marked = true
    · simp [gc_sweep_loop, swept, hm, ih, List.filter_cons]
    · simp [gc_sweep_loop, swept, hm, List.filter_cons]
      simpa [swept] using ih _ _

theorem gc_sweep_loop_count (L : Layout) (h : List Object) (s : State) (c : Nat) :
    (gc_sweep_loop L h s c).2.2 = c + (garbage h).length := by
  induction h generalizing s c with
  | nil => rfl
  | cons o rest ih =>
    by_cases hm : o.marked = true
    · simp [gc_sweep_loop, garbage, hm, List.filter_cons]
      simpa [garbage] using ih s c
    · simp [gc_sweep_loop, garbage, hm, List.filter_cons]
      rw [ih]; simp [garbage]; omega

theorem gc_sweep_loop_state (L : Layout) (h : List Object) (s : State) (c : Nat) :
    (gc_sweep_loop L h s c).2.1 =
      { s with
        total_objects_freed := s.total_objects_freed + (garbage h).length
        total_memory_freed := s.total_memory_freed + live_bytes L (garbage h) } := by
  induction h generalizing s c with
  | nil => rfl
  | cons o rest ih =>
    by_cases hm : o.marked = true
    · simp [gc_sweep_loop, garbage, hm, List.filter_cons]
      simpa [garbage] using ih s c
    · simp [gc_sweep_loop, garbage, hm, List.filter_cons]
      rw [ih, clear_references_fst]
      simp [garbage, live_bytes, object_bytes]
      constructor <;> omega

theorem gc_sweep_fst (L : Layout) (s : State) :
    (gc_sweep L s).1 =
      { s with
        heap_head := swept s.heap_head
        total_objects_freed := s.total_objects_freed + (garbage s.heap_head).length
        total_memory_freed :=
          s.total_memory_freed + live_bytes L (garbage s.heap_head) } := by
  simp [gc_sweep, gc_sweep_loop_kept, gc_sweep_loop_state]

theorem swept_unmarked (h : List Object) : ∀ o ∈ swept h, o.marked = false := by
  intro o ho
  simp only [swept, List.mem_map] at ho
  obtain ⟨o1, _, rfl⟩ := ho
  rfl

theorem reset_simulator_state_eq (L : Layout) (s : State) :
    reset_simulator_state L s = State.init := rfl

theorem markLe_refl (o : Object) : MarkLe o o := ⟨rfl, rfl, rfl, rfl, id⟩

theorem markLe_trans {a b c : Object} (h1 : MarkLe a b) (h2 : MarkLe b c) : MarkLe a c :=
  ⟨h2.1.trans h1.1, h2.2.1.trans h1.2.1, h2.2.2.1.trans h1.2.2.1,
    h2.2.2.2.1.trans h1.2.2.2.1, fun m => h2.2.2.2.2 (h1.2.2.2.2 m)⟩

theorem heapLe_refl (h : List Object) : HeapLe h h := by
  induction h with
  | nil => exact List.Forall₂.nil
  | cons o rest ih => exact List.Forall₂.cons (markLe_refl o) ih

theorem heapLe_trans {a b c : List Object} (h1 : HeapLe a b) (h2 : HeapLe b c) :
    HeapLe a c := by
  induction h1 generalizing c with
  | nil => cases h2; exact List.Forall₂.nil
  | cons hd _ ih =>
    cases h2 with
    | cons hd2 tl2 => exact List.Forall₂.cons (markLe_trans hd hd2) (ih tl2)

theorem heapLe_set_marked (h : List Object) (p : Ptr) : HeapLe h (set_marked h p) := by
  induction h with
  | nil => exact List.Forall₂.nil
  | cons o rest ih =>
    refine List.Forall₂.cons ?_ ih
    by_cases hp : o.addr = p
    · simp only [hp, if_true]; exact ⟨hp.symm ▸ rfl, rfl, rfl, rfl, fun _ => rfl⟩
    · simp only [hp, if_false]; exact markLe_refl o

theorem heapLe_length {h h1 : List Object} (hl : HeapLe h h1) : h1.length = h.length :=
  (List.Forall₂.length_eq hl).symm

theorem heapLe_deref {h h1 : List Object} (hl : HeapLe h h1) (a : Ptr) :
    (∀ o, deref h a = some o → ∃ o1, deref h1 a = some o1 ∧ MarkLe o o1) ∧
    (∀ o1, deref h1 a = some o1 → ∃ o, deref h a = some o ∧ MarkLe o o1) := by
  induction hl with
  | nil => simp [deref]
  | @cons x y xs ys hd _ ih =>
    have ha : y.addr = x.addr := hd.1
    by_cases hx : x.addr = a
    · simp [deref, List.find?_cons, hx, ha]
      exact hd
    · simp only [deref, List.find?_cons, hx, ha, decide_False]
      exact ih

theorem heapLe_deref_fwd {h h1 : List Object} (hl : HeapLe h h1) {a : Ptr} {o : Object}
    (ho : deref h a = some o) : ∃ o1, deref h1 a = some o1 ∧ MarkLe o o1 :=
  (heapLe_deref hl a).1 o ho

theorem heapLe_deref_bwd {h h1 : List Object} (hl : HeapLe h h1) {a : Ptr} {o1 : Object}
    (ho : deref h1 a = some o1) : ∃ o, deref h a = some o ∧ MarkLe o o1 :=
  (heapLe_deref hl a).2 o1 ho

theorem heapLe_is_marked {h h1 : List Object} (hl : HeapLe h h1) {a : Ptr}
    (hm : is_marked h a) : is_marked h1 a := by
  obtain ⟨o, ho, hm⟩ := hm
  obtain ⟨o1, ho1, hle⟩ := heapLe_deref_fwd hl ho
  exact ⟨o1, ho1, hle.2.2.2.2 hm⟩

theorem heapLe_mem_bwd {h h1 : List Object} (hl : HeapLe h h1) {o1 : Object}
    (ho : o1 ∈ h1) : ∃ o ∈ h, MarkLe o o1 := by
  induction hl with
  | nil => cases ho
  | cons hd _ ih =>
    rcases List.mem_cons.1 ho with rfl | ho
    · exact ⟨_, List.mem_cons_self _ _, hd⟩
    · obtain ⟨o, hm, hle⟩ := ih ho
      exact ⟨o, List.mem_cons_of_mem _ hm, hle⟩

theorem heapLe_garbage_length {h h1 : List Object} (hl : HeapLe h h1) :
    (garbage h1).length ≤ (garbage h).length := by
  induction hl with
  | nil => simp
  | @cons x y xs ys hd _ ih =>
    have hm := hd.2.2.2.2
    by_cases hx : x.marked = true
    · simp [garbage, List.filter_cons, hx, hm hx] at ih ⊢
      exact ih
    · by_cases hy : y.marked = true
      · simp [garbage, List.filter_cons, hx, hy] at ih ⊢
        omega
      · simp [garbage, List.filter_cons, hx, hy] at ih ⊢
        exact ih

theorem deref_cons (x : Object) (rest : List Object) (a : Ptr) :
    deref (x :: rest) a = if x.addr = a then some x else deref rest a := by
  by_cases hx : x.addr = a <;> simp [deref, List.find?_cons, hx]

theorem set_marked_cons (x : Object) (rest : List Object) (p : Ptr) :
    set_marked (x :: rest) p =
      (if x.addr = p then { x with marked := true } else x) :: set_marked rest p := rfl

theorem deref_set_marked_ne (h : List Object) {p a : Ptr} (hne : a ≠ p) :
    deref (set_marked h p) a = deref h a := by
  induction h with
  | nil => rfl
  | cons o rest ih =>
    rw [set_marked_cons, deref_cons, deref_cons, ih]
    by_cases hp : o.addr = p
    · have h1 : o.addr ≠ a := fun e => hne (e.symm.trans hp)
      simp [hp, h1, hne.symm]
    · simp [hp]

theorem deref_set_marked_eq (h : List Object) {p : Ptr} {o : Object}
    (ho : deref h p = some o) :
    deref (set_marked h p) p = some { o with marked := true } := by
  induction h with
  | nil => simp [deref] at ho
  | cons x rest ih =>
    rw [deref_cons] at ho
    rw [set_marked_cons, deref_cons]
    by_cases hp : x.addr = p
    · rw [if_pos hp] at ho
      rw [if_pos hp]
      cases ho
      exact if_pos hp
    · rw [if_neg hp] at ho
      rw [if_neg hp, if_neg hp]
      exact ih ho

theorem garbage_set_marked_lt (h : List Object) {p : Ptr} {o : Object}
    (ho : deref h p = some o) (hm : o.marked = false) :
    (garbage (set_marked h p)).length < (garbage h).length := by
  induction h with
  | nil => simp [deref] at ho
  | cons x rest ih =>
    simp only [deref, List.find?_cons] at ih ho
    by_cases hp : x.addr = p
    · simp [hp] at ho
      subst ho
      have := heapLe_garbage_length (heapLe_set_marked rest p)
      simp [garbage, set_marked, List.filter_cons, hp, hm] at this ⊢
      omega
    · simp [hp] at ho
      have := ih ho
      by_cases hx : x.marked = true
      · simp [garbage, set_marked, List.filter_cons, hp, hx] at this ⊢
        exact this
      · simp [garbage, set_marked, List.filter_cons, hp, hx] at this ⊢
        exact this

theorem markRel_refl (P : Ptr → Prop) (h : List Object) : MarkRel P h h := by
  refine ⟨heapLe_refl h, ?_, ?_⟩
  · intro a o ho hm ⟨o1, ho1, hm1⟩
    rw [ho] at ho1; cases ho1; simp [hm] at hm1
  · intro a ⟨o, ho, hm⟩ ⟨o1, ho1, hm1⟩
    rw [ho] at ho1; cases ho1; simp [hm] at hm1

theorem markRel_trans {P : Ptr → Prop} {h h1 h2 : List Object}
    (r1 : MarkRel P h h1) (r2 : MarkRel P h1 h2) : MarkRel P h h2 := by
  refine ⟨heapLe_trans r1.le r2.le, ?_, ?_⟩
  · intro a o ho hm hm2 b hb hlive
    obtain ⟨o1, ho1, hle⟩ := heapLe_deref_fwd r1.le ho
    by_cases hm1 : o1.marked = true
    · exact heapLe_is_marked r2.le (r1.closed a o ho hm ⟨o1, ho1, hm1⟩ b hb hlive)
    · have hm1 : o1.marked = false := by simpa using hm1
      refine r2.closed a o1 ho1 hm1 hm2 b (hle.2.2.2.1 ▸ hb) ?_
      obtain ⟨ob, hob⟩ := Option.isSome_iff_exists.1 hlive
      obtain ⟨ob1, hob1, _⟩ := heapLe_deref_fwd r1.le hob
      simp [hob1]
  · intro a ⟨o, ho, hm⟩ hm2
    obtain ⟨o1, ho1, hle⟩ := heapLe_deref_fwd r1.le ho
    by_cases hm1 : o1.marked = true
    · exact r1.sound a ⟨o, ho, hm⟩ ⟨o1, ho1, hm1⟩
    · have hm1 : o1.marked = false := by simpa using hm1
      exact r2.sound a ⟨o1, ho1, hm1⟩ hm2

theorem edgeClosed_of_heapLe {P : Ptr → Prop} {h h1 : List Object}
    (hl : HeapLe h h1) (hP : EdgeClosed P h) : EdgeClosed P h1 := by
  intro a o1 hPa ho1 b hb
  obtain ⟨o, ho, hle⟩ := heapLe_deref_bwd hl ho1
  exact hP a o hPa ho b (hle.2.2.2.1 ▸ hb)

theorem edgesLive_of_heapLe {h h1 : List Object}
    (hl : HeapLe h h1) (hE : EdgesLive h) : EdgesLive h1 := by
  intro o1 ho1 b hb
  obtain ⟨o, ho, hle⟩ := heapLe_mem_bwd hl ho1
  obtain ⟨ob, hob⟩ := Option.isSome_iff_exists.1 (hE o ho b (hle.2.2.2.1 ▸ hb))
  obtain ⟨ob1, hob1, _⟩ := heapLe_deref_fwd hl hob
  simp [hob1]

/-- The loop over the edges, given the property for the recursive call. -/
theorem gc_mark_refs_rel {P : Ptr → Prop}
    {mark : List Object → Option Ptr → Option (List Object)}
    (hmark : ∀ h r h1, EdgeClosed P h → P r → mark h (some r) = some h1 →
      MarkRel P h h1 ∧ is_marked h1 r)
    (rs : List Ptr) (h h1 : List Object) (hP : EdgeClosed P h) (hrs : ∀ r ∈ rs, P r)
    (hrun : gc_mark_refs mark rs h = some h1) :
    MarkRel P h h1 ∧ ∀ r ∈ rs, is_marked h1 r := by
  induction rs generalizing h with
  | nil =>
    simp only [gc_mark_refs, Option.some.injEq] at hrun
    subst hrun
    exact ⟨markRel_refl P h, fun r hr => by cases hr⟩
  | cons r rest ih =>
    simp only [gc_mark_refs] at hrun
    cases hstep : mark h (some r) with
    | none => simp [hstep] at hrun
    | some h2 =>
      simp only [hstep] at hrun
      obtain ⟨rel1, hm1⟩ := hmark h r h2 hP (hrs r (List.mem_cons_self _ _)) hstep
      obtain ⟨rel2, hm2⟩ := ih h2 (edgeClosed_of_heapLe rel1.le hP)
        (fun x hx => hrs x (List.mem_cons_of_mem _ hx)) hrun
      refine ⟨markRel_trans rel1 rel2, ?_⟩
      intro x hx
      rcases List.mem_cons.1 hx with rfl | hx
      · exact heapLe_is_marked rel2.le hm1
      · exact hm2 x hx

/-- Marking one unmarked object and then completing the marking from its
successors is a marking pass from that object. -/
theorem markRel_of_set_marked {P : Ptr → Prop} {h h1 : List Object} {a : Ptr} {o : Object}
    (ho : deref h a = some o) (hPa : P a)
    (rel : MarkRel P (set_marked h a) h1) (hsucc : ∀ r ∈ o.refs, is_marked h1 r) :
    MarkRel P h h1 := by
  refine ⟨heapLe_trans (heapLe_set_marked h a) rel.le, ?_, ?_⟩
  · intro x ox hox hmx hm1 b hb hlive
    by_cases hxa : x = a
    · subst hxa
      rw [ho] at hox; cases hox
      exact hsucc b hb
    · have hd : deref (set_marked h a) x = some ox := by
        rw [deref_set_marked_ne h hxa]; exact hox
      refine rel.closed x ox hd hmx hm1 b hb ?_
      obtain ⟨ob, hob⟩ := Option.isSome_iff_exists.1 hlive
      obtain ⟨ob1, hob1, _⟩ := heapLe_deref_fwd (heapLe_set_marked h a) hob
      simp [hob1]
  · intro x ⟨ox, hox, hmx⟩ hm1
    by_cases hxa : x = a
    · subst hxa; exact hPa
    · refine rel.sound x ⟨ox, ?_, hmx⟩ hm1
      rw [deref_set_marked_ne h hxa]; exact hox

/-- Partial correctness of `gc_mark` at any fuel. -/
theorem gc_mark_fuel_rel {P : Ptr → Prop} (fuel : Nat) :
    ∀ (h : List Object) (r : Ptr) (h1 : List Object), EdgeClosed P h → P r →
      gc_mark_fuel fuel h (some r) = some h1 → MarkRel P h h1 ∧ is_marked h1 r := by
  induction fuel with
  | zero => intro h r h1 _ _ hrun; simp [gc_mark_fuel] at hrun
  | succ n ih =>
    intro h r h1 hP hPr hrun
    simp only [gc_mark_fuel] at hrun
    cases ho : deref h r with
    | none => simp [ho] at hrun
    | some o =>
      simp only [ho] at hrun
      by_cases hm : o.marked = true
      · simp only [hm, if_true, Option.some.injEq] at hrun
        subst hrun
        exact ⟨markRel_refl P h, o, ho, hm⟩
      · simp only [hm] at hrun
        have hle := heapLe_set_marked h r
        obtain ⟨rel, hsucc⟩ := gc_mark_refs_rel ih o.refs (set_marked h r) h1
          (edgeClosed_of_heapLe hle hP) (hP r o hPr ho) hrun
        refine ⟨markRel_of_set_marked ho hPr rel hsucc, ?_⟩
        exact heapLe_is_marked rel.le ⟨_, deref_set_marked_eq h ho, rfl⟩

theorem mem_of_deref {h : List Object} {a : Ptr} {o : Object} (ho : deref h a = some o) :
    o ∈ h ∧ o.addr = a := by
  refine ⟨List.mem_of_find?_eq_some ho, ?_⟩
  have := List.find?_some ho
  simpa using this

theorem isSome_of_heapLe {h h1 : List Object} (hl : HeapLe h h1) {a : Ptr}
    (ha : (deref h a).isSome = true) : (deref h1 a).isSome = true := by
  obtain ⟨o, ho⟩ := Option.isSome_iff_exists.1 ha
  obtain ⟨o1, ho1, _⟩ := heapLe_deref_fwd hl ho
  simp [ho1]

theorem gc_mark_fuel_heapLe (fuel : Nat) (h : List Object) (r : Ptr) (h1 : List Object)
    (hrun : gc_mark_fuel fuel h (some r) = some h1) : HeapLe h h1 :=
  (gc_mark_fuel_rel fuel h r h1 (fun _ _ _ _ _ _ => trivial) trivial hrun).1.le

/-- The loop over the edges has a result when the recursive call has one on
every heap with fewer unmarked objects than the fuel. -/
theorem gc_mark_refs_defined (n : Nat)
    (ih : ∀ (h : List Object) (r : Ptr), (garbage h).length < n → EdgesLive h →
      (deref h r).isSome = true → ∃ h1, gc_mark_fuel n h (some r) = some h1)
    (rs : List Ptr) (h : List Object) (hn : (garbage h).length < n) (hE : EdgesLive h)
    (hrs : ∀ r ∈ rs, (deref h r).isSome = true) :
    ∃ h1, gc_mark_refs (gc_mark_fuel n) rs h = some h1 := by
  induction rs generalizing h with
  | nil => exact ⟨h, rfl⟩
  | cons r rest ihr =>
    obtain ⟨h2, hstep⟩ := ih h r hn hE (hrs r (List.mem_cons_self _ _))
    have hle := gc_mark_fuel_heapLe n h r h2 hstep
    obtain ⟨h3, hrest⟩ := ihr h2 (Nat.lt_of_le_of_lt (heapLe_garbage_length hle) hn)
      (edgesLive_of_heapLe hle hE)
      (fun x hx => isSome_of_heapLe hle (hrs x (List.mem_cons_of_mem _ hx)))
    exact ⟨h3, by simp [gc_mark_refs, hstep, hrest]⟩

/-- `gc_mark` has a result as soon as the fuel exceeds the number of unmarked
objects, the edges target live objects and the pointer names one. -/
theorem gc_mark_fuel_defined (fuel : Nat) :
    ∀ (h : List Object) (r : Ptr), (garbage h).length < fuel → EdgesLive h →
      (deref h r).isSome = true → ∃ h1, gc_mark_fuel fuel h (some r) = some h1 := by
  induction fuel with
  | zero => intro h r hn; omega
  | succ n ih =>
    intro h r hn hE hr
    obtain ⟨o, ho⟩ := Option.isSome_iff_exists.1 hr
    by_cases hm : o.marked = true
    · exact ⟨h, by simp [gc_mark_fuel, ho, hm]⟩
    · have hm0 : o.marked = false := by simpa using hm
      have hlt := garbage_set_marked_lt h ho hm0
      have hle := heapLe_set_marked h r
      obtain ⟨h1, hrun⟩ := gc_mark_refs_defined n ih o.refs (set_marked h r) (by omega)
        (edgesLive_of_heapLe hle hE)
        (fun b hb => isSome_of_heapLe hle (hE o (mem_of_deref ho).1 b hb))
      exact ⟨h1, by simp [gc_mark_fuel, ho, hm, hrun]⟩

theorem garbage_length_le (h : List Object) : (garbage h).length ≤ h.length :=
  List.length_filter_le _ _

/-- The loop over the edges does not depend on the fuel of the recursive call
once that fuel exceeds the number of unmarked objects. -/
theorem gc_mark_refs_stable (n : Nat)
    (ih : ∀ (h : List Object) (r : Ptr), (garbage h).length < n →
      gc_mark_fuel n h (some r) = gc_mark_fuel (n + 1) h (some r))
    (rs : List Ptr) (h : List Object) (hn : (garbage h).length < n) :
    gc_mark_refs (gc_mark_fuel n) rs h = gc_mark_refs (gc_mark_fuel (n + 1)) rs h := by
  induction rs generalizing h with
  | nil => rfl
  | cons r rest ihr =>
    simp only [gc_mark_refs]
    rw [← ih h r hn]
    cases hstep : gc_mark_fuel n h (some r) with
    | none => rfl
    | some h2 =>
      have hle := gc_mark_fuel_heapLe n h r h2 hstep
      exact ihr h2 (Nat.lt_of_le_of_lt (heapLe_garbage_length hle) hn)

/-- More fuel than the number of unmarked objects changes nothing. -/
theorem gc_mark_fuel_stable (fuel : Nat) :
    ∀ (h : List Object) (r : Ptr), (garbage h).length < fuel →
      gc_mark_fuel fuel h (some r) = gc_mark_fuel (fuel + 1) h (some r) := by
  induction fuel with
  | zero => intro h r hn; omega
  | succ n ih =>
    intro h r hn
    rw [gc_mark_fuel, gc_mark_fuel]
    cases ho : deref h r with
    | none => rfl
    | some o =>
      by_cases hm : o.marked = true
      · simp [hm]
      · have hm0 : o.marked = false := by simpa using hm
        have hlt := garbage_set_marked_lt h ho hm0
        simp only [hm]
        exact gc_mark_refs_stable n ih o.refs (set_marked h r) (by omega)

theorem gc_mark_rel {P : Ptr → Prop} (h : List Object) (r : Ptr) (h1 : List Object)
    (hP : EdgeClosed P h) (hr : P r) (hrun : gc_mark h (some r) = some h1) :
    MarkRel P h h1 ∧ is_marked h1 r :=
  gc_mark_fuel_rel _ h r h1 hP hr hrun

theorem gc_mark_defined (h : List Object) (r : Ptr) (hE : EdgesLive h)
    (hr : (deref h r).isSome = true) : ∃ h1, gc_mark h (some r) = some h1 :=
  gc_mark_fuel_defined _ h r (Nat.lt_succ_of_le (garbage_length_le h)) hE hr

theorem gc_mark_all_rel {P : Ptr → Prop} (roots : List (Option Ptr)) :
    ∀ (h h1 : List Object), EdgeClosed P h → (∀ r, some r ∈ roots → P r) →
      gc_mark_all h roots = some h1 →
      MarkRel P h h1 ∧ ∀ r, some r ∈ roots → is_marked h1 r := by
  induction roots with
  | nil =>
    intro h h1 _ _ hrun
    simp only [gc_mark_all, Option.some.injEq] at hrun
    subst hrun
    exact ⟨markRel_refl P h, fun r hr => by cases hr⟩
  | cons x rest ih =>
    intro h h1 hP hroots hrun
    cases x with
    | none =>
      simp only [gc_mark_all] at hrun
      obtain ⟨rel, hm⟩ := ih h h1 hP (fun r hr => hroots r (List.mem_cons_of_mem _ hr)) hrun
      refine ⟨rel, fun r hr => ?_⟩
      rcases List.mem_cons.1 hr with hr | hr
      · cases hr
      · exact hm r hr
    | some p =>
      simp only [gc_mark_all] at hrun
      cases hstep : gc_mark h (some p) with
      | none => simp [hstep] at hrun
      | some h2 =>
        simp only [hstep] at hrun
        obtain ⟨rel1, hm1⟩ := gc_mark_rel h p h2 hP (hroots p (List.mem_cons_self _ _)) hstep
        obtain ⟨rel2, hm2⟩ := ih h2 h1 (edgeClosed_of_heapLe rel1.le hP)
          (fun r hr => hroots r (List.mem_cons_of_mem _ hr)) hrun
        refine ⟨markRel_trans rel1 rel2, fun r hr => ?_⟩
        rcases List.mem_cons.1 hr with hr | hr
        · cases hr; exact heapLe_is_marked rel2.le hm1
        · exact hm2 r hr

theorem gc_mark_all_heapLe (roots : List (Option Ptr)) (h h1 : List Object)
    (hrun : gc_mark_all h roots = some h1) : HeapLe h h1 :=
  (gc_mark_all_rel roots h h1 (fun _ _ _ _ _ _ => trivial) (fun _ _ => trivial) hrun).1.le

theorem gc_mark_all_defined (roots : List (Option Ptr)) :
    ∀ (h : List Object), EdgesLive h → RootsLive h roots →
      ∃ h1, gc_mark_all h roots = some h1 := by
  induction roots with
  | nil => intro h _ _; exact ⟨h, rfl⟩
  | cons x rest ih =>
    intro h hE hR
    cases x with
    | none =>
      simp only [gc_mark_all]
      exact ih h hE (fun r hr => hR r (List.mem_cons_of_mem _ hr))
    | some p =>
      obtain ⟨h2, hstep⟩ := gc_mark_defined h p hE (hR p (List.mem_cons_self _ _))
      have hle := gc_mark_fuel_heapLe _ h p h2 hstep
      obtain ⟨h3, hrest⟩ := ih h2 (edgesLive_of_heapLe hle hE)
        (fun r hr => isSome_of_heapLe hle (hR r (List.mem_cons_of_mem _ hr)))
      exact ⟨h3, by simp [gc_mark_all, hstep, hrest]⟩

theorem deref_of_mem {h : List Object} (hnd : DistinctAddrs h) {o : Object} (ho : o ∈ h) :
    deref h o.addr = some o := by
  induction h with
  | nil => cases ho
  | cons x rest ih =>
    rw [deref_cons]
    simp only [DistinctAddrs, List.map_cons, List.nodup_cons, List.mem_map, not_exists,
      not_and] at hnd
    rcases List.mem_cons.1 ho with rfl | ho
    · simp
    · have hne : x.addr ≠ o.addr := fun e => hnd.1 o ho e.symm
      rw [if_neg hne]
      exact ih hnd.2 ho

theorem heapLe_map_addr {h h1 : List Object} (hl : HeapLe h h1) :
    h1.map Object.addr = h.map Object.addr := by
  induction hl with
  | nil => rfl
  | cons hd _ ih => simp [hd.1, ih]

theorem distinctAddrs_of_heapLe {h h1 : List Object} (hl : HeapLe h h1)
    (hnd : DistinctAddrs h) : DistinctAddrs h1 := by
  unfold DistinctAddrs
  rw [heapLe_map_addr hl]
  exact hnd

theorem markLe_unmark {o o1 : Object} (hle : MarkLe o o1) (hm : o.marked = false) :
    { o1 with marked := false } = o := by
  obtain ⟨h1, h2, h3, h4, _⟩ := hle
  cases o; cases o1
  simp only [Object.mk.injEq] at *
  simp_all

theorem mem_swept {h : List Object} {o : Object} :
    o ∈ swept h ↔ ∃ o1 ∈ h, o1.marked = true ∧ { o1 with marked := false } = o := by
  simp [swept, List.mem_map, List.mem_filter, and_assoc]

theorem deref_swept {h : List Object} {a : Ptr} {o : Object}
    (ho : deref h a = some o) (hm : o.marked = true) :
    deref (swept h) a = some { o with marked := false } := by
  induction h with
  | nil => simp [deref] at ho
  | cons x rest ih =>
    rw [deref_cons] at ho
    by_cases hx : x.marked = true
    · have : swept (x :: rest) = { x with marked := false } :: swept rest := by
        simp [swept, List.filter_cons, hx]
      rw [this, deref_cons]
      by_cases hxa : x.addr = a
      · rw [if_pos hxa] at ho; cases ho; exact if_pos hxa
      · rw [if_neg hxa] at ho; rw [if_neg hxa]; exact ih ho
    · have : swept (x :: rest) = swept rest := by
        simp [swept, List.filter_cons, hx]
      rw [this]
      by_cases hxa : x.addr = a
      · rw [if_pos hxa] at ho; cases ho; exact absurd hm hx
      · rw [if_neg hxa] at ho; exact ih ho

theorem deref_swept_none {h : List Object} {a : Ptr}
    (ho : ∀ o ∈ swept h, o.addr ≠ a) : deref (swept h) a = none := by
  simp only [deref, List.find?_eq_none, decide_eq_true_eq]
  exact ho

/-- After a marking pass from the roots over an unmarked heap, the objects the
sweep keeps were in the heap and are reachable. -/
theorem swept_sound {h h1 : List Object} {roots : List (Option Ptr)}
    (rel : MarkRel (Reachable h roots) h h1) (hnd : DistinctAddrs h) (hun : AllUnmarked h)
    {o : Object} (ho : o ∈ swept h1) : o ∈ h ∧ Reachable h roots o.addr := by
  obtain ⟨o1, ho1, hm1, rfl⟩ := mem_swept.1 ho
  obtain ⟨o0, ho0, hle⟩ := heapLe_mem_bwd rel.le ho1
  have hm0 := hun o0 ho0
  rw [markLe_unmark hle hm0]
  refine ⟨ho0, rel.sound o0.addr ⟨o0, deref_of_mem hnd ho0, hm0⟩ ⟨o1, ?_, hm1⟩⟩
  rw [← hle.1]
  exact deref_of_mem (distinctAddrs_of_heapLe rel.le hnd) ho1

/-- After a marking pass from live roots over an unmarked heap whose edges
target live objects, every reachable live object is marked. -/
theorem reachable_is_marked {P : Ptr → Prop} {h h1 : List Object}
    {roots : List (Option Ptr)} (rel : MarkRel P h h1)
    (hroots : ∀ r, some r ∈ roots → is_marked h1 r) (hun : AllUnmarked h)
    (hE : EdgesLive h) {a : Ptr} (ha : Reachable h roots a) : is_marked h1 a := by
  induction ha with
  | root hr => exact hroots _ hr
  | @edge a b o _ ho hb ih =>
    have hmem := (mem_of_deref ho).1
    exact rel.closed a o ho (hun o hmem) ih b hb (hE o hmem b hb)

theorem run_gc_eq (L : Layout) (s : State) (roots : List (Option Ptr)) (h1 : List Object)
    (hne : s.heap_head ≠ []) (hrun : gc_mark_all s.heap_head roots = some h1) :
    run_gc L s roots = some
      { s with
        heap_head := swept h1
        total_objects_freed := s.total_objects_freed + (garbage h1).length
        total_memory_freed := s.total_memory_freed + live_bytes L (garbage h1) } := by
  unfold run_gc
  cases hh : s.heap_head with
  | nil => exact absurd hh hne
  | cons x rest =>
    simp only
    rw [← hh, hrun]
    simp only [gc_sweep_fst]

theorem run_gc_cases (L : Layout) (s : State) (roots : List (Option Ptr)) (s1 : State)
    (hrun : run_gc L s roots = some s1) :
    (s.heap_head = [] ∧ s1 = s) ∨
      ∃ h1, gc_mark_all s.heap_head roots = some h1 ∧ s1.heap_head = swept h1 := by
  by_cases hne : s.heap_head = []
  · left
    simp only [run_gc, hne, Option.some.injEq] at hrun
    exact ⟨hne, hrun.symm⟩
  · right
    cases hm : gc_mark_all s.heap_head roots with
    | none =>
      unfold run_gc at hrun
      cases hh : s.heap_head with
      | nil => exact absurd hh hne
      | cons x rest => rw [hh] at hrun hm; simp [hm] at hrun
    | some h1 =>
      rw [run_gc_eq L s roots h1 hne hm] at hrun
      cases hrun
      exact ⟨h1, rfl, rfl⟩

theorem run_gc_defined (L : Layout) (s : State) (roots : List (Option Ptr))
    (hE : EdgesLive s.heap_head) (hR : RootsLive s.heap_head roots) :
    ∃ s1, run_gc L s roots = some s1 := by
  by_cases hne : s.heap_head = []
  · exact ⟨s, by simp [run_gc, hne]⟩
  · obtain ⟨h1, hm⟩ := gc_mark_all_defined roots s.heap_head hE hR
    exact ⟨_, run_gc_eq L s roots h1 hne hm⟩

theorem two_cycles_rootsLive : RootsLive two_cycles.heap_head [some 0] := by
  intro r hr
  simp only [List.mem_singleton, Option.some.injEq] at hr
  subst hr
  decide

theorem two_cycles_reachable {a : Ptr} (ha : Reachable two_cycles.heap_head [some 0] a) :
    a = 0 ∨ a = 1 ∨ a = 2 := by
  induction ha with
  | root hr => simp at hr; simp [hr]
  | @edge a b o _ ho hb ih =>
    rcases ih with rfl | rfl | rfl
    · have : o = ⟨0, 1000, "A", false, [1]⟩ := by
        have h1 : deref two_cycles.heap_head 0 = some ⟨0, 1000, "A", false, [1]⟩ := by decide
        rw [h1] at ho; cases ho; rfl
      subst this; simp at hb; simp [hb]
    · have : o = ⟨1, 1001, "B", false, [2]⟩ := by
        have h1 : deref two_cycles.heap_head 1 = some ⟨1, 1001, "B", false, [2]⟩ := by decide
        rw [h1] at ho; cases ho; rfl
      subst this; simp at hb; simp [hb]
    · have : o = ⟨2, 1002, "C", false, [0]⟩ := by
        have h1 : deref two_cycles.heap_head 2 = some ⟨2, 1002, "C", false, [0]⟩ := by decide
        rw [h1] at ho; cases ho; rfl
      subst this; simp at hb; simp [hb]

theorem two_cycles_isCycle : IsCycle two_cycles.heap_head [3, 4] := by
  refine ⟨by decide, ?_⟩
  intro i hi
  have hi2 : i < 2 := hi
  interval_cases i
  · exact ⟨⟨3, 1003, "D", false, [4]⟩, by decide, by decide⟩
  · exact ⟨⟨4, 1004, "E", false, [3]⟩, by decide, by decide⟩

/-- C1. Reachability correctness of `run_gc`: on a store whose objects are all
unmarked, whose edges all target live objects and whose roots each name a live
object (or are null), `run_gc` returns, and the objects left in the heap list
are exactly the objects of the former list that are reachable from the roots
along the edges of the former graph. -/
theorem run_gc_reachability (L : Layout) (s : State) (roots : List (Option Ptr))
    (hnd : DistinctAddrs s.heap_head) (hun : AllUnmarked s.heap_head)
    (hE : EdgesLive s.heap_head) (hR : RootsLive s.heap_head roots) :
    ∃ s1, run_gc L s roots = some s1 ∧
      ∀ o, o ∈ s1.heap_head ↔ (o ∈ s.heap_head ∧ Reachable s.heap_head roots o.addr) := by
  obtain ⟨s1, hrun⟩ := run_gc_defined L s roots hE hR
  refine ⟨s1, hrun, fun o => ?_⟩
  rcases run_gc_cases L s roots s1 hrun with ⟨hnil, rfl⟩ | ⟨h1, hm, hs1⟩
  · simp [hnil]
  · obtain ⟨rel, hroots⟩ := gc_mark_all_rel roots s.heap_head h1
      (fun a o ha ho b hb => Reachable.edge ha ho hb) (fun r hr => Reachable.root hr) hm
    rw [hs1]
    constructor
    · exact fun ho => swept_sound rel hnd hun ho
    · rintro ⟨ho, hreach⟩
      obtain ⟨o1, ho1, hm1⟩ := reachable_is_marked rel hroots hun hE hreach
      obtain ⟨o0, ho0, hle⟩ := heapLe_deref_bwd rel.le ho1
      rw [deref_of_mem hnd ho] at ho0
      cases ho0
      exact mem_swept.2 ⟨o1, (mem_of_deref ho1).1, hm1, markLe_unmark hle (hun o ho)⟩

theorem run_gc_reachability_witness :
    DistinctAddrs two_cycles.heap_head ∧ AllUnmarked two_cycles.heap_head ∧
      EdgesLive two_cycles.heap_head ∧ RootsLive two_cycles.heap_head [some 0] ∧
      ∃ s1, run_gc lp64 two_cycles [some 0] = some s1 ∧
        ∀ o, o ∈ s1.heap_head ↔
          (o ∈ two_cycles.heap_head ∧ Reachable two_cycles.heap_head [some 0] o.addr) :=
  ⟨by decide, by decide, by decide, two_cycles_rootsLive,
    run_gc_reachability lp64 two_cycles [some 0] (by decide) (by decide) (by decide)
      two_cycles_rootsLive⟩

theorem stale_marks_rootsLive : RootsLive stale_marks.heap_head [some 0] := by
  intro r hr
  simp only [List.mem_singleton, Option.some.injEq] at hr
  subst hr
  decide

theorem two_cycles_unreachable :
    ∀ a ∈ [3, 4], ¬ Reachable two_cycles.heap_head [some 0] a := by
  intro a ha hr
  have h1 := two_cycles_reachable hr
  simp only [List.mem_cons, List.mem_singleton, List.not_mem_nil, or_false] at ha
  rcases ha with rfl | rfl <;> simp at h1

/-- C4. No dangling edges after a cycle: on a store whose objects are all
unmarked and whose edges all target live objects, `run_gc` returns as soon as
the roots are null or live, and whenever it returns every edge held by a
surviving object targets a surviving object. -/
theorem run_gc_no_dangling_edges (L : Layout) (s : State) (roots : List (Option Ptr))
    (hnd : DistinctAddrs s.heap_head) (hun : AllUnmarked s.heap_head)
    (hE : EdgesLive s.heap_head) :
    (RootsLive s.heap_head roots → ∃ s1, run_gc L s roots = some s1) ∧
      ∀ s1, run_gc L s roots = some s1 → EdgesLive s1.heap_head := by
  refine ⟨run_gc_defined L s roots hE, fun s1 hrun => ?_⟩
  rcases run_gc_cases L s roots s1 hrun with ⟨_, rfl⟩ | ⟨h1, hm, hs1⟩
  · exact hE
  · obtain ⟨rel, _⟩ := gc_mark_all_rel roots s.heap_head h1
      (fun _ _ _ _ _ _ => trivial) (fun _ _ => trivial) hm
    rw [hs1]
    intro o ho b hb
    obtain ⟨o1, ho1, hm1, rfl⟩ := mem_swept.1 ho
    obtain ⟨o0, ho0, hle⟩ := heapLe_mem_bwd rel.le ho1
    have hb0 : b ∈ o0.refs := hle.2.2.2.1 ▸ hb
    have hd1 : deref h1 o0.addr = some o1 := by
      rw [← hle.1]
      exact deref_of_mem (distinctAddrs_of_heapLe rel.le hnd) ho1
    obtain ⟨ob, hob, hmb⟩ := rel.closed o0.addr o0 (deref_of_mem hnd ho0) (hun o0 ho0)
      ⟨o1, hd1, hm1⟩ b hb0 (hE o0 ho0 b hb0)
    rw [deref_swept hob hmb]
    rfl

theorem run_gc_no_dangling_edges_witness :
    DistinctAddrs two_cycles.heap_head ∧ AllUnmarked two_cycles.heap_head ∧
      EdgesLive two_cycles.heap_head ∧
      ((RootsLive two_cycles.heap_head [some 0] →
          ∃ s1, run_gc lp64 two_cycles [some 0] = some s1) ∧
        ∀ s1, run_gc lp64 two_cycles [some 0] = some s1 → EdgesLive s1.heap_head) :=
  ⟨by decide, by decide, by decide,
    run_gc_no_dangling_edges lp64 two_cycles [some 0] (by decide) (by decide) (by decide)⟩

/-- C7. Marks are cleared by a cycle: whatever the marks were before the call,
every object left in the heap list by a `run_gc` on a non-empty store has its
mark clear; and `run_gc` does return when the edges target live objects and
the roots are null or live. -/
theorem run_gc_clears_marks (L : Layout) (s : State) (roots : List (Option Ptr))
    (hne : s.heap_head ≠ []) :
    (EdgesLive s.heap_head → RootsLive s.heap_head roots →
        ∃ s1, run_gc L s roots = some s1) ∧
      ∀ s1, run_gc L s roots = some s1 → ∀ o ∈ s1.heap_head, o.marked = false := by
  refine ⟨run_gc_defined L s roots, fun s1 hrun => ?_⟩
  rcases run_gc_cases L s roots s1 hrun with ⟨hnil, _⟩ | ⟨h1, _, hs1⟩
  · exact absurd hnil hne
  · rw [hs1]
    exact swept_unmarked h1

theorem run_gc_clears_marks_witness :
    stale_marks.heap_head ≠ [] ∧
      ((EdgesLive stale_marks.heap_head → RootsLive stale_marks.heap_head [some 0] →
          ∃ s1, run_gc lp64 stale_marks [some 0] = some s1) ∧
        ∀ s1, run_gc lp64 stale_marks [some 0] = some s1 →
          ∀ o ∈ s1.heap_head, o.marked = false) :=
  ⟨by decide, run_gc_clears_marks lp64 stale_marks [some 0] (by decide)⟩

theorem strlen_letters :
    strlen "A" = 1 ∧ strlen "B" = 1 ∧ strlen "C" = 1 ∧ strlen "D" = 1 ∧ strlen "E" = 1 := by
  decide

theorem scenario_1_eq (L : Layout) :
    scenario_1 L State.init =
      some (scenario_1_state L, [some 0, some 1, some 2, some 3, some 4]) := by
  obtain ⟨hA, hB, hC, hD, hE⟩ := strlen_letters
  simp [scenario_1, create_object, find_object_by_name, add_reference, State.init, deref,
    set_refs, push_root, State.root_count, scenario_1_state, object_size, hA, hB, hC, hD, hE]
  omega

theorem scenario_2_eq (L : Layout) :
    scenario_2 L State.init =
      some (scenario_2_state L, [some 0, some 1, some 2, some 3, some 4]) := by
  obtain ⟨hA, hB, hC, hD, hE⟩ := strlen_letters
  simp [scenario_2, create_object, find_object_by_name, add_reference, State.init, deref,
    set_refs, push_root, State.root_count, scenario_2_state, object_size, hA, hB, hC, hD, hE]
  omega

theorem scenario_1_mark :
    gc_mark_all (scenario_1_state lp64).heap_head [some 0] = some
      [⟨4, 1004, "E", false, []⟩, ⟨3, 1003, "D", false, [4]⟩, ⟨2, 1002, "C", true, []⟩,
        ⟨1, 1001, "B", true, [2]⟩, ⟨0, 1000, "A", true, [1]⟩] := by
  decide

theorem scenario_2_mark :
    gc_mark_all (scenario_2_state lp64).heap_head [some 0] = some
      [⟨4, 1004, "E", false, [3]⟩, ⟨3, 1003, "D", false, [4]⟩, ⟨2, 1002, "C", true, [0]⟩,
        ⟨1, 1001, "B", true, [2]⟩, ⟨0, 1000, "A", true, [1]⟩] := by
  decide

theorem scenario_1_collect (L : Layout) :
    ∃ rep, force_leak_scenario_collect L (scenario_1_state L)
        [some 0, some 1, some 2, some 3, some 4] = some (scenario_1_swept L, rep) ∧
      rep.unreachable = ["D", "E"] ∧ rep.unreachable_count = 2 ∧
      rep.garbage_bytes_est = 2 * (L.sizeofObject + 1 + 1) ∧
      rep.total_memory_freed = 2 * (L.sizeofObject + 1 + 1) + L.sizeofRefNode := by
  obtain ⟨hA, hB, hC, hD, hE⟩ := strlen_letters
  have hm := scenario_1_mark
  simp only [scenario_1_state] at hm
  simp [force_leak_scenario_collect, scenario_1_state, hm, scenario_unreachable, deref,
    gc_sweep_fst, swept, garbage, live_bytes, object_bytes, object_size, scenario_1_swept,
    hA, hB, hC, hD, hE]
  exact ⟨_, ⟨by omega, rfl⟩, rfl, rfl, by show _ + _ = _; omega, by show _ + _ = _; omega⟩

theorem scenario_2_collect (L : Layout) :
    ∃ rep, force_leak_scenario_collect L (scenario_2_state L)
        [some 0, some 1, some 2, some 3, some 4] = some (scenario_2_swept L, rep) ∧
      rep.unreachable = ["D", "E"] ∧ rep.unreachable_count = 2 ∧
      rep.garbage_bytes_est = 2 * (L.sizeofObject + 1 + 1) ∧
      rep.total_memory_freed = 2 * (L.sizeofObject + 1 + 1) + 2 * L.sizeofRefNode := by
  obtain ⟨hA, hB, hC, hD, hE⟩ := strlen_letters
  have hm := scenario_2_mark
  simp only [scenario_2_state] at hm
  simp [force_leak_scenario_collect, scenario_2_state, hm, scenario_unreachable, deref,
    gc_sweep_fst, swept, garbage, live_bytes, object_bytes, object_size, scenario_2_swept,
    hA, hB, hC, hD, hE]
  exact ⟨_, ⟨by omega, rfl⟩, rfl, rfl, by show _ + _ = _; omega, by show _ + _ = _; omega⟩

theorem scenario_2_run_gc (L : Layout) :
    run_gc L (scenario_2_state L) [some 0] = some (scenario_2_swept L) := by
  obtain ⟨hA, hB, hC, hD, hE⟩ := strlen_letters
  have hm := scenario_2_mark
  simp only [scenario_2_state] at hm
  rw [run_gc_eq L (scenario_2_state L) [some 0] _ (by simp [scenario_2_state]) hm]
  simp [scenario_2_state, swept, garbage, live_bytes, object_bytes, object_size,
    scenario_2_swept, hA, hB, hC, hD, hE]
  omega

/-- C8. Full cycle collection: on a store whose objects are all unmarked, the
members of a reference cycle (of length at least 2) none of which is reachable
from a root are live before `run_gc` and gone from the heap list after it, and
`run_gc` does return when the edges target live objects and the roots are null
or live. In particular, on the graph scenario 2 builds (A -> B -> C -> A rooted
at A, D <-> E unrooted), from any prior state, the scenario's mark and sweep
report D and E and leave C, B, A in the heap list, as does one `run_gc`. -/
theorem run_gc_collects_cycles (L : Layout) (s : State) (roots : List (Option Ptr))
    (c : List Ptr) (hnd : DistinctAddrs s.heap_head) (hun : AllUnmarked s.heap_head)
    (hc : IsCycle s.heap_head c) (hunr : ∀ a ∈ c, ¬ Reachable s.heap_head roots a) :
    ((EdgesLive s.heap_head → RootsLive s.heap_head roots →
        ∃ s1, run_gc L s roots = some s1) ∧
      ∀ s1, run_gc L s roots = some s1 →
        ∀ a ∈ c, (deref s.heap_head a).isSome = true ∧ deref s1.heap_head a = none) ∧
    ∀ s0 : State, ∃ b r s1,
      force_leak_scenario_setup L (reset_simulator_state L s0) 2 = some b ∧
      b.1.heap_head.map Object.name = ["E", "D", "C", "B", "A"] ∧
      force_leak_scenario_collect L b.1 b.2 = some r ∧
      r.2.unreachable = ["D", "E"] ∧
      r.1.heap_head.map Object.name = ["C", "B", "A"] ∧
      run_gc L b.1 b.1.roots = some s1 ∧
      s1.heap_head.map Object.name = ["C", "B", "A"] := by
  refine ⟨⟨run_gc_defined L s roots, fun s1 hrun a ha => ?_⟩, fun s0 => ?_⟩
  · have hlive : (deref s.heap_head a).isSome = true := by
      obtain ⟨i, hi, rfl⟩ := List.getElem_of_mem ha
      obtain ⟨o, ho, _⟩ := hc.2 i hi
      rw [List.getD_eq_getElem c 0 hi] at ho
      simp [ho]
    refine ⟨hlive, ?_⟩
    rcases run_gc_cases L s roots s1 hrun with ⟨hnil, _⟩ | ⟨h1, hm, hs1⟩
    · simp [hnil, deref] at hlive
    · obtain ⟨rel, _⟩ := gc_mark_all_rel roots s.heap_head h1
        (fun a o ha ho b hb => Reachable.edge ha ho hb) (fun r hr => Reachable.root hr) hm
      rw [hs1]
      refine deref_swept_none fun o ho hoa => ?_
      exact hunr a ha (hoa ▸ (swept_sound rel hnd hun ho).2)
  · obtain ⟨rep, hcol, hu, _⟩ := scenario_2_collect L
    refine ⟨(scenario_2_state L, [some 0, some 1, some 2, some 3, some 4]),
      (scenario_2_swept L, rep), scenario_2_swept L, ?_, rfl, hcol, hu, rfl,
      scenario_2_run_gc L, rfl⟩
    simp [force_leak_scenario_setup, reset_simulator_state_eq, scenario_2_eq]

theorem run_gc_collects_cycles_witness :
    DistinctAddrs two_cycles.heap_head ∧ AllUnmarked two_cycles.heap_head ∧
      IsCycle two_cycles.heap_head [3, 4] ∧
      (∀ a ∈ [3, 4], ¬ Reachable two_cycles.heap_head [some 0] a) ∧
      ∀ s1, run_gc lp64 two_cycles [some 0] = some s1 →
        ∀ a ∈ [3, 4], (deref two_cycles.heap_head a).isSome = true ∧
          deref s1.heap_head a = none :=
  ⟨by decide, by decide, two_cycles_isCycle, two_cycles_unreachable,
    (run_gc_collects_cycles lp64 two_cycles [some 0] [3, 4] (by decide) (by decide)
      two_cycles_isCycle two_cycles_unreachable).1.2⟩

/-- C10. Scenario 1 determinism: from every prior state,
`force_leak_scenario (1)` builds its graph, lists exactly D and E as
unreachable (count 2), has exactly C, B, A (head first) in the heap list after
its sweep, and announces as garbage estimate the approximate size of D plus
that of E, which is `2 * (sizeof (Object) + 1 + 1)`; it then returns with the
state reset. -/
theorem scenario_1_deterministic (L : Layout) (s : State) :
    ∃ b r, force_leak_scenario_setup L (reset_simulator_state L s) 1 = some b ∧
      force_leak_scenario_collect L b.1 b.2 = some r ∧
      force_leak_scenario L s 1 = some (reset_simulator_state L r.1, some r.2) ∧
      r.2.unreachable = ["D", "E"] ∧ r.2.unreachable_count = 2 ∧
      r.1.heap_head.map Object.name = ["C", "B", "A"] ∧
      r.2.garbage_bytes_est = object_size L "D" + object_size L "E" ∧
      r.2.garbage_bytes_est = 2 * (L.sizeofObject + 1 + 1) := by
  obtain ⟨rep, hcol, hu, hn, hg, _⟩ := scenario_1_collect L
  have hset : force_leak_scenario_setup L (reset_simulator_state L s) 1 =
      some (scenario_1_state L, [some 0, some 1, some 2, some 3, some 4]) := by
    simp [force_leak_scenario_setup, reset_simulator_state_eq, scenario_1_eq]
  refine ⟨_, (scenario_1_swept L, rep), hset, hcol, ?_, hu, hn, rfl, ?_, hg⟩
  · simp [force_leak_scenario, hset, hcol]
  · obtain ⟨_, _, _, hD, hE⟩ := strlen_letters
    rw [hg, object_size, object_size, hD, hE]
    omega

/-- C6. Duplicate creation is rejected without effect: when a live object
already carries the name, `create_object` returns the null pointer and the
state it was given, unchanged in every component. -/
theorem create_object_duplicate (L : Layout) (s : State) (id : Int) (name : String)
    (hdup : ∃ o ∈ s.heap_head, o.name = name) :
    create_object L s id name = (s, none) := by
  obtain ⟨o, ho, hname⟩ := hdup
  unfold create_object find_object_by_name
  cases hf : s.heap_head.find? (fun o => decide (o.name = name)) with
  | none =>
    have := List.find?_eq_none.1 hf o ho
    simp [hname] at this
  | some x => rfl

theorem create_object_duplicate_witness :
    (∃ o ∈ two_cycles.heap_head, o.name = "A") ∧
      create_object lp64 two_cycles 7 "A" = (two_cycles, none) :=
  ⟨by decide, create_object_duplicate lp64 two_cycles 7 "A" (by decide)⟩

/-- C9. Reset completeness: after `reset_simulator_state` the heap list and
the root set are empty (`root_count` is 0), the four counters are 0, and a
second reset changes nothing. -/
theorem reset_complete (L : Layout) (s : State) :
    (reset_simulator_state L s).heap_head = [] ∧
      (reset_simulator_state L s).roots = [] ∧
      (reset_simulator_state L s).root_count = 0 ∧
      (reset_simulator_state L s).total_objects_allocated = 0 ∧
      (reset_simulator_state L s).total_objects_freed = 0 ∧
      (reset_simulator_state L s).total_memory_allocated = 0 ∧
      (reset_simulator_state L s).total_memory_freed = 0 ∧
      reset_simulator_state L (reset_simulator_state L s) = reset_simulator_state L s :=
  ⟨rfl, rfl, rfl, rfl, rfl, rfl, rfl, rfl⟩

/-- C3 (the code does not do this). After the session create A, mark A as
root, visualize, create B, create reference A -> B, the object B (address 1)
is live and reachable from the root A, yet the next run of the collector
removes it: the heap list is left with A alone, holding an edge to the freed
B, and a further run of the collector follows that edge into freed memory. -/
theorem visualize_marks_break_run_gc :
    run lp64 State.init stale_session = some stale_before ∧
      (deref stale_before.heap_head 1).map Object.name = some "B" ∧
      Reachable stale_before.heap_head stale_before.roots 1 ∧
      step lp64 stale_before Op.run_gc = some stale_after ∧
      deref stale_after.heap_head 1 = none ∧
      (deref stale_after.heap_head 0).map Object.refs = some [1] ∧
      step lp64 stale_after Op.run_gc = none :=
  ⟨by decide, by decide,
    Reachable.edge (Reachable.root (by decide))
      (by decide : deref stale_before.heap_head 0 = some ⟨0, 1, "A", true, [1]⟩) (by decide),
    by decide, by decide, by decide, by decide⟩

theorem live_bytes_cons (L : Layout) (o : Object) (h : List Object) :
    live_bytes L (o :: h) = object_bytes L o + live_bytes L h := by
  simp [live_bytes]

theorem live_bytes_heapLe (L : Layout) {h h1 : List Object} (hl : HeapLe h h1) :
    live_bytes L h1 = live_bytes L h := by
  induction hl with
  | nil => rfl
  | cons hd _ ih =>
    rw [live_bytes_cons, live_bytes_cons, ih]
    simp [object_bytes, hd.2.2.1, hd.2.2.2.1]

theorem heapLe_map_name {h h1 : List Object} (hl : HeapLe h h1) :
    h1.map Object.name = h.map Object.name := by
  induction hl with
  | nil => rfl
  | cons hd _ ih => simp [hd.2.2.1, ih]

theorem live_bytes_split (L : Layout) (h : List Object) :
    live_bytes L h = live_bytes L (swept h) + live_bytes L (garbage h) := by
  induction h with
  | nil => rfl
  | cons o rest ih =>
    by_cases hm : o.marked = true
    · have h1 : swept (o :: rest) = { o with marked := false } :: swept rest := by
        simp [swept, List.filter_cons, hm]
      have h2 : garbage (o :: rest) = garbage rest := by
        simp [garbage, List.filter_cons, hm]
      rw [h1, h2, live_bytes_cons, live_bytes_cons, ih]
      simp [object_bytes]; omega
    · have h1 : swept (o :: rest) = swept rest := by
        simp [swept, List.filter_cons, hm]
      have h2 : garbage (o :: rest) = o :: garbage rest := by
        simp [garbage, List.filter_cons, hm]
      rw [h1, h2, live_bytes_cons, live_bytes_cons, ih]
      omega

theorem swept_map_addr (h : List Object) :
    (swept h).map Object.addr = (h.filter fun o => o.marked).map Object.addr := by
  simp [swept, List.map_map, Function.comp_def]

theorem swept_map_name (h : List Object) :
    (swept h).map Object.name = (h.filter fun o => o.marked).map Object.name := by
  simp [swept, List.map_map, Function.comp_def]

theorem distinctAddrs_swept {h : List Object} (hnd : DistinctAddrs h) :
    DistinctAddrs (swept h) := by
  unfold DistinctAddrs
  rw [swept_map_addr]
  exact List.Nodup.sublist (List.Sublist.map _ (List.filter_sublist h)) hnd

theorem mem_swept_addr {h : List Object} {o : Object} (ho : o ∈ swept h) :
    ∃ o1 ∈ h, o1.addr = o.addr := by
  obtain ⟨o1, ho1, _, rfl⟩ := mem_swept.1 ho
  exact ⟨o1, ho1, rfl⟩

theorem set_refs_cons (x : Object) (rest : List Object) (p : Ptr) (refs : List Ptr) :
    set_refs (x :: rest) p refs =
      (if x.addr = p then { x with refs := refs } else x) :: set_refs rest p refs := rfl

theorem set_refs_map_addr (h : List Object) (p : Ptr) (refs : List Ptr) :
    (set_refs h p refs).map Object.addr = h.map Object.addr := by
  induction h with
  | nil => rfl
  | cons x rest ih =>
    rw [set_refs_cons, List.map_cons, List.map_cons, ih]
    by_cases hx : x.addr = p <;> simp [hx]

theorem set_refs_map_name (h : List Object) (p : Ptr) (refs : List Ptr) :
    (set_refs h p refs).map Object.name = h.map Object.name := by
  induction h with
  | nil => rfl
  | cons x rest ih =>
    rw [set_refs_cons, List.map_cons, List.map_cons, ih]
    by_cases hx : x.addr = p <;> simp [hx]

theorem set_refs_absent (h : List Object) (p : Ptr) (refs : List Ptr)
    (hp : ∀ o ∈ h, o.addr ≠ p) : set_refs h p refs = h := by
  induction h with
  | nil => rfl
  | cons x rest ih =>
    rw [set_refs_cons, if_neg (hp x (List.mem_cons_self _ _)),
      ih (fun o ho => hp o (List.mem_cons_of_mem _ ho))]

theorem live_bytes_set_refs (L : Layout) {h : List Object} (hnd : DistinctAddrs h)
    {f t : Ptr} {fo : Object} (hf : deref h f = some fo) :
    live_bytes L (set_refs h f (t :: fo.refs)) = live_bytes L h + L.sizeofRefNode := by
  induction h with
  | nil => simp [deref] at hf
  | cons x rest ih =>
    rw [deref_cons] at hf
    simp only [DistinctAddrs, List.map_cons, List.nodup_cons, List.mem_map, not_exists,
      not_and] at hnd
    rw [set_refs_cons, live_bytes_cons, live_bytes_cons]
    by_cases hx : x.addr = f
    · rw [if_pos hx] at hf
      cases hf
      rw [if_pos hx, set_refs_absent rest f _ (fun o ho e => hnd.1 o ho (e.trans hx.symm))]
      simp [object_bytes, Nat.mul_succ]; omega
    · rw [if_neg hx] at hf
      rw [if_neg hx, ih hnd.2 hf]
      omega

theorem final_cleanup_loop_eq (L : Layout) (h : List Object) (s : State) :
    final_cleanup_loop L h s =
      { s with
        total_objects_freed := s.total_objects_freed + h.length
        total_memory_freed := s.total_memory_freed + live_bytes L h } := by
  induction h generalizing s with
  | nil => rfl
  | cons o rest ih =>
    simp only [final_cleanup_loop, ih, clear_references_fst, live_bytes_cons, object_bytes,
      List.length_cons]
    simp; constructor <;> omega

theorem final_cleanup_eq (L : Layout) (s : State) :
    final_cleanup L s =
      { s with
        heap_head := []
        total_objects_freed := s.total_objects_freed + s.heap_head.length
        total_memory_freed := s.total_memory_freed + live_bytes L s.heap_head } := by
  unfold final_cleanup
  cases hh : s.heap_head with
  | nil =>
    cases s
    simp only at hh
    simp [hh, live_bytes]
  | cons x rest =>
    simp only
    rw [final_cleanup_loop_eq]

theorem force_leak_scenario_state (L : Layout) (s : State) (scenario_id : Int)
    (r : State × Option ScenarioReport)
    (hrun : force_leak_scenario L s scenario_id = some r) : r.1 = State.init := by
  unfold force_leak_scenario at hrun
  split at hrun
  · simp only [Option.bind_eq_some, Option.some.injEq] at hrun
    obtain ⟨b, _, c, _, rfl⟩ := hrun
    rfl
  · cases hrun
    rfl

theorem find_object_by_name_none {s : State} {name : String}
    (hf : find_object_by_name s name = none) : name ∉ s.heap_head.map Object.name := by
  simp only [find_object_by_name, Option.map_eq_none', List.find?_eq_none,
    decide_eq_true_eq] at hf
  intro hmem
  obtain ⟨o, ho, hn⟩ := List.mem_map.1 hmem
  exact hf o ho hn

theorem create_object_cases (L : Layout) (s : State) (id : Int) (name : String) :
    (create_object L s id name).1 = s ∨
      (name ∉ s.heap_head.map Object.name ∧
        (create_object L s id name).1 =
          { s with
            heap_head := ⟨s.next_ptr, id, name, false, []⟩ :: s.heap_head
            total_objects_allocated := s.total_objects_allocated + 1
            total_memory_allocated := s.total_memory_allocated + object_size L name
            next_ptr := s.next_ptr + 1 }) := by
  unfold create_object
  cases hf : find_object_by_name s name with
  | some p => left; rfl
  | none => right; exact ⟨find_object_by_name_none hf, rfl⟩

theorem add_reference_cases (L : Layout) (s s1 : State) (frm tgt : Option Ptr)
    (hrun : add_reference L s frm tgt = some s1) :
    s1 = s ∨ ∃ f t fo, deref s.heap_head f = some fo ∧
      s1 = { s with
        heap_head := set_refs s.heap_head f (t :: fo.refs)
        total_memory_allocated := s.total_memory_allocated + L.sizeofRefNode } := by
  unfold add_reference at hrun
  split at hrun
  · left; cases hrun; rfl
  · left; cases hrun; rfl
  · rename_i f t
    split at hrun
    · cases hrun
    · rename_i fo hfo
      split at hrun
      · left; cases hrun; rfl
      · split at hrun
        · cases hrun
        · split at hrun
          · left; cases hrun; rfl
          · right; cases hrun; exact ⟨f, t, fo, hfo, rfl⟩

theorem run_gc_full (L : Layout) (s : State) (roots : List (Option Ptr)) (s1 : State)
    (hrun : run_gc L s roots = some s1) :
    s1 = s ∨ ∃ h1, gc_mark_all s.heap_head roots = some h1 ∧ s1 =
      { s with
        heap_head := swept h1
        total_objects_freed := s.total_objects_freed + (garbage h1).length
        total_memory_freed := s.total_memory_freed + live_bytes L (garbage h1) } := by
  by_cases hne : s.heap_head = []
  · left
    simp only [run_gc, hne, Option.some.injEq] at hrun
    exact hrun.symm
  · right
    cases hm : gc_mark_all s.heap_head roots with
    | none =>
      unfold run_gc at hrun
      cases hh : s.heap_head with
      | nil => exact absurd hh hne
      | cons x rest => rw [hh] at hrun hm; simp [hm] at hrun
    | some h1 =>
      rw [run_gc_eq L s roots h1 hne hm] at hrun
      cases hrun
      exact ⟨h1, rfl, rfl⟩

theorem inv_init (L : Layout) : Inv L State.init := by
  refine ⟨⟨?_, ?_⟩, ?_⟩
  · simp [DistinctAddrs, State.init]
  · simp [State.init]
  · simp [Acct, State.init, live_bytes]

theorem inv_set_heap (L : Layout) {s : State} {h1 : List Object} (hs : Inv L s)
    (hl : HeapLe s.heap_head h1) : Inv L { s with heap_head := h1 } := by
  obtain ⟨⟨hnd, hb⟩, ha⟩ := hs
  refine ⟨⟨distinctAddrs_of_heapLe hl hnd, ?_⟩, ?_⟩
  · intro o1 ho1
    obtain ⟨o, ho, hle⟩ := heapLe_mem_bwd hl ho1
    rw [hle.1]
    exact hb o ho
  · simp only [Acct] at ha ⊢
    rw [live_bytes_heapLe L hl]
    exact ha

theorem inv_sweep (L : Layout) {s : State} (hs : Inv L s) :
    Inv L
      { s with
        heap_head := swept s.heap_head
        total_objects_freed := s.total_objects_freed + (garbage s.heap_head).length
        total_memory_freed := s.total_memory_freed + live_bytes L (garbage s.heap_head) } := by
  obtain ⟨⟨hnd, hb⟩, ha⟩ := hs
  refine ⟨⟨distinctAddrs_swept hnd, ?_⟩, ?_⟩
  · intro o ho
    obtain ⟨o1, ho1, he⟩ := mem_swept_addr ho
    rw [← he]
    exact hb o1 ho1
  · simp only [Acct] at ha ⊢
    rw [ha, live_bytes_split L s.heap_head]
    omega

theorem inv_create_object (L : Layout) {s : State} (hs : Inv L s) (id : Int)
    (name : String) : Inv L (create_object L s id name).1 := by
  rcases create_object_cases L s id name with h | ⟨_, h⟩
  · rw [h]; exact hs
  · rw [h]
    obtain ⟨⟨hnd, hb⟩, ha⟩ := hs
    refine ⟨⟨?_, ?_⟩, ?_⟩
    · simp only [DistinctAddrs, List.map_cons, List.nodup_cons, List.mem_map, not_exists,
        not_and]
      refine ⟨fun o ho he => ?_, hnd⟩
      have := hb o ho
      rw [he] at this
      exact Nat.lt_irrefl _ this
    · intro o ho
      rcases List.mem_cons.1 ho with rfl | ho
      · exact Nat.lt_succ_self _
      · exact Nat.lt_succ_of_lt (hb o ho)
    · simp only [Acct] at ha ⊢
      rw [live_bytes_cons, ha]
      simp [object_bytes]
      omega

theorem inv_add_reference (L : Layout) {s s1 : State} (hs : Inv L s)
    {frm tgt : Option Ptr} (hrun : add_reference L s frm tgt = some s1) : Inv L s1 := by
  rcases add_reference_cases L s s1 frm tgt hrun with rfl | ⟨f, t, fo, hfo, rfl⟩
  · exact hs
  · obtain ⟨⟨hnd, hb⟩, ha⟩ := hs
    refine ⟨⟨?_, ?_⟩, ?_⟩
    · simp only [DistinctAddrs, set_refs_map_addr]
      exact hnd
    · intro o ho
      have hmem : o.addr ∈ (set_refs s.heap_head f (t :: fo.refs)).map Object.addr :=
        List.mem_map_of_mem _ ho
      rw [set_refs_map_addr] at hmem
      obtain ⟨o1, ho1, he⟩ := List.mem_map.1 hmem
      rw [← he]
      exact hb o1 ho1
    · simp only [Acct] at ha ⊢
      rw [live_bytes_set_refs L hnd hfo, ha]
      omega

theorem push_root_cases {s s1 : State} {p : Option Ptr} (hrun : push_root s p = some s1) :
    s1 = { s with roots := s.roots ++ [p] } := by
  unfold push_root at hrun
  split at hrun
  · cases hrun; rfl
  · cases hrun

theorem inv_push_root (L : Layout) {s s1 : State} (hs : Inv L s) {p : Option Ptr}
    (hrun : push_root s p = some s1) : Inv L s1 := by
  rw [push_root_cases hrun]
  exact hs

theorem inv_run_gc (L : Layout) {s s1 : State} (hs : Inv L s) {roots : List (Option Ptr)}
    (hrun : run_gc L s roots = some s1) : Inv L s1 := by
  rcases run_gc_full L s roots s1 hrun with rfl | ⟨h1, hm, rfl⟩
  · exact hs
  · exact inv_sweep L (inv_set_heap L hs (gc_mark_all_heapLe roots s.heap_head h1 hm))

theorem inv_final_cleanup (L : Layout) {s : State} (hs : Inv L s) :
    Inv L (final_cleanup L s) := by
  rw [final_cleanup_eq]
  obtain ⟨_, ha⟩ := hs
  refine ⟨⟨?_, ?_⟩, ?_⟩
  · simp [DistinctAddrs]
  · simp
  · simp only [Acct] at ha ⊢
    simp [live_bytes] at ha ⊢
    exact ha

theorem menu_create_reference_cases (L : Layout) (s s1 : State) (name1 name2 : String)
    (hrun : menu_create_reference L s name1 name2 = some s1) :
    s1 = s ∨ ∃ f t, add_reference L s (some f) (some t) = some s1 := by
  unfold menu_create_reference at hrun
  split at hrun
  · rename_i f t _ _
    exact Or.inr ⟨f, t, hrun⟩
  · cases hrun; exact Or.inl rfl

theorem menu_mark_root_cases (s s1 : State) (name : String)
    (hrun : menu_mark_root s name = some s1) :
    s1 = s ∨ ∃ p, find_object_by_name s name = some p ∧ some p ∉ s.roots ∧
      push_root s (some p) = some s1 := by
  unfold menu_mark_root at hrun
  split at hrun
  · cases hrun; exact Or.inl rfl
  · rename_i p hp
    split at hrun
    · cases hrun; exact Or.inl rfl
    · rename_i hnot
      exact Or.inr ⟨p, hp, hnot, hrun⟩

theorem menu_visualize_cases (s s1 : State) (hrun : menu_visualize s = some s1) :
    ∃ h1, gc_mark_all s.heap_head s.roots = some h1 ∧ s1 = { s with heap_head := h1 } := by
  unfold menu_visualize at hrun
  cases hm : gc_mark_all s.heap_head s.roots with
  | none => simp [hm] at hrun
  | some h1 =>
    simp only [hm, Option.map_some', Option.some.injEq] at hrun
    exact ⟨h1, rfl, hrun.symm⟩

/-- Every operation preserves the invariant. -/
theorem inv_step (L : Layout) {s s1 : State} (hs : Inv L s) (op : Op)
    (hrun : step L s op = some s1) : Inv L s1 := by
  cases op with
  | create_object id name =>
    simp only [step, Option.some.injEq] at hrun
    subst hrun
    exact inv_create_object L hs id name
  | add_reference frm tgt => exact inv_add_reference L hs hrun
  | create_reference name1 name2 =>
    rcases menu_create_reference_cases L s s1 name1 name2 hrun with rfl | ⟨f, t, h⟩
    · exact hs
    · exact inv_add_reference L hs h
  | mark_root name =>
    rcases menu_mark_root_cases s s1 name hrun with rfl | ⟨p, _, _, h⟩
    · exact hs
    · exact inv_push_root L hs h
  | run_gc => exact inv_run_gc L hs hrun
  | visualize =>
    obtain ⟨h1, hm, rfl⟩ := menu_visualize_cases s s1 hrun
    exact inv_set_heap L hs (gc_mark_all_heapLe s.roots s.heap_head h1 hm)
  | gc_sweep =>
    simp only [step, Option.some.injEq] at hrun
    subst hrun
    rw [gc_sweep_fst]
    exact inv_sweep L hs
  | force_leak_scenario scenario_id =>
    simp only [step, Option.map_eq_some'] at hrun
    obtain ⟨r, hr, rfl⟩ := hrun
    rw [force_leak_scenario_state L s scenario_id r hr]
    exact inv_init L
  | reset_simulator_state =>
    simp only [step, Option.some.injEq] at hrun
    subst hrun
    exact inv_init L
  | final_cleanup =>
    simp only [step, Option.some.injEq] at hrun
    subst hrun
    exact inv_final_cleanup L hs

/-- A property every operation preserves holds after any sequence of them. -/
theorem run_preserves (L : Layout) (P : State → Prop)
    (hstep : ∀ s op s1, P s → step L s op = some s1 → P s1) :
    ∀ (ops : List Op) (s s1 : State), P s → run L s ops = some s1 → P s1 := by
  intro ops
  induction ops with
  | nil =>
    intro s s1 hs hrun
    simp only [run, Option.some.injEq] at hrun
    exact hrun ▸ hs
  | cons op rest ih =>
    intro s s1 hs hrun
    simp only [run] at hrun
    cases h : step L s op with
    | none => simp [h] at hrun
    | some s2 =>
      simp only [h] at hrun
      exact ih s2 s1 (hstep s op s2 hs h) hrun

theorem names_init : NamesDistinct State.init := by
  simp [NamesDistinct, State.init]

theorem names_set_heap {s : State} {h1 : List Object} (hs : NamesDistinct s)
    (hl : HeapLe s.heap_head h1) : NamesDistinct { s with heap_head := h1 } := by
  simp only [NamesDistinct, heapLe_map_name hl]
  exact hs

theorem names_swept {h : List Object} (hs : (h.map Object.name).Nodup) :
    ((swept h).map Object.name).Nodup := by
  rw [swept_map_name]
  exact List.Nodup.sublist (List.Sublist.map _ (List.filter_sublist h)) hs

theorem names_create_object (L : Layout) {s : State} (hs : NamesDistinct s) (id : Int)
    (name : String) : NamesDistinct (create_object L s id name).1 := by
  rcases create_object_cases L s id name with h | ⟨hfresh, h⟩
  · rw [h]; exact hs
  · rw [h]
    simp only [NamesDistinct, List.map_cons, List.nodup_cons]
    exact ⟨hfresh, hs⟩

theorem names_add_reference (L : Layout) {s s1 : State} (hs : NamesDistinct s)
    {frm tgt : Option Ptr} (hrun : add_reference L s frm tgt = some s1) :
    NamesDistinct s1 := by
  rcases add_reference_cases L s s1 frm tgt hrun with rfl | ⟨f, t, fo, _, rfl⟩
  · exact hs
  · simp only [NamesDistinct, set_refs_map_name]
    exact hs

theorem names_push_root {s s1 : State} (hs : NamesDistinct s) {p : Option Ptr}
    (hrun : push_root s p = some s1) : NamesDistinct s1 := by
  rw [push_root_cases hrun]
  exact hs

theorem names_run_gc (L : Layout) {s s1 : State} (hs : NamesDistinct s)
    {roots : List (Option Ptr)} (hrun : run_gc L s roots = some s1) : NamesDistinct s1 := by
  rcases run_gc_full L s roots s1 hrun with rfl | ⟨h1, hm, rfl⟩
  · exact hs
  · have := names_set_heap hs (gc_mark_all_heapLe roots s.heap_head h1 hm)
    exact names_swept this

/-- Every operation keeps the names of the heap list distinct. -/
theorem names_step (L : Layout) {s s1 : State} (hs : NamesDistinct s) (op : Op)
    (hrun : step L s op = some s1) : NamesDistinct s1 := by
  cases op with
  | create_object id name =>
    simp only [step, Option.some.injEq] at hrun
    subst hrun
    exact names_create_object L hs id name
  | add_reference frm tgt => exact names_add_reference L hs hrun
  | create_reference name1 name2 =>
    rcases menu_create_reference_cases L s s1 name1 name2 hrun with rfl | ⟨f, t, h⟩
    · exact hs
    · exact names_add_reference L hs h
  | mark_root name =>
    rcases menu_mark_root_cases s s1 name hrun with rfl | ⟨p, _, _, h⟩
    · exact hs
    · exact names_push_root hs h
  | run_gc => exact names_run_gc L hs hrun
  | visualize =>
    obtain ⟨h1, hm, rfl⟩ := menu_visualize_cases s s1 hrun
    exact names_set_heap hs (gc_mark_all_heapLe s.roots s.heap_head h1 hm)
  | gc_sweep =>
    simp only [step, Option.some.injEq] at hrun
    subst hrun
    rw [gc_sweep_fst]
    exact names_swept hs
  | force_leak_scenario scenario_id =>
    simp only [step, Option.map_eq_some'] at hrun
    obtain ⟨r, hr, rfl⟩ := hrun
    rw [force_leak_scenario_state L s scenario_id r hr]
    exact names_init
  | reset_simulator_state =>
    simp only [step, Option.some.injEq] at hrun
    subst hrun
    exact names_init
  | final_cleanup =>
    simp only [step, Option.some.injEq] at hrun
    subst hrun
    rw [final_cleanup_eq]
    simp [NamesDistinct]

/-- The construction loops of the scenarios preserve a property that
`create_object`, `add_reference` and `push_root` preserve. -/
theorem scenario_3_chain_preserves (L : Layout) (P : State → Prop)
    (hc : ∀ s id name, P s → P (create_object L s id name).1)
    (ha : ∀ s s1 frm tgt, P s → add_reference L s frm tgt = some s1 → P s1)
    (hp : ∀ s s1 p, P s → push_root s p = some s1 → P s1) :
    ∀ (is : List Nat) (s : State) (idc : Int) (prev : Option Ptr)
      (created : List (Option Ptr)) (r : State × Int × List (Option Ptr)),
      P s → scenario_3_chain L is s idc prev created = some r → P r.1 := by
  intro is
  induction is with
  | nil =>
    intro s idc prev created r hs hrun
    simp only [scenario_3_chain, Option.some.injEq] at hrun
    subst hrun
    exact hs
  | cons i rest ih =>
    intro s idc prev created r hs hrun
    simp only [scenario_3_chain, Option.bind_eq_some] at hrun
    obtain ⟨s1, hlink, hrest⟩ := hrun
    have hnode := hc s idc ("N" ++ toString i) hs
    refine ih _ _ _ _ r ?_ hrest
    cases prev with
    | none => exact hp _ _ _ hnode hlink
    | some p => exact ha _ _ _ _ hnode hlink

theorem scenario_3_extra_preserves (L : Layout) (P : State → Prop)
    (hc : ∀ s id name, P s → P (create_object L s id name).1) :
    ∀ (is : List Nat) (s : State) (idc : Int) (created : List (Option Ptr)),
      P s → P (scenario_3_extra L is s idc created).1 := by
  intro is
  induction is with
  | nil => intro s idc created hs; exact hs
  | cons i rest ih =>
    intro s idc created hs
    simp only [scenario_3_extra]
    exact ih _ _ _ (hc s idc ("X" ++ toString i) hs)

/-- The construction part of `force_leak_scenario` preserves a property that
`create_object`, `add_reference` and `push_root` preserve. -/
theorem force_leak_scenario_setup_preserves (L : Layout) (P : State → Prop)
    (hc : ∀ s id name, P s → P (create_object L s id name).1)
    (ha : ∀ s s1 frm tgt, P s → add_reference L s frm tgt = some s1 → P s1)
    (hp : ∀ s s1 p, P s → push_root s p = some s1 → P s1)
    (s : State) (scenario_id : Int) (b : State × List (Option Ptr)) (hs : P s)
    (hrun : force_leak_scenario_setup L s scenario_id = some b) : P b.1 := by
  unfold force_leak_scenario_setup at hrun
  split at hrun
  · simp only [scenario_1, Option.bind_eq_some, Option.some.injEq] at hrun
    obtain ⟨s1, h1, s2, h2, s3, h3, s4, h4, rfl⟩ := hrun
    have hE := hc _ 1004 "E" (hc _ 1003 "D" (hc _ 1002 "C" (hc _ 1001 "B"
      (hc s 1000 "A" hs))))
    exact hp _ _ _ (ha _ _ _ _ (ha _ _ _ _ (ha _ _ _ _ hE h1) h2) h3) h4
  · split at hrun
    · simp only [scenario_2, Option.bind_eq_some, Option.some.injEq] at hrun
      obtain ⟨s1, h1, s2, h2, s3, h3, s4, h4, s5, h5, s6, h6, rfl⟩ := hrun
      have hC := hc _ 1002 "C" (hc _ 1001 "B" (hc s 1000 "A" hs))
      have h3' := ha _ _ _ _ (ha _ _ _ _ (ha _ _ _ _ hC h1) h2) h3
      have hE := hc _ 1004 "E" (hc _ 1003 "D" h3')
      exact hp _ _ _ (ha _ _ _ _ (ha _ _ _ _ hE h4) h5) h6
    · simp only [scenario_3, Option.bind_eq_some, Option.some.injEq] at hrun
      obtain ⟨r, hr, rfl⟩ := hrun
      exact scenario_3_extra_preserves L P hc _ _ _ _
        (scenario_3_chain_preserves L P hc ha hp _ _ _ _ _ r hs hr)

theorem live_bytes_unmark (L : Layout) (h : List Object) :
    live_bytes L (h.map fun o => { o with marked := false }) = live_bytes L h := by
  induction h with
  | nil => rfl
  | cons o rest ih =>
    rw [List.map_cons, live_bytes_cons, live_bytes_cons, ih]
    rfl

theorem map_addr_unmark (h : List Object) :
    (h.map fun o => { o with marked := false }).map Object.addr = h.map Object.addr := by
  simp [List.map_map, Function.comp_def]

theorem map_name_unmark (h : List Object) :
    (h.map fun o => { o with marked := false }).map Object.name = h.map Object.name := by
  simp [List.map_map, Function.comp_def]

theorem force_leak_scenario_collect_cases (L : Layout) (s : State)
    (created : List (Option Ptr)) (r : State × ScenarioReport)
    (hrun : force_leak_scenario_collect L s created = some r) :
    ∃ h1, gc_mark_all s.heap_head s.roots = some h1 ∧
      (r.1 = (gc_sweep L { s with heap_head := h1 }).1 ∨
        r.1 = { s with heap_head := h1.map fun o => { o with marked := false } }) := by
  simp only [force_leak_scenario_collect, Option.bind_eq_some, Option.some.injEq] at hrun
  obtain ⟨h1, hm, u, _, rfl⟩ := hrun
  refine ⟨h1, hm, ?_⟩
  by_cases hu : 0 < u.2.1
  · left; simp [hu]
  · right; simp [hu]

theorem inv_collect (L : Layout) {s : State} (hs : Inv L s) (created : List (Option Ptr))
    (r : State × ScenarioReport)
    (hrun : force_leak_scenario_collect L s created = some r) : Inv L r.1 := by
  obtain ⟨h1, hm, hr | hr⟩ := force_leak_scenario_collect_cases L s created r hrun
  · rw [hr, gc_sweep_fst]
    exact inv_sweep L (inv_set_heap L hs (gc_mark_all_heapLe s.roots s.heap_head h1 hm))
  · rw [hr]
    obtain ⟨⟨hnd, hb⟩, ha⟩ := inv_set_heap L hs (gc_mark_all_heapLe s.roots s.heap_head h1 hm)
    refine ⟨⟨?_, ?_⟩, ?_⟩
    · simp only [DistinctAddrs, map_addr_unmark]
      exact hnd
    · intro o ho
      obtain ⟨o1, ho1, rfl⟩ := List.mem_map.1 ho
      exact hb o1 ho1
    · simp only [Acct, live_bytes_unmark] at ha ⊢
      exact ha

theorem names_collect (L : Layout) {s : State} (hs : NamesDistinct s)
    (created : List (Option Ptr)) (r : State × ScenarioReport)
    (hrun : force_leak_scenario_collect L s created = some r) : NamesDistinct r.1 := by
  obtain ⟨h1, hm, hr | hr⟩ := force_leak_scenario_collect_cases L s created r hrun
  · rw [hr, gc_sweep_fst]
    exact names_swept (names_set_heap hs (gc_mark_all_heapLe s.roots s.heap_head h1 hm))
  · rw [hr]
    have := names_set_heap hs (gc_mark_all_heapLe s.roots s.heap_head h1 hm)
    simp only [NamesDistinct, map_name_unmark] at this ⊢
    exact this

theorem live_bytes_eq (L : Layout) (h : List Object) :
    live_bytes L h =
      (h.map fun o => L.sizeofObject + strlen o.name + 1).sum +
        L.sizeofRefNode * (h.map fun o => o.refs.length).sum := by
  induction h with
  | nil => rfl
  | cons o rest ih =>
    rw [live_bytes_cons, ih]
    simp only [List.map_cons, List.sum_cons, object_bytes, object_size, Nat.mul_add]
    omega

/-- C2. Accounting conservation: in every state reached from the initial one
by any sequence of operations, the freed bytes do not exceed the allocated
bytes and their difference is the sum over the live objects of
`sizeof (Object) + strlen (name) + 1` plus `sizeof (RefNode)` times the number
of edges the live objects hold. Every operation preserves the equation from
any well-formed state, and it also holds inside `force_leak_scenario`, after
the construction and after the sweep. -/
theorem accounting_conservation (L : Layout) (ops : List Op) (s : State)
    (hrun : run L State.init ops = some s) :
    (s.total_memory_freed ≤ s.total_memory_allocated ∧
      s.total_memory_allocated - s.total_memory_freed =
        (s.heap_head.map fun o => L.sizeofObject + strlen o.name + 1).sum +
          L.sizeofRefNode * (s.heap_head.map fun o => o.refs.length).sum) ∧
    (∀ (t : State) (op : Op) (t1 : State), WellFormed t → Acct L t →
      step L t op = some t1 → Acct L t1) ∧
    (∀ (scenario_id : Int) (b : State × List (Option Ptr)),
      force_leak_scenario_setup L (reset_simulator_state L s) scenario_id = some b →
        Acct L b.1 ∧
          ∀ r, force_leak_scenario_collect L b.1 b.2 = some r → Acct L r.1) := by
  have hinv : Inv L s :=
    run_preserves L (Inv L) (fun s op s1 hs h => inv_step L hs op h) ops _ s (inv_init L) hrun
  refine ⟨?_, fun t op t1 hw ha h => (inv_step L ⟨hw, ha⟩ op h).2, fun scenario_id b hb => ?_⟩
  · have ha := hinv.2
    simp only [Acct] at ha
    rw [← live_bytes_eq]
    omega
  · have hb1 : Inv L b.1 :=
      force_leak_scenario_setup_preserves L (Inv L)
        (fun s id name hs => inv_create_object L hs id name)
        (fun s s1 frm tgt hs h => inv_add_reference L hs h)
        (fun s s1 p hs h => inv_push_root L hs h) _ scenario_id b
        (by rw [reset_simulator_state_eq]; exact inv_init L) hb
    exact ⟨hb1.2, fun r hr => (inv_collect L hb1 b.2 r hr).2⟩

theorem accounting_conservation_witness :
    run lp64 State.init stale_session = some stale_before ∧
      stale_before.total_memory_allocated - stale_before.total_memory_freed =
        (stale_before.heap_head.map fun o => lp64.sizeofObject + strlen o.name + 1).sum +
          lp64.sizeofRefNode * (stale_before.heap_head.map fun o => o.refs.length).sum :=
  ⟨by decide, (accounting_conservation lp64 stale_session stale_before (by decide)).1.2⟩

/-- C5. Name uniqueness: in every state reached from the initial one by any
sequence of operations, no two objects of the heap list carry the same
name. -/
theorem names_unique (L : Layout) (ops : List Op) (s : State)
    (hrun : run L State.init ops = some s) :
    (s.heap_head.map Object.name).Nodup ∧
      s.heap_head.Pairwise (fun o1 o2 => o1.name ≠ o2.name) := by
  have hn : NamesDistinct s :=
    run_preserves L NamesDistinct (fun s op s1 hs h => names_step L hs op h) ops _ s
      names_init hrun
  exact ⟨hn, (List.pairwise_map).1 hn⟩

theorem names_unique_witness :
    run lp64 State.init naming_session = some naming_state ∧
      (naming_state.heap_head.map Object.name).Nodup ∧
      naming_state.heap_head.Pairwise (fun o1 o2 => o1.name ≠ o2.name) :=
  ⟨by decide, names_unique lp64 naming_session naming_state (by decide)⟩

theorem deref_set_refs_ne (h : List Object) {p a : Ptr} (refs : List Ptr) (hne : a ≠ p) :
    deref (set_refs h p refs) a = deref h a := by
  induction h with
  | nil => rfl
  | cons o rest ih =>
    rw [set_refs_cons, deref_cons, deref_cons, ih]
    by_cases hp : o.addr = p
    · have h1 : o.addr ≠ a := fun e => hne (e.symm.trans hp)
      simp [hp, h1, hne.symm]
    · simp [hp]

theorem deref_set_refs_eq (h : List Object) {p : Ptr} {o : Object} (refs : List Ptr)
    (ho : deref h p = some o) :
    deref (set_refs h p refs) p = some { o with refs := refs } := by
  induction h with
  | nil => simp [deref] at ho
  | cons x rest ih =>
    rw [deref_cons] at ho
    rw [set_refs_cons, deref_cons]
    by_cases hp : x.addr = p
    · rw [if_pos hp] at ho
      rw [if_pos hp]
      cases ho
      exact if_pos hp
    · rw [if_neg hp] at ho
      rw [if_neg hp, if_neg hp]
      exact ih ho

/-- C13. Rejected edges are no-ops: for live objects `from` and `to`, when
`from == to` or `from` already holds an edge to `to`, `add_reference` returns
the state it was given, unchanged in every component (heap list, every edge
list, root set, the four counters). -/
theorem add_reference_rejected (L : Layout) (s : State) (f t : Ptr) (fo : Object)
    (hf : deref s.heap_head f = some fo) (ht : (deref s.heap_head t).isSome = true)
    (hrej : f = t ∨ t ∈ fo.refs) :
    add_reference L s (some f) (some t) = some s := by
  obtain ⟨tobj, htobj⟩ := Option.isSome_iff_exists.1 ht
  by_cases hft : f = t
  · subst hft
    simp [add_reference, hf]
  · have hmem : t ∈ fo.refs := hrej.resolve_left hft
    simp [add_reference, hf, hft, htobj, hmem]

theorem add_reference_rejected_witness :
    deref two_cycles.heap_head 3 = some ⟨3, 1003, "D", false, [4]⟩ ∧
      (deref two_cycles.heap_head 4).isSome = true ∧
      ((3 : Ptr) = 4 ∨ (4 : Ptr) ∈ (⟨3, 1003, "D", false, [4]⟩ : Object).refs) ∧
      add_reference lp64 two_cycles (some 3) (some 4) = some two_cycles :=
  ⟨by decide, by decide, by decide,
    add_reference_rejected lp64 two_cycles 3 4 ⟨3, 1003, "D", false, [4]⟩ (by decide)
      (by decide) (by decide)⟩

/-! ## The counter variables -/

theorem c_int_zero : c_int 0 = 0 := by decide

theorem c_size_t_zero : c_size_t 0 = 0 := by decide

/-- An `int` counter holds a value of its type. -/
theorem c_int_range (n : Nat) : -2147483648 ≤ c_int n ∧ c_int n ≤ INT_MAX := by
  unfold c_int INT_MAX
  constructor <;> omega

/-- Every value of type `int` is held for some exact count. -/
theorem c_int_onto (x : Int) (h1 : -2147483648 ≤ x) (h2 : x ≤ INT_MAX) :
    ∃ n, c_int n = x := by
  unfold INT_MAX at h2
  refine ⟨(x + 4294967296).toNat, ?_⟩
  unfold c_int
  omega

/-- Counting one more is `x++` on the variable. -/
theorem c_int_succ (n : Nat) : c_int (n + 1) = int_incr (c_int n) := by
  unfold int_incr c_int INT_MAX
  split_ifs with h <;> omega

/-- Adding `k` to the exact count is `x += k` on the variable. -/
theorem c_size_t_add (n k : Nat) : c_size_t (n + k) = size_add (c_size_t n) k := by
  unfold c_size_t size_add
  exact (Nat.mod_add_mod n _ k).symm

/-- Increments that do not take an `int` past `INT_MAX` add up exactly. -/
theorem c_int_add_fit (n d : Nat) (h : c_int n + (d : Int) ≤ INT_MAX) :
    c_int (n + d) = c_int n + (d : Int) := by
  unfold c_int INT_MAX at *
  omega

/-- An addition that does not take a `size_t` past `SIZE_MAX` is exact. -/
theorem c_size_t_add_fit (n d : Nat) (h : c_size_t n + d ≤ SIZE_MAX) :
    c_size_t (n + d) = c_size_t n + d := by
  unfold c_size_t SIZE_MAX at *
  omega

/-- The counter variables after a successful `create_object`, in every
state: the updates of lines 67-68 applied to the variables. -/
theorem create_object_ledger (L : Layout) (s : State) (id : Int) (name : String)
    (hfresh : ∀ o ∈ s.heap_head, o.name ≠ name) :
    (create_object L s id name).1.ledger = create_object_counters L s.ledger name := by
  have hnone : find_object_by_name s name = none := by
    simp only [find_object_by_name, Option.map_eq_none', List.find?_eq_none,
      decide_eq_true_eq]
    exact hfresh
  simp [create_object, hnone, State.ledger, create_object_counters, c_int_succ,
    c_size_t_add]

/-- Counters that only grow, by amounts that fit, grow as C variables. -/
theorem countersLe_of_fit (s s1 : State) (hle : LedgerLe s s1) (hfit : AddsFit s s1) :
    CountersLe s.ledger s1.ledger := by
  obtain ⟨h1, h2, h3, h4⟩ := hle
  obtain ⟨f1, f2, f3, f4⟩ := hfit
  simp only [State.ledger] at f1 f2 f3 f4
  have e1 := c_int_add_fit _ _ f1
  have e2 := c_int_add_fit _ _ f2
  have e3 := c_size_t_add_fit _ _ f3
  have e4 := c_size_t_add_fit _ _ f4
  rw [Nat.add_sub_cancel' h1] at e1
  rw [Nat.add_sub_cancel' h2] at e2
  rw [Nat.add_sub_cancel' h3] at e3
  rw [Nat.add_sub_cancel' h4] at e4
  refine ⟨?_, ?_, ?_, ?_⟩
  · show c_int _ ≤ c_int _
    rw [e1]; exact Int.le_add_of_nonneg_right (Int.ofNat_nonneg _)
  · show c_int _ ≤ c_int _
    rw [e2]; exact Int.le_add_of_nonneg_right (Int.ofNat_nonneg _)
  · show c_size_t _ ≤ c_size_t _
    rw [e3]; exact Nat.le_add_right _ _
  · show c_size_t _ ≤ c_size_t _
    rw [e4]; exact Nat.le_add_right _ _

/-- C18, as amended. Successful creation: when no live object carries the
name, the variable `total_objects_allocated` is below `INT_MAX` and
`total_memory_allocated` plus `sizeof (Object) + strlen (name) + 1` does not
exceed `SIZE_MAX`, `create_object` returns a pointer to an object with the
given id and name, mark clear and no edges, linked at the head of the heap
list with the former list behind it unchanged; the variable
`total_objects_allocated` grows by 1, `total_memory_allocated` by
`sizeof (Object) + strlen (name) + 1`, and the freed counters and the root
set are unchanged. In a well-formed store the address returned is that of no
former object. -/
theorem create_object_fresh_in_range (L : Layout) (s : State) (id : Int) (name : String)
    (hfresh : ∀ o ∈ s.heap_head, o.name ≠ name)
    (hcount : s.ledger.total_objects_allocated < INT_MAX)
    (hbytes : s.ledger.total_memory_allocated + (L.sizeofObject + strlen name + 1) ≤
      SIZE_MAX) :
    ∃ p, (create_object L s id name).2 = some p ∧
      (create_object L s id name).1.heap_head = ⟨p, id, name, false, []⟩ :: s.heap_head ∧
      deref (create_object L s id name).1.heap_head p = some ⟨p, id, name, false, []⟩ ∧
      (create_object L s id name).1.ledger.total_objects_allocated =
        s.ledger.total_objects_allocated + 1 ∧
      (create_object L s id name).1.ledger.total_memory_allocated =
        s.ledger.total_memory_allocated + (L.sizeofObject + strlen name + 1) ∧
      (create_object L s id name).1.ledger.total_objects_freed =
        s.ledger.total_objects_freed ∧
      (create_object L s id name).1.ledger.total_memory_freed =
        s.ledger.total_memory_freed ∧
      (create_object L s id name).1.roots = s.roots ∧
      (WellFormed s → ∀ o ∈ s.heap_head, o.addr ≠ p) := by
  have hnone : find_object_by_name s name = none := by
    simp only [find_object_by_name, Option.map_eq_none', List.find?_eq_none,
      decide_eq_true_eq]
    exact hfresh
  have h1 : c_int (s.total_objects_allocated + 1) = c_int s.total_objects_allocated + 1 := by
    have h := c_int_add_fit s.total_objects_allocated 1 (by
      have hc : c_int s.total_objects_allocated < INT_MAX := hcount
      unfold INT_MAX at *
      omega)
    simpa using h
  have h2 : c_size_t (s.total_memory_allocated + (L.sizeofObject + strlen name + 1)) =
      c_size_t s.total_memory_allocated + (L.sizeofObject + strlen name + 1) :=
    c_size_t_add_fit _ _ hbytes
  refine ⟨s.next_ptr, ?_, ?_, ?_, ?_, ?_, ?_, ?_, ?_, ?_⟩
  · simp [create_object, hnone]
  · simp [create_object, hnone]
  · simp [create_object, hnone, deref_cons]
  · simpa [create_object, hnone, State.ledger] using h1
  · simpa [create_object, hnone, State.ledger, object_size] using h2
  · simp [create_object, hnone, State.ledger]
  · simp [create_object, hnone, State.ledger]
  · simp [create_object, hnone]
  · intro hw o ho he
    have := hw.2 o ho
    rw [he] at this
    exact Nat.lt_irrefl _ this

theorem create_object_fresh_in_range_witness :
    (∀ o ∈ two_cycles.heap_head, o.name ≠ "F") ∧
      two_cycles.ledger.total_objects_allocated < INT_MAX ∧
      two_cycles.ledger.total_memory_allocated + (lp64.sizeofObject + strlen "F" + 1) ≤
        SIZE_MAX ∧
      ∃ p, (create_object lp64 two_cycles 7 "F").2 = some p ∧
        (create_object lp64 two_cycles 7 "F").1.heap_head =
          ⟨p, 7, "F", false, []⟩ :: two_cycles.heap_head ∧
        deref (create_object lp64 two_cycles 7 "F").1.heap_head p =
          some ⟨p, 7, "F", false, []⟩ ∧
        (create_object lp64 two_cycles 7 "F").1.ledger.total_objects_allocated =
          two_cycles.ledger.total_objects_allocated + 1 ∧
        (create_object lp64 two_cycles 7 "F").1.ledger.total_memory_allocated =
          two_cycles.ledger.total_memory_allocated + (lp64.sizeofObject + strlen "F" + 1) ∧
        (create_object lp64 two_cycles 7 "F").1.ledger.total_objects_freed =
          two_cycles.ledger.total_objects_freed ∧
        (create_object lp64 two_cycles 7 "F").1.ledger.total_memory_freed =
          two_cycles.ledger.total_memory_freed ∧
        (create_object lp64 two_cycles 7 "F").1.roots = two_cycles.roots ∧
        (WellFormed two_cycles → ∀ o ∈ two_cycles.heap_head, o.addr ≠ p) :=
  ⟨by decide, by decide, by decide,
    create_object_fresh_in_range lp64 two_cycles 7 "F" (by decide) (by decide) (by decide)⟩

/-- C18, as stated, fails: in `brim_state` no object is live, the variable
`total_objects_allocated` holds `INT_MAX` and `total_memory_allocated` holds
`SIZE_MAX - 10`. `create_object (1, "A")` succeeds there and links the new
object, yet `total_objects_allocated` then holds -2147483648, not
`INT_MAX + 1`, and `total_memory_allocated` holds 31, not
`SIZE_MAX - 10 + 42`. -/
theorem create_object_overflows :
    (∀ o ∈ brim_state.heap_head, o.name ≠ "A") ∧
      brim_state.ledger.total_objects_allocated = INT_MAX ∧
      brim_state.ledger.total_memory_allocated = SIZE_MAX - 10 ∧
      (create_object lp64 brim_state 1 "A").2 = some 2147483647 ∧
      (create_object lp64 brim_state 1 "A").1.heap_head =
        [⟨2147483647, 1, "A", false, []⟩] ∧
      (create_object lp64 brim_state 1 "A").1.ledger.total_objects_allocated =
        -2147483648 ∧
      (create_object lp64 brim_state 1 "A").1.ledger.total_objects_allocated ≠
        brim_state.ledger.total_objects_allocated + 1 ∧
      (create_object lp64 brim_state 1 "A").1.ledger.total_memory_allocated = 31 ∧
      (create_object lp64 brim_state 1 "A").1.ledger.total_memory_allocated ≠
        brim_state.ledger.total_memory_allocated + (lp64.sizeofObject + strlen "A" + 1) := by
  decide

/-- C12 (the code does not do this). `force_leak_scenario` resets the
simulator before it looks at the id: with an id other than 1, 2 and 3 it
returns the initial state and prints no report, whatever state it was given.
From the state `naming_session` leaves (three objects, an edge, a root, the
counters at 4, 1, 184 and 42) the request for scenario 4 leaves an empty heap
list, an empty root set and the four counters at 0. -/
theorem invalid_scenario_resets :
    (∀ (L : Layout) (s : State) (scenario_id : Int),
      scenario_id ≠ 1 → scenario_id ≠ 2 → scenario_id ≠ 3 →
        force_leak_scenario L s scenario_id = some (State.init, none)) ∧
    run lp64 State.init naming_session = some naming_state ∧
    naming_state.heap_head.map Object.name = ["C", "B", "A"] ∧
    naming_state.roots = [some 0] ∧
    naming_state.total_memory_allocated = 184 ∧
    force_leak_scenario lp64 naming_state 4 = some (State.init, none) ∧
    step lp64 naming_state (Op.force_leak_scenario 4) = some State.init ∧
    State.init.heap_head = [] ∧ State.init.roots = [] ∧
    State.init.total_memory_allocated = 0 := by
  refine ⟨?_, by decide, by decide, by decide, by decide, by decide, by decide, rfl, rfl,
    rfl⟩
  intro L s scenario_id h1 h2 h3
  simp [force_leak_scenario, h1, h2, h3, reset_simulator_state_eq]

theorem gc_sweep_report (L : Layout) (s : State) :
    (gc_sweep L s).2.collected_count = (garbage s.heap_head).length ∧
      (gc_sweep L s).2.memory_freed_this_cycle =
        s.total_memory_freed + live_bytes L (garbage s.heap_head) := by
  simp [gc_sweep, gc_sweep_loop_count, gc_sweep_loop_state]

/-- C14 (the code does not do this). The figure `gc_sweep` prints as
"Memory freed this cycle" is the running total `total_memory_freed`: the
bytes freed before the call plus the bytes of the objects this call removes,
while the count it prints is the number of objects this call removes. In the
state `second_cycle_session` leaves, where 42 bytes were freed by an earlier
cycle, the sweep removes B alone (42 bytes) and reports 84. -/
theorem gc_sweep_reports_running_total :
    (∀ (L : Layout) (s : State),
      (gc_sweep L s).2.collected_count = (garbage s.heap_head).length ∧
        (gc_sweep L s).2.memory_freed_this_cycle =
          s.total_memory_freed + live_bytes L (garbage s.heap_head)) ∧
    run lp64 State.init second_cycle_session = some second_cycle_state ∧
    gc_mark_all second_cycle_state.heap_head second_cycle_state.roots =
      some second_cycle_state.heap_head ∧
    garbage second_cycle_state.heap_head = [⟨1, 2, "B", false, []⟩] ∧
    live_bytes lp64 (garbage second_cycle_state.heap_head) = 42 ∧
    (gc_sweep lp64 second_cycle_state).2.collected_count = 1 ∧
    (gc_sweep lp64 second_cycle_state).2.memory_freed_this_cycle = 84 :=
  ⟨gc_sweep_report, by decide, by decide, by decide, by decide, by decide, by decide⟩

/-- C16 (the code does not do this). Menu option 3 appends to `roots` without
looking at `root_count`: after the session that creates `r0` .. `r50` and marks
`r0` .. `r49` as roots, `root_count` is 50, and marking `r50` as root writes
`roots[50]`, past the end of the 50-slot array. -/
theorem root_array_overflow :
    ∃ s, run lp64 State.init overflow_session = some s ∧ s.root_count = 50 ∧
      menu_mark_root_index s "r50" = some 50 ∧ ¬ (50 < 50) ∧
      step lp64 s (Op.mark_root "r50") = none := by
  have key : (run lp64 State.init overflow_session).map
      (fun s => (s.root_count, menu_mark_root_index s "r50",
        (step lp64 s (Op.mark_root "r50")).isSome)) = some (50, some 50, false) := by
    set_option maxRecDepth 100000 in decide
  cases h : run lp64 State.init overflow_session with
  | none => rw [h] at key; cases key
  | some s =>
    rw [h] at key
    simp only [Option.map_some', Option.some.injEq, Prod.mk.injEq] at key
    obtain ⟨h1, h2, h3⟩ := key
    refine ⟨s, rfl, h1, h2, by decide, ?_⟩
    cases hs : step lp64 s (Op.mark_root "r50") with
    | none => rfl
    | some s1 => rw [hs] at h3; cases h3

theorem find_object_by_name_live {s : State} {name : String} {p : Ptr}
    (hf : find_object_by_name s name = some p) : (deref s.heap_head p).isSome = true := by
  simp only [find_object_by_name, Option.map_eq_some'] at hf
  obtain ⟨o, ho, rfl⟩ := hf
  have hmem := List.mem_of_find?_eq_some ho
  simp only [deref, List.find?_isSome, decide_eq_true_eq]
  exact ⟨o, hmem, rfl⟩

theorem isSome_deref_cons (x : Object) {h : List Object} {a : Ptr}
    (ha : (deref h a).isSome = true) : (deref (x :: h) a).isSome = true := by
  rw [deref_cons]
  by_cases hx : x.addr = a
  · simp [hx]
  · simp [hx, ha]

theorem isSome_deref_set_refs (h : List Object) (p : Ptr) (refs : List Ptr) {a : Ptr}
    (ha : (deref h a).isSome = true) : (deref (set_refs h p refs) a).isSome = true := by
  by_cases hap : a = p
  · subst hap
    obtain ⟨o, ho⟩ := Option.isSome_iff_exists.1 ha
    rw [deref_set_refs_eq h refs ho]
    rfl
  · rw [deref_set_refs_ne h refs hap]
    exact ha

theorem rootsWF_init : RootsWellFormed State.init := by
  refine ⟨List.nodup_nil, ?_⟩
  intro r hr
  cases hr

theorem rootsWF_create_object (L : Layout) {s : State} (hs : RootsWellFormed s) (id : Int)
    (name : String) : RootsWellFormed (create_object L s id name).1 := by
  rcases create_object_cases L s id name with h | ⟨_, h⟩
  · rw [h]; exact hs
  · rw [h]
    refine ⟨hs.1, fun r hr => ?_⟩
    obtain ⟨p, rfl, hp⟩ := hs.2 r hr
    exact ⟨p, rfl, isSome_deref_cons _ hp⟩

theorem rootsWF_add_reference (L : Layout) {s s1 : State} (hs : RootsWellFormed s)
    {frm tgt : Option Ptr} (hrun : add_reference L s frm tgt = some s1) :
    RootsWellFormed s1 := by
  rcases add_reference_cases L s s1 frm tgt hrun with rfl | ⟨f, t, fo, _, rfl⟩
  · exact hs
  · refine ⟨hs.1, fun r hr => ?_⟩
    obtain ⟨p, rfl, hp⟩ := hs.2 r hr
    exact ⟨p, rfl, isSome_deref_set_refs _ _ _ hp⟩

theorem rootsWF_set_heap {s : State} {h1 : List Object} (hs : RootsWellFormed s)
    (hl : HeapLe s.heap_head h1) : RootsWellFormed { s with heap_head := h1 } := by
  refine ⟨hs.1, fun r hr => ?_⟩
  obtain ⟨p, rfl, hp⟩ := hs.2 r hr
  exact ⟨p, rfl, isSome_of_heapLe hl hp⟩

theorem rootsWF_run_gc (L : Layout) {s s1 : State} (hs : RootsWellFormed s)
    (hrun : run_gc L s s.roots = some s1) : RootsWellFormed s1 := by
  rcases run_gc_full L s s.roots s1 hrun with rfl | ⟨h1, hm, rfl⟩
  · exact hs
  · obtain ⟨_, hmarked⟩ := gc_mark_all_rel s.roots s.heap_head h1
      (fun _ _ _ _ _ _ => trivial) (fun _ _ => trivial) hm
    refine ⟨hs.1, fun r hr => ?_⟩
    obtain ⟨p, rfl, _⟩ := hs.2 r hr
    obtain ⟨o, ho, hmk⟩ := hmarked p hr
    refine ⟨p, rfl, ?_⟩
    show (deref (swept h1) p).isSome = true
    rw [deref_swept ho hmk]
    rfl

theorem rootsWF_mark_root {s s1 : State} (hs : RootsWellFormed s) {name : String}
    (hrun : menu_mark_root s name = some s1) : RootsWellFormed s1 := by
  rcases menu_mark_root_cases s s1 name hrun with rfl | ⟨p, hfind, hnot, hpush⟩
  · exact hs
  · rw [push_root_cases hpush]
    refine ⟨?_, fun r hr => ?_⟩
    · exact List.Nodup.append hs.1 (List.nodup_singleton _)
        (by
          intro x hx hx1
          rw [List.mem_singleton] at hx1
          exact hnot (hx1 ▸ hx))
    · rcases List.mem_append.1 hr with hr | hr
      · exact hs.2 r hr
      · rw [List.mem_singleton] at hr
        exact ⟨p, hr, find_object_by_name_live hfind⟩

/-- Every operation but `gc_sweep` on its own and `final_cleanup` keeps the
root set well formed. -/
theorem rootsWF_step (L : Layout) {s s1 : State} (hs : RootsWellFormed s) (op : Op)
    (hop : keeps_roots op = true) (hrun : step L s op = some s1) : RootsWellFormed s1 := by
  cases op with
  | create_object id name =>
    simp only [step, Option.some.injEq] at hrun
    subst hrun
    exact rootsWF_create_object L hs id name
  | add_reference frm tgt => exact rootsWF_add_reference L hs hrun
  | create_reference name1 name2 =>
    rcases menu_create_reference_cases L s s1 name1 name2 hrun with rfl | ⟨f, t, h⟩
    · exact hs
    · exact rootsWF_add_reference L hs h
  | mark_root name => exact rootsWF_mark_root hs hrun
  | run_gc => exact rootsWF_run_gc L hs hrun
  | visualize =>
    obtain ⟨h1, hm, rfl⟩ := menu_visualize_cases s s1 hrun
    exact rootsWF_set_heap hs (gc_mark_all_heapLe s.roots s.heap_head h1 hm)
  | gc_sweep => cases hop
  | force_leak_scenario scenario_id =>
    simp only [step, Option.map_eq_some'] at hrun
    obtain ⟨r, hr, rfl⟩ := hrun
    rw [force_leak_scenario_state L s scenario_id r hr]
    exact rootsWF_init
  | reset_simulator_state =>
    simp only [step, Option.some.injEq] at hrun
    subst hrun
    exact rootsWF_init
  | final_cleanup => cases hop

/-- A property that every operation of a given kind preserves holds after any
sequence of operations of that kind. -/
theorem run_preserves_of (L : Layout) (A : Op → Prop) (P : State → Prop)
    (hstep : ∀ s op s1, A op → P s → step L s op = some s1 → P s1) :
    ∀ (ops : List Op) (s s1 : State), (∀ op ∈ ops, A op) → P s →
      run L s ops = some s1 → P s1 := by
  intro ops
  induction ops with
  | nil =>
    intro s s1 _ hs hrun
    simp only [run, Option.some.injEq] at hrun
    exact hrun ▸ hs
  | cons op rest ih =>
    intro s s1 hA hs hrun
    simp only [run] at hrun
    cases h : step L s op with
    | none => simp [h] at hrun
    | some s2 =>
      simp only [h] at hrun
      exact ih s2 s1 (fun x hx => hA x (List.mem_cons_of_mem _ hx))
        (hstep s op s2 (hA op (List.mem_cons_self _ _)) hs h) hrun

/-- C17. Root-set well-formedness: in every state reached from the initial one
by create object, create reference, mark object as root, visualize, run
collector, force scenario and reset (and `add_reference`), the entries of
`roots` are pairwise distinct and each points to an object of the heap list;
and marking as root an object that is already a root returns the state
unchanged. -/
theorem roots_well_formed (L : Layout) (ops : List Op) (s : State)
    (hops : ∀ op ∈ ops, keeps_roots op = true) (hrun : run L State.init ops = some s) :
    s.roots.Nodup ∧
      (∀ r ∈ s.roots, ∃ p, r = some p ∧ (deref s.heap_head p).isSome = true) ∧
      (∀ name p, find_object_by_name s name = some p → some p ∈ s.roots →
        menu_mark_root s name = some s) := by
  have hwf : RootsWellFormed s :=
    run_preserves_of L (fun op => keeps_roots op = true) RootsWellFormed
      (fun s op s1 hop hs h => rootsWF_step L hs op hop h) ops _ s hops rootsWF_init hrun
  refine ⟨hwf.1, hwf.2, ?_⟩
  intro name p hfind hmem
  simp [menu_mark_root, hfind, hmem]

theorem roots_well_formed_witness :
    (∀ op ∈ naming_session, keeps_roots op = true) ∧
      run lp64 State.init naming_session = some naming_state ∧
      naming_state.roots.Nodup ∧
      (∀ r ∈ naming_state.roots,
        ∃ p, r = some p ∧ (deref naming_state.heap_head p).isSome = true) ∧
      (∀ name p, find_object_by_name naming_state name = some p →
        some p ∈ naming_state.roots → menu_mark_root naming_state name = some naming_state) :=
  ⟨by decide, by decide, roots_well_formed lp64 naming_session naming_state (by decide)
    (by decide)⟩

theorem store_create_object (L L1 : Layout) {s s1 : State} (h : store s = store s1)
    (id : Int) (name : String) :
    store (create_object L s id name).1 = store (create_object L1 s1 id name).1 ∧
      (create_object L s id name).2 = (create_object L1 s1 id name).2 := by
  simp only [store, Prod.mk.injEq] at h
  obtain ⟨hh, hr, hn⟩ := h
  unfold create_object find_object_by_name
  rw [hh]
  cases s1.heap_head.find? (fun o => decide (o.name = name)) with
  | none => simp [store, hh, hr, hn]
  | some o => simp [store, hh, hr, hn]

theorem store_add_reference (L L1 : Layout) {s s1 : State} (h : store s = store s1)
    (frm tgt : Option Ptr) :
    (add_reference L s frm tgt).map store = (add_reference L1 s1 frm tgt).map store := by
  have h0 := h
  simp only [store, Prod.mk.injEq] at h
  obtain ⟨hh, hr, hn⟩ := h
  cases frm with
  | none => simp [add_reference, h0]
  | some f =>
    cases tgt with
    | none => simp [add_reference, h0]
    | some t =>
      simp only [add_reference]
      rw [hh]
      cases deref s1.heap_head f with
      | none => rfl
      | some fo =>
        by_cases hft : f = t
        · simp [hft, h0]
        · cases deref s1.heap_head t with
          | none => simp [hft]
          | some tobj =>
            by_cases hmem : t ∈ fo.refs
            · simp [hft, hmem, h0]
            · simp [hft, hmem, store, hh, hr, hn]

theorem store_push_root {s s1 : State} (h : store s = store s1) (p : Option Ptr) :
    (push_root s p).map store = (push_root s1 p).map store := by
  simp only [store, Prod.mk.injEq] at h
  obtain ⟨hh, hr, hn⟩ := h
  unfold push_root State.root_count
  rw [hr]
  by_cases hc : s1.roots.length < 50
  · simp [hc, store, hh, hr, hn]
  · simp [hc]

theorem store_scenario_3_chain (L L1 : Layout) (is : List Nat) :
    ∀ (s s1 : State) (idc : Int) (prev : Option Ptr) (created : List (Option Ptr)),
      store s = store s1 →
      (scenario_3_chain L is s idc prev created).map (fun r => (store r.1, r.2)) =
        (scenario_3_chain L1 is s1 idc prev created).map (fun r => (store r.1, r.2)) := by
  induction is with
  | nil =>
    intro s s1 idc prev created h
    simp [scenario_3_chain, h]
  | cons i rest ih =>
    intro s s1 idc prev created h
    obtain ⟨hc1, hc2⟩ := store_create_object L L1 h idc ("N" ++ toString i)
    simp only [scenario_3_chain]
    rw [hc2]
    have hlink :
        (match prev with
          | some _ => add_reference L (create_object L s idc ("N" ++ toString i)).1 prev
              (create_object L1 s1 idc ("N" ++ toString i)).2
          | none => push_root (create_object L s idc ("N" ++ toString i)).1
              (create_object L1 s1 idc ("N" ++ toString i)).2).map store =
        (match prev with
          | some _ => add_reference L1 (create_object L1 s1 idc ("N" ++ toString i)).1 prev
              (create_object L1 s1 idc ("N" ++ toString i)).2
          | none => push_root (create_object L1 s1 idc ("N" ++ toString i)).1
              (create_object L1 s1 idc ("N" ++ toString i)).2).map store := by
      cases prev with
      | none => exact store_push_root hc1 _
      | some p => exact store_add_reference L L1 hc1 _ _
    revert hlink
    generalize (match prev with
          | some _ => add_reference L (create_object L s idc ("N" ++ toString i)).1 prev
              (create_object L1 s1 idc ("N" ++ toString i)).2
          | none => push_root (create_object L s idc ("N" ++ toString i)).1
              (create_object L1 s1 idc ("N" ++ toString i)).2) = x
    generalize (match prev with
          | some _ => add_reference L1 (create_object L1 s1 idc ("N" ++ toString i)).1 prev
              (create_object L1 s1 idc ("N" ++ toString i)).2
          | none => push_root (create_object L1 s1 idc ("N" ++ toString i)).1
              (create_object L1 s1 idc ("N" ++ toString i)).2) = y
    intro hxy
    cases x with
    | none =>
      cases y with
      | none => rfl
      | some b => cases hxy
    | some a =>
      cases y with
      | none => cases hxy
      | some b =>
        simp only [Option.map_some', Option.some.injEq] at hxy
        simp only [Option.some_bind]
        exact ih a b _ _ _ hxy

theorem store_scenario_3_extra (L L1 : Layout) (is : List Nat) :
    ∀ (s s1 : State) (idc : Int) (created : List (Option Ptr)), store s = store s1 →
      store (scenario_3_extra L is s idc created).1 =
          store (scenario_3_extra L1 is s1 idc created).1 ∧
        (scenario_3_extra L is s idc created).2 = (scenario_3_extra L1 is s1 idc created).2 := by
  induction is with
  | nil =>
    intro s s1 idc created h
    exact ⟨h, rfl⟩
  | cons i rest ih =>
    intro s s1 idc created h
    obtain ⟨hc1, hc2⟩ := store_create_object L L1 h idc ("X" ++ toString i)
    simp only [scenario_3_extra]
    rw [hc2]
    exact ih _ _ _ _ hc1

theorem option_map_bind_congr {α β γ δ : Type} (x y : Option α) (f g : α → β)
    (F : α → Option γ) (G : α → Option γ) (k : γ → δ) (hxy : x.map f = y.map g)
    (hFG : ∀ a b, f a = g b → (F a).map k = (G b).map k) :
    (x.bind F).map k = (y.bind G).map k := by
  cases x with
  | none =>
    cases y with
    | none => rfl
    | some b => cases hxy
  | some a =>
    cases y with
    | none => cases hxy
    | some b =>
      simp only [Option.map_some', Option.some.injEq] at hxy
      exact hFG a b hxy

/-- The store scenario 3 builds does not depend on the layout. -/
theorem store_scenario_3 (L L1 : Layout) {s s1 : State} (h : store s = store s1) :
    (scenario_3 L s).map (fun b => (store b.1, b.2)) =
      (scenario_3 L1 s1).map (fun b => (store b.1, b.2)) := by
  refine option_map_bind_congr _ _ _ _ _ _ _
    (store_scenario_3_chain L L1 (List.range 10) s s1 1000 none [] h) ?_
  intro a b hab
  simp only [Prod.mk.injEq] at hab
  obtain ⟨h1, h2⟩ := hab
  obtain ⟨e1, e2⟩ := store_scenario_3_extra L L1 [1, 2, 3, 4, 5] a.1 b.1 a.2.1 a.2.2 h1
  simp only [Option.map_some', Option.some.injEq, Prod.mk.injEq]
  rw [h2] at e1 e2 ⊢
  exact ⟨e1, e2⟩

set_option maxRecDepth 100000 in
theorem scenario_3_store_lp64 :
    (scenario_3 lp64 State.init).map (fun b => (store b.1, b.2)) =
      some ((scenario_3_heap, [some 0], 15), scenario_3_created) := by
  decide

theorem scenario_3_built (L : Layout) :
    ∃ b, scenario_3 L State.init = some b ∧ b.1.heap_head = scenario_3_heap ∧
      b.1.roots = [some 0] ∧ b.1.next_ptr = 15 ∧ b.2 = scenario_3_created := by
  have h := store_scenario_3 L lp64 (rfl : store State.init = store State.init)
  rw [scenario_3_store_lp64] at h
  cases hb : scenario_3 L State.init with
  | none => rw [hb] at h; cases h
  | some b =>
    rw [hb] at h
    simp only [Option.map_some', Option.some.injEq, Prod.mk.injEq, store] at h
    exact ⟨b, rfl, h.1.1, h.1.2.1, h.1.2.2, h.2⟩

theorem scenario_3_mark : gc_mark_all scenario_3_heap [some 0] = some scenario_3_marked := by
  decide

theorem scenario_3_sweep :
    swept scenario_3_marked = scenario_3_kept ∧ garbage scenario_3_marked = scenario_3_garbage := by
  decide

theorem scenario_3_strlen :
    strlen "X1" = 2 ∧ strlen "X2" = 2 ∧ strlen "X3" = 2 ∧ strlen "X4" = 2 ∧
      strlen "X5" = 2 := by
  decide

theorem scenario_3_unreachable (L : Layout) :
    scenario_unreachable L scenario_3_marked scenario_3_created [] 0 0 =
      some (["X1", "X2", "X3", "X4", "X5"], 5, 5 * (L.sizeofObject + 3)) := by
  obtain ⟨h1, h2, h3, h4, h5⟩ := scenario_3_strlen
  simp [scenario_unreachable, scenario_3_marked, scenario_3_created, deref, object_size,
    h1, h2, h3, h4, h5]
  omega

theorem scenario_3_garbage_bytes (L : Layout) :
    live_bytes L scenario_3_garbage = 5 * (L.sizeofObject + 3) := by
  obtain ⟨h1, h2, h3, h4, h5⟩ := scenario_3_strlen
  simp [live_bytes, scenario_3_garbage, object_bytes, object_size, h1, h2, h3, h4, h5]
  omega

/-- The mark, report and sweep phases of scenario 3, from any state holding
the store the scenario builds. -/
theorem scenario_3_collect (L : Layout) (b : State) (hh : b.heap_head = scenario_3_heap)
    (hr : b.roots = [some 0]) :
    ∃ r, force_leak_scenario_collect L b scenario_3_created = some r ∧
      r.1.heap_head = scenario_3_kept ∧
      r.1.total_memory_freed = b.total_memory_freed + 5 * (L.sizeofObject + 3) ∧
      r.1.total_objects_freed = b.total_objects_freed + 5 ∧
      r.2.unreachable = ["X1", "X2", "X3", "X4", "X5"] ∧ r.2.unreachable_count = 5 ∧
      r.2.garbage_bytes_est = 5 * (L.sizeofObject + 3) ∧
      r.2.total_memory_freed = b.total_memory_freed + 5 * (L.sizeofObject + 3) := by
  obtain ⟨hs, hg⟩ := scenario_3_sweep
  simp [force_leak_scenario_collect, hh, hr, scenario_3_mark, scenario_3_unreachable,
    gc_sweep_fst, hs, hg, scenario_3_garbage_bytes]
  simp [scenario_3_garbage]

/-- C11. Scenario 3 determinism: from every prior state,
`force_leak_scenario (3)` builds the heap list `scenario_3_heap` (the chain
N0 -> N1 -> ... -> N9 and the edgeless X1 .. X5) with N0 as only root, lists
exactly X1, X2, X3, X4, X5 as unreachable (count 5), has exactly N9, ..., N0
(head first) in the heap list after its sweep, and returns with the state
reset. -/
theorem scenario_3_deterministic (L : Layout) (s : State) :
    ∃ b r, force_leak_scenario_setup L (reset_simulator_state L s) 3 = some b ∧
      b.1.heap_head = scenario_3_heap ∧ b.1.roots = [some 0] ∧
      deref b.1.heap_head 0 = some ⟨0, 1000, "N0", false, [1]⟩ ∧
      force_leak_scenario_collect L b.1 b.2 = some r ∧
      force_leak_scenario L s 3 = some (reset_simulator_state L r.1, some r.2) ∧
      r.2.unreachable = ["X1", "X2", "X3", "X4", "X5"] ∧ r.2.unreachable_count = 5 ∧
      r.1.heap_head = scenario_3_kept ∧
      r.1.heap_head.map Object.name =
        ["N9", "N8", "N7", "N6", "N5", "N4", "N3", "N2", "N1", "N0"] := by
  obtain ⟨b, hb, hh, hr, _, hc⟩ := scenario_3_built L
  have hset : force_leak_scenario_setup L (reset_simulator_state L s) 3 = some b := by
    simp [force_leak_scenario_setup, reset_simulator_state_eq, hb]
  obtain ⟨r, hcol, hk, _, _, hu, hn, _, _⟩ := scenario_3_collect L b.1 hh hr
  rw [← hc] at hcol
  refine ⟨b, r, hset, hh, hr, ?_, hcol, ?_, hu, hn, hk, ?_⟩
  · rw [hh]; decide
  · simp [force_leak_scenario, hset, hcol]
  · rw [hk]; decide

theorem gc_mark_refs_log_fst
    {mlog : List Object → Option Ptr → Option (List Object × List Ptr)}
    {mark : List Object → Option Ptr → Option (List Object)}
    (hm : ∀ h r, (mlog h (some r)).map Prod.fst = mark h (some r)) (rs : List Ptr) :
    ∀ h, (gc_mark_refs_log mlog rs h).map Prod.fst = gc_mark_refs mark rs h := by
  induction rs with
  | nil => intro h; rfl
  | cons r rest ih =>
    intro h
    simp only [gc_mark_refs_log, gc_mark_refs]
    rw [← hm h r]
    cases mlog h (some r) with
    | none => rfl
    | some r1 =>
      simp only [Option.map_some']
      rw [← ih r1.1]
      cases gc_mark_refs_log mlog rest r1.1 with
      | none => rfl
      | some r2 => rfl

/-- Dropping the log gives back `gc_mark`. -/
theorem gc_mark_fuel_log_fst (fuel : Nat) :
    ∀ (h : List Object) (p : Option Ptr),
      (gc_mark_fuel_log fuel h p).map Prod.fst = gc_mark_fuel fuel h p := by
  induction fuel with
  | zero =>
    intro h p
    cases p <;> rfl
  | succ n ih =>
    intro h p
    cases p with
    | none => rfl
    | some a =>
      simp only [gc_mark_fuel_log, gc_mark_fuel]
      cases deref h a with
      | none => rfl
      | some o =>
        by_cases hm : o.marked = true
        · simp [hm]
        · simp only [hm]
          rw [← gc_mark_refs_log_fst (fun h r => ih h (some r)) o.refs (set_marked h a)]
          cases gc_mark_refs_log (gc_mark_fuel_log n) o.refs (set_marked h a) with
          | none => rfl
          | some r => rfl

theorem not_marked_and_unmarked {h : List Object} {a : Ptr} (h1 : is_marked h a)
    (h2 : is_unmarked h a) : False := by
  obtain ⟨o, ho, hm⟩ := h1
  obtain ⟨o1, ho1, hm1⟩ := h2
  rw [ho] at ho1
  cases ho1
  rw [hm] at hm1
  cases hm1

theorem is_unmarked_of_heapLe {h h1 : List Object} (hl : HeapLe h h1) {a : Ptr}
    (hu : is_unmarked h1 a) : is_unmarked h a := by
  obtain ⟨o1, ho1, hm1⟩ := hu
  obtain ⟨o, ho, hle⟩ := heapLe_deref_bwd hl ho1
  refine ⟨o, ho, ?_⟩
  cases hmo : o.marked with
  | false => rfl
  | true =>
    have := hle.2.2.2.2 hmo
    rw [hm1] at this
    cases this

theorem logOK_nil (h : List Object) : LogOK h h [] :=
  ⟨heapLe_refl h, List.nodup_nil, fun a ha => by cases ha⟩

theorem logOK_append {h h1 h2 : List Object} {l1 l2 : List Ptr} (a1 : LogOK h h1 l1)
    (a2 : LogOK h1 h2 l2) : LogOK h h2 (l1 ++ l2) := by
  refine ⟨heapLe_trans a1.1 a2.1, ?_, ?_⟩
  · refine List.Nodup.append a1.2.1 a2.2.1 ?_
    intro a ha1 ha2
    exact not_marked_and_unmarked (a1.2.2 a ha1).2 (a2.2.2 a ha2).1
  · intro a ha
    rcases List.mem_append.1 ha with ha | ha
    · exact ⟨(a1.2.2 a ha).1, heapLe_is_marked a2.1 (a1.2.2 a ha).2⟩
    · exact ⟨is_unmarked_of_heapLe a1.1 (a2.2.2 a ha).1, (a2.2.2 a ha).2⟩

theorem logOK_cons {h h1 : List Object} {p : Ptr} {o : Object} {l : List Ptr}
    (ho : deref h p = some o) (hm : o.marked = false) (a1 : LogOK (set_marked h p) h1 l) :
    LogOK h h1 (p :: l) := by
  have hset : is_marked (set_marked h p) p := ⟨_, deref_set_marked_eq h ho, rfl⟩
  refine ⟨heapLe_trans (heapLe_set_marked h p) a1.1, ?_, ?_⟩
  · refine List.nodup_cons.2 ⟨fun hp => ?_, a1.2.1⟩
    exact not_marked_and_unmarked hset (a1.2.2 p hp).1
  · intro a ha
    rcases List.mem_cons.1 ha with rfl | ha
    · exact ⟨⟨o, ho, hm⟩, heapLe_is_marked a1.1 hset⟩
    · exact ⟨is_unmarked_of_heapLe (heapLe_set_marked h p) (a1.2.2 a ha).1, (a1.2.2 a ha).2⟩

theorem gc_mark_refs_log_ok
    {mlog : List Object → Option Ptr → Option (List Object × List Ptr)}
    (hm : ∀ h r r1, mlog h (some r) = some r1 → LogOK h r1.1 r1.2) (rs : List Ptr) :
    ∀ h r2, gc_mark_refs_log mlog rs h = some r2 → LogOK h r2.1 r2.2 := by
  induction rs with
  | nil =>
    intro h r2 hrun
    simp only [gc_mark_refs_log, Option.some.injEq] at hrun
    subst hrun
    exact logOK_nil h
  | cons r rest ih =>
    intro h r2 hrun
    simp only [gc_mark_refs_log] at hrun
    cases h1 : mlog h (some r) with
    | none => simp [h1] at hrun
    | some r1 =>
      simp only [h1] at hrun
      cases h2 : gc_mark_refs_log mlog rest r1.1 with
      | none => simp [h2] at hrun
      | some r3 =>
        simp only [h2, Option.some.injEq] at hrun
        subst hrun
        exact logOK_append (hm h r r1 h1) (ih r1.1 r3 h2)

/-- No address is logged twice, and the logged addresses are those of objects
that were unmarked and are now marked. -/
theorem gc_mark_fuel_log_ok (fuel : Nat) :
    ∀ (h : List Object) (p : Option Ptr) (r : List Object × List Ptr),
      gc_mark_fuel_log fuel h p = some r → LogOK h r.1 r.2 := by
  induction fuel with
  | zero =>
    intro h p r hrun
    cases p with
    | none =>
      simp only [gc_mark_fuel_log, Option.some.injEq] at hrun
      subst hrun
      exact logOK_nil h
    | some a => simp [gc_mark_fuel_log] at hrun
  | succ n ih =>
    intro h p r hrun
    cases p with
    | none =>
      simp only [gc_mark_fuel_log, Option.some.injEq] at hrun
      subst hrun
      exact logOK_nil h
    | some a =>
      simp only [gc_mark_fuel_log] at hrun
      cases ho : deref h a with
      | none => simp [ho] at hrun
      | some o =>
        simp only [ho] at hrun
        by_cases hm : o.marked = true
        · simp only [hm, if_true, Option.some.injEq] at hrun
          subst hrun
          exact logOK_nil h
        · simp only [hm] at hrun
          have hm0 : o.marked = false := by simpa using hm
          cases h2 : gc_mark_refs_log (gc_mark_fuel_log n) o.refs (set_marked h a) with
          | none => simp [h2] at hrun
          | some r3 =>
            simp only [h2] at hrun
            simp only [Bool.false_eq_true, if_false, Option.some.injEq] at hrun
            subst hrun
            exact logOK_cons ho hm0
              (gc_mark_refs_log_ok (fun h r r1 => ih h (some r) r1) o.refs _ r3 h2)

/-- Fuel beyond the number of unmarked objects plus one changes nothing. -/
theorem gc_mark_fuel_stable_add (n : Nat) (h : List Object) (p : Option Ptr)
    (hn : (garbage h).length < n) (k : Nat) :
    gc_mark_fuel (n + k) h p = gc_mark_fuel n h p := by
  cases p with
  | none => cases n <;> cases k <;> rfl
  | some r =>
    induction k with
    | zero => rfl
    | succ k ih =>
      rw [← ih]
      exact (gc_mark_fuel_stable (n + k) h r (Nat.lt_of_lt_of_le hn (Nat.le_add_right n k))).symm

/-- C19. Marking terminates on cyclic graphs: on every store whose edges
target live objects, cyclic or not, and for every pointer that is null or
names a live object, `gc_mark` returns; a recursion depth of one more than
the number of unmarked objects is enough, and any greater depth gives the
same heap; and no address has its mark assigned twice during the call: the
log of the assignments has no repetition and holds only objects that were
unmarked before the call and are marked after it. -/
theorem gc_mark_terminates (h : List Object) (p : Option Ptr) (hE : EdgesLive h)
    (hp : ∀ a, p = some a → (deref h a).isSome = true) :
    ∃ h1 l, gc_mark_fuel_log (h.length + 1) h p = some (h1, l) ∧
      gc_mark h p = some h1 ∧
      (∀ k, gc_mark_fuel ((garbage h).length + 1 + k) h p = some h1) ∧
      l.Nodup ∧ (∀ a ∈ l, is_unmarked h a ∧ is_marked h1 a) := by
  have hrun : ∃ h1, gc_mark h p = some h1 := by
    cases p with
    | none => exact ⟨h, rfl⟩
    | some a => exact gc_mark_defined h a hE (hp a rfl)
  obtain ⟨h1, hrun⟩ := hrun
  have hlog := gc_mark_fuel_log_fst (h.length + 1) h p
  rw [show gc_mark_fuel (h.length + 1) h p = some h1 from hrun] at hlog
  cases hr : gc_mark_fuel_log (h.length + 1) h p with
  | none => rw [hr] at hlog; cases hlog
  | some r =>
    rw [hr] at hlog
    simp only [Option.map_some', Option.some.injEq] at hlog
    have hok := gc_mark_fuel_log_ok (h.length + 1) h p r hr
    rw [hlog] at hok
    refine ⟨h1, r.2, ?_, hrun, ?_, hok.2.1, hok.2.2⟩
    · rw [← hlog]
    · intro k
      have hlen : h.length + 1 = (garbage h).length + 1 + (h.length - (garbage h).length) := by
        have := garbage_length_le h
        omega
      rw [gc_mark_fuel_stable_add _ h p (Nat.lt_succ_self _) k,
        ← gc_mark_fuel_stable_add _ h p (Nat.lt_succ_self _)
          (h.length - (garbage h).length), ← hlen]
      exact hrun

theorem gc_mark_terminates_witness :
    EdgesLive two_cycles.heap_head ∧
      (∀ a, some (0 : Ptr) = some a → (deref two_cycles.heap_head a).isSome = true) ∧
      ∃ h1 l, gc_mark_fuel_log (two_cycles.heap_head.length + 1) two_cycles.heap_head
            (some 0) = some (h1, l) ∧
        gc_mark two_cycles.heap_head (some 0) = some h1 ∧
        (∀ k, gc_mark_fuel ((garbage two_cycles.heap_head).length + 1 + k)
            two_cycles.heap_head (some 0) = some h1) ∧
        l.Nodup ∧ (∀ a ∈ l, is_unmarked two_cycles.heap_head a ∧ is_marked h1 a) :=
  ⟨by decide, fun a ha => by cases ha; decide,
    gc_mark_terminates two_cycles.heap_head (some 0) (by decide)
      (fun a ha => by cases ha; decide)⟩

/-- On the cyclic heap A -> B -> C -> A, D <-> E, marking from A sets the
marks of A, B and C in that order, once each. -/
theorem gc_mark_log_two_cycles :
    (gc_mark_fuel_log (two_cycles.heap_head.length + 1) two_cycles.heap_head (some 0)).map
      Prod.snd = some [0, 1, 2] := by
  decide

/-- `force_leak_scenario` returns, whatever the state and the id. -/
theorem force_leak_scenario_defined (L : Layout) (s : State) (scenario_id : Int) :
    ∃ r, force_leak_scenario L s scenario_id = some r := by
  by_cases h1 : scenario_id = 1
  · subst h1
    obtain ⟨rep, hcol, _⟩ := scenario_1_collect L
    exact ⟨(State.init, some rep), by simp [force_leak_scenario, force_leak_scenario_setup,
      reset_simulator_state_eq, scenario_1_eq, hcol]⟩
  · by_cases h2 : scenario_id = 2
    · subst h2
      obtain ⟨rep, hcol, _⟩ := scenario_2_collect L
      exact ⟨(State.init, some rep), by simp [force_leak_scenario,
        force_leak_scenario_setup, reset_simulator_state_eq, scenario_2_eq, hcol]⟩
    · by_cases h3 : scenario_id = 3
      · subst h3
        obtain ⟨b, hb, hh, hr, _, hc⟩ := scenario_3_built L
        obtain ⟨r, hcol, _⟩ := scenario_3_collect L b.1 hh hr
        rw [← hc] at hcol
        exact ⟨(State.init, some r.2), by simp [force_leak_scenario,
          force_leak_scenario_setup, reset_simulator_state_eq, hb, hcol]⟩
      · exact ⟨(State.init, none), by simp [force_leak_scenario, h1, h2, h3,
          reset_simulator_state_eq]⟩

theorem ledgerLe_refl (s : State) : LedgerLe s s :=
  ⟨Nat.le_refl _, Nat.le_refl _, Nat.le_refl _, Nat.le_refl _⟩

theorem ledgerZero_init : LedgerZero State.init := ⟨rfl, rfl, rfl, rfl⟩

/-- On the exact counts: `create_object`, `add_reference`,
`clear_references`, `gc_sweep`, `run_gc` and `final_cleanup` only add to the
four counts; `reset_simulator_state` and `force_leak_scenario` (which returns
for every id) leave them at 0. -/
theorem exact_counts_monotone (L : Layout) (s : State) :
    (∀ id name, LedgerLe s (create_object L s id name).1) ∧
    (∀ frm tgt s1, add_reference L s frm tgt = some s1 → LedgerLe s s1) ∧
    (∀ o, LedgerLe s (clear_references L s o).1) ∧
    LedgerLe s (gc_sweep L s).1 ∧
    (∀ roots s1, run_gc L s roots = some s1 → LedgerLe s s1) ∧
    LedgerLe s (final_cleanup L s) ∧
    LedgerZero (reset_simulator_state L s) ∧
    (∀ scenario_id, ∃ r, force_leak_scenario L s scenario_id = some r ∧ LedgerZero r.1) := by
  refine ⟨?_, ?_, ?_, ?_, ?_, ?_, ?_, ?_⟩
  · intro id name
    rcases create_object_cases L s id name with h | ⟨_, h⟩
    · rw [h]; exact ledgerLe_refl s
    · rw [h]
      exact ⟨Nat.le_succ _, Nat.le_refl _, Nat.le_add_right _ _, Nat.le_refl _⟩
  · intro frm tgt s1 hrun
    rcases add_reference_cases L s s1 frm tgt hrun with rfl | ⟨f, t, fo, _, rfl⟩
    · exact ledgerLe_refl _
    · exact ⟨Nat.le_refl _, Nat.le_refl _, Nat.le_add_right _ _, Nat.le_refl _⟩
  · intro o
    rw [clear_references_fst]
    exact ⟨Nat.le_refl _, Nat.le_refl _, Nat.le_refl _, Nat.le_add_right _ _⟩
  · rw [gc_sweep_fst]
    exact ⟨Nat.le_refl _, Nat.le_add_right _ _, Nat.le_refl _, Nat.le_add_right _ _⟩
  · intro roots s1 hrun
    rcases run_gc_full L s roots s1 hrun with rfl | ⟨h1, _, rfl⟩
    · exact ledgerLe_refl _
    · exact ⟨Nat.le_refl _, Nat.le_add_right _ _, Nat.le_refl _, Nat.le_add_right _ _⟩
  · rw [final_cleanup_eq]
    exact ⟨Nat.le_refl _, Nat.le_add_right _ _, Nat.le_refl _, Nat.le_add_right _ _⟩
  · rw [reset_simulator_state_eq]
    exact ledgerZero_init
  · intro scenario_id
    obtain ⟨r, hrun⟩ := force_leak_scenario_defined L s scenario_id
    refine ⟨r, hrun, ?_⟩
    rw [force_leak_scenario_state L s scenario_id r hrun]
    exact ledgerZero_init

/-- C15, as amended. As long as its additions overflow no counter variable
(`AddsFit`), each of `create_object`, `add_reference`, `clear_references`,
`gc_sweep`, `run_gc` and `final_cleanup` leaves each of the four counter
variables at least as large as it was; `reset_simulator_state` and
`force_leak_scenario` (which returns for every id) set the four variables
to 0. -/
theorem ledger_monotone_in_range (L : Layout) (s : State) :
    (∀ id name, AddsFit s (create_object L s id name).1 →
      CountersLe s.ledger (create_object L s id name).1.ledger) ∧
    (∀ frm tgt s1, add_reference L s frm tgt = some s1 → AddsFit s s1 →
      CountersLe s.ledger s1.ledger) ∧
    (∀ o, AddsFit s (clear_references L s o).1 →
      CountersLe s.ledger (clear_references L s o).1.ledger) ∧
    (AddsFit s (gc_sweep L s).1 → CountersLe s.ledger (gc_sweep L s).1.ledger) ∧
    (∀ roots s1, run_gc L s roots = some s1 → AddsFit s s1 →
      CountersLe s.ledger s1.ledger) ∧
    (AddsFit s (final_cleanup L s) → CountersLe s.ledger (final_cleanup L s).ledger) ∧
    (reset_simulator_state L s).ledger = ⟨0, 0, 0, 0⟩ ∧
    (∀ scenario_id, ∃ r, force_leak_scenario L s scenario_id = some r ∧
      r.1.ledger = ⟨0, 0, 0, 0⟩) := by
  obtain ⟨h1, h2, h3, h4, h5, h6, _, _⟩ := exact_counts_monotone L s
  refine ⟨?_, ?_, ?_, ?_, ?_, ?_, ?_, ?_⟩
  · intro id name hfit
    exact countersLe_of_fit _ _ (h1 id name) hfit
  · intro frm tgt s1 hrun hfit
    exact countersLe_of_fit _ _ (h2 frm tgt s1 hrun) hfit
  · intro o hfit
    exact countersLe_of_fit _ _ (h3 o) hfit
  · intro hfit
    exact countersLe_of_fit _ _ h4 hfit
  · intro roots s1 hrun hfit
    exact countersLe_of_fit _ _ (h5 roots s1 hrun) hfit
  · intro hfit
    exact countersLe_of_fit _ _ h6 hfit
  · rw [reset_simulator_state_eq]
    decide
  · intro scenario_id
    obtain ⟨r, hrun⟩ := force_leak_scenario_defined L s scenario_id
    refine ⟨r, hrun, ?_⟩
    rw [force_leak_scenario_state L s scenario_id r hrun]
    decide

theorem ledger_monotone_in_range_witness :
    (AddsFit two_cycles (create_object lp64 two_cycles 7 "F").1 ∧
        CountersLe two_cycles.ledger (create_object lp64 two_cycles 7 "F").1.ledger) ∧
      (AddsFit two_cycles (gc_sweep lp64 two_cycles).1 ∧
        CountersLe two_cycles.ledger (gc_sweep lp64 two_cycles).1.ledger) :=
  ⟨⟨by decide, (ledger_monotone_in_range lp64 two_cycles).1 7 "F" (by decide)⟩,
    ⟨by decide, (ledger_monotone_in_range lp64 two_cycles).2.2.2.1 (by decide)⟩⟩

/-- C15, as stated, fails twice over. From the state `naming_session` leaves,
with 4 objects and 184 bytes allocated, `reset_simulator_state` brings the
counter variables down to 0, and so does `force_leak_scenario (1)`. And in
`brim_state`, where the two object counts hold `INT_MAX` and the two byte
counts hold `SIZE_MAX - 10`, `create_object (1, "A")` leaves -2147483648 and
31 in the allocation counters, and the `gc_sweep` that then frees the object
leaves -2147483648 and 31 in the freed counters. -/
theorem ledger_not_monotone :
    run lp64 State.init naming_session = some naming_state ∧
      ¬ CountersLe naming_state.ledger (reset_simulator_state lp64 naming_state).ledger ∧
      (∃ r, force_leak_scenario lp64 naming_state 1 = some r ∧
        ¬ CountersLe naming_state.ledger r.1.ledger) ∧
      brim_state.ledger =
        ⟨2147483647, 2147483647, 18446744073709551605, 18446744073709551605⟩ ∧
      (create_object lp64 brim_state 1 "A").1.ledger =
        ⟨-2147483648, 2147483647, 31, 18446744073709551605⟩ ∧
      ¬ CountersLe brim_state.ledger (create_object lp64 brim_state 1 "A").1.ledger ∧
      (gc_sweep lp64 (create_object lp64 brim_state 1 "A").1).1.ledger =
        ⟨-2147483648, -2147483648, 31, 31⟩ ∧
      ¬ CountersLe (create_object lp64 brim_state 1 "A").1.ledger
        (gc_sweep lp64 (create_object lp64 brim_state 1 "A").1).1.ledger := by
  refine ⟨by decide, by decide, ?_, by decide, by decide, by decide, by decide, by decide⟩
  cases h : force_leak_scenario lp64 naming_state 1 with
  | none =>
    have hs : (force_leak_scenario lp64 naming_state 1).isSome = true := by decide
    rw [h] at hs
    cases hs
  | some r =>
    refine ⟨r, rfl, ?_⟩
    rw [force_leak_scenario_state lp64 naming_state 1 r h]
    decide


theorem length_swept_garbage (h : List Object) :
    h.length = (swept h).length + (garbage h).length := by
  induction h with
  | nil => rfl
  | cons o rest ih =>
    by_cases hm : o.marked = true
    · simp only [swept, garbage, List.filter_cons, hm, List.map_cons, List.length_cons,
        if_true, Bool.not_true, Bool.false_eq_true, if_false] at ih ⊢
      simp only [swept, garbage, List.length_map] at ih
      simp only [List.length_map]
      omega
    · simp only [swept, garbage, List.filter_cons, hm, List.length_cons,
        Bool.false_eq_true, if_false] at ih ⊢
      have hm0 : o.marked = false := by simpa using hm
      simp only [hm0, Bool.not_false, if_true, List.length_cons]
      simp only [swept, garbage, List.length_map] at ih
      simp only [List.length_map]
      omega

theorem set_refs_length (h : List Object) (p : Ptr) (refs : List Ptr) :
    (set_refs h p refs).length = h.length := by
  simp [set_refs]

theorem objCount_init : ObjCount State.init := rfl

theorem objCount_set_heap {s : State} {h1 : List Object} (hs : ObjCount s)
    (hl : HeapLe s.heap_head h1) : ObjCount { s with heap_head := h1 } := by
  simp only [ObjCount, heapLe_length hl] at hs ⊢
  exact hs

theorem objCount_sweep {s : State} (hs : ObjCount s) (m : Nat) :
    ObjCount
      { s with
        heap_head := swept s.heap_head
        total_objects_freed := s.total_objects_freed + (garbage s.heap_head).length
        total_memory_freed := m } := by
  simp only [ObjCount] at hs ⊢
  rw [hs, length_swept_garbage s.heap_head]
  omega

theorem objCount_create_object (L : Layout) {s : State} (hs : ObjCount s) (id : Int)
    (name : String) : ObjCount (create_object L s id name).1 := by
  rcases create_object_cases L s id name with h | ⟨_, h⟩
  · rw [h]; exact hs
  · rw [h]
    simp only [ObjCount, List.length_cons] at hs ⊢
    omega

theorem objCount_add_reference (L : Layout) {s s1 : State} (hs : ObjCount s)
    {frm tgt : Option Ptr} (hrun : add_reference L s frm tgt = some s1) : ObjCount s1 := by
  rcases add_reference_cases L s s1 frm tgt hrun with rfl | ⟨f, t, fo, _, rfl⟩
  · exact hs
  · simp only [ObjCount, set_refs_length] at hs ⊢
    exact hs

theorem objCount_push_root {s s1 : State} (hs : ObjCount s) {p : Option Ptr}
    (hrun : push_root s p = some s1) : ObjCount s1 := by
  rw [push_root_cases hrun]
  exact hs

theorem objCount_run_gc (L : Layout) {s s1 : State} (hs : ObjCount s)
    {roots : List (Option Ptr)} (hrun : run_gc L s roots = some s1) : ObjCount s1 := by
  rcases run_gc_full L s roots s1 hrun with rfl | ⟨h1, hm, rfl⟩
  · exact hs
  · exact objCount_sweep
      (objCount_set_heap hs (gc_mark_all_heapLe roots s.heap_head h1 hm)) _

/-- Every operation keeps the object count of the ledger balanced. -/
theorem objCount_step (L : Layout) {s s1 : State} (hs : ObjCount s) (op : Op)
    (hrun : step L s op = some s1) : ObjCount s1 := by
  cases op with
  | create_object id name =>
    simp only [step, Option.some.injEq] at hrun
    subst hrun
    exact objCount_create_object L hs id name
  | add_reference frm tgt => exact objCount_add_reference L hs hrun
  | create_reference name1 name2 =>
    rcases menu_create_reference_cases L s s1 name1 name2 hrun with rfl | ⟨f, t, h⟩
    · exact hs
    · exact objCount_add_reference L hs h
  | mark_root name =>
    rcases menu_mark_root_cases s s1 name hrun with rfl | ⟨p, _, _, h⟩
    · exact hs
    · exact objCount_push_root hs h
  | run_gc => exact objCount_run_gc L hs hrun
  | visualize =>
    obtain ⟨h1, hm, rfl⟩ := menu_visualize_cases s s1 hrun
    exact objCount_set_heap hs (gc_mark_all_heapLe s.roots s.heap_head h1 hm)
  | gc_sweep =>
    simp only [step, Option.some.injEq] at hrun
    subst hrun
    rw [gc_sweep_fst]
    exact objCount_sweep hs _
  | force_leak_scenario scenario_id =>
    simp only [step, Option.map_eq_some'] at hrun
    obtain ⟨r, hr, rfl⟩ := hrun
    rw [force_leak_scenario_state L s scenario_id r hr]
    exact objCount_init
  | reset_simulator_state =>
    simp only [step, Option.some.injEq] at hrun
    subst hrun
    exact objCount_init
  | final_cleanup =>
    simp only [step, Option.some.injEq] at hrun
    subst hrun
    rw [final_cleanup_eq]
    simp only [ObjCount, List.length_nil] at hs ⊢
    omega

/-- C23. Exit cleanup balances the ledger: in every state reached from the
initial one by any sequence of operations, `total_objects_allocated` minus
`total_objects_freed` is the number of objects in the heap list; and after
`final_cleanup` the heap list is empty, `total_objects_freed` equals
`total_objects_allocated`, `total_memory_freed` equals
`total_memory_allocated` (no byte is live), the allocation counters and the
root set being as they were. -/
theorem final_cleanup_balances (L : Layout) (ops : List Op) (s : State)
    (hrun : run L State.init ops = some s) :
    (s.total_objects_freed ≤ s.total_objects_allocated ∧
      s.total_objects_allocated - s.total_objects_freed = s.heap_head.length) ∧
    (final_cleanup L s).heap_head = [] ∧
    (final_cleanup L s).total_objects_freed = (final_cleanup L s).total_objects_allocated ∧
    (final_cleanup L s).total_memory_freed = (final_cleanup L s).total_memory_allocated ∧
    (final_cleanup L s).total_memory_allocated - (final_cleanup L s).total_memory_freed = 0 ∧
    (final_cleanup L s).total_objects_allocated = s.total_objects_allocated ∧
    (final_cleanup L s).total_memory_allocated = s.total_memory_allocated ∧
    (final_cleanup L s).roots = s.roots := by
  have hc : ObjCount s :=
    run_preserves L ObjCount (fun s op s1 hs h => objCount_step L hs op h) ops _ s
      objCount_init hrun
  have ha : Acct L s :=
    (run_preserves L (Inv L) (fun s op s1 hs h => inv_step L hs op h) ops _ s
      (inv_init L) hrun).2
  simp only [ObjCount] at hc
  simp only [Acct] at ha
  rw [final_cleanup_eq]
  refine ⟨⟨by omega, by omega⟩, rfl, ?_, ?_, ?_, rfl, rfl, rfl⟩
  · show s.total_objects_freed + s.heap_head.length = s.total_objects_allocated
    omega
  · show s.total_memory_freed + live_bytes L s.heap_head = s.total_memory_allocated
    omega
  · show s.total_memory_allocated - (s.total_memory_freed + live_bytes L s.heap_head) = 0
    omega

theorem final_cleanup_balances_witness :
    run lp64 State.init naming_session = some naming_state ∧
      naming_state.total_objects_allocated - naming_state.total_objects_freed =
        naming_state.heap_head.length ∧
      (final_cleanup lp64 naming_state).heap_head = [] ∧
      (final_cleanup lp64 naming_state).total_objects_freed =
        (final_cleanup lp64 naming_state).total_objects_allocated ∧
      (final_cleanup lp64 naming_state).total_memory_freed =
        (final_cleanup lp64 naming_state).total_memory_allocated :=
  ⟨by decide,
    (final_cleanup_balances lp64 naming_session naming_state (by decide)).1.2,
    (final_cleanup_balances lp64 naming_session naming_state (by decide)).2.1,
    (final_cleanup_balances lp64 naming_session naming_state (by decide)).2.2.1,
    (final_cleanup_balances lp64 naming_session naming_state (by decide)).2.2.2.1⟩

/-- The construction part of `force_leak_scenario` frees nothing. -/
theorem force_leak_scenario_setup_freed (L : Layout) (s : State) (scenario_id : Int)
    (b : State × List (Option Ptr)) (hs : s.total_memory_freed = 0)
    (hrun : force_leak_scenario_setup L s scenario_id = some b) :
    b.1.total_memory_freed = 0 := by
  refine force_leak_scenario_setup_preserves L (fun s => s.total_memory_freed = 0)
    ?_ ?_ ?_ s scenario_id b hs hrun
  · intro s id name h
    rcases create_object_cases L s id name with e | ⟨_, e⟩
    · rw [e]; exact h
    · rw [e]; exact h
  · intro s s1 frm tgt h hadd
    rcases add_reference_cases L s s1 frm tgt hadd with rfl | ⟨f, t, fo, _, rfl⟩
    · exact h
    · exact h
  · intro s s1 p h hpush
    rw [push_root_cases hpush]
    exact h

theorem scenario_estimates_lp64 :
    (force_leak_scenario lp64 State.init 1).map
        (fun r => r.2.map fun x => (x.garbage_bytes_est, x.total_memory_freed)) =
      some (some (84, 100)) ∧
    (force_leak_scenario lp64 State.init 2).map
        (fun r => r.2.map fun x => (x.garbage_bytes_est, x.total_memory_freed)) =
      some (some (84, 116)) ∧
    (force_leak_scenario lp64 State.init 3).map
        (fun r => r.2.map fun x => (x.garbage_bytes_est, x.total_memory_freed)) =
      some (some (215, 215)) := by
  set_option maxRecDepth 100000 in decide

/-- C22 (the code does not do this). The figure `force_leak_scenario`
announces as "Garbage memory (will be freed now)" adds up the approximate
sizes of the unreachable objects and leaves out their edges, which the sweep
that follows frees and counts as well. From every prior state: scenario 1
announces `2 * (sizeof (Object) + 2)` and its sweep frees that plus one
`sizeof (RefNode)` (D -> E); scenario 2 announces the same and its sweep frees
that plus two `sizeof (RefNode)` (D <-> E); scenario 3, whose garbage has no
edge, announces what its sweep frees. On an LP64 target the figures announced
and freed are 84 and 100, 84 and 116, 215 and 215. -/
theorem scenario_estimate_omits_edges :
    (∀ (L : Layout) (s : State), ∃ b r,
      force_leak_scenario_setup L (reset_simulator_state L s) 1 = some b ∧
      force_leak_scenario_collect L b.1 b.2 = some r ∧
      force_leak_scenario L s 1 = some (reset_simulator_state L r.1, some r.2) ∧
      r.2.garbage_bytes_est = 2 * (L.sizeofObject + 2) ∧
      r.1.total_memory_freed - b.1.total_memory_freed =
        2 * (L.sizeofObject + 2) + L.sizeofRefNode) ∧
    (∀ (L : Layout) (s : State), ∃ b r,
      force_leak_scenario_setup L (reset_simulator_state L s) 2 = some b ∧
      force_leak_scenario_collect L b.1 b.2 = some r ∧
      force_leak_scenario L s 2 = some (reset_simulator_state L r.1, some r.2) ∧
      r.2.garbage_bytes_est = 2 * (L.sizeofObject + 2) ∧
      r.1.total_memory_freed - b.1.total_memory_freed =
        2 * (L.sizeofObject + 2) + 2 * L.sizeofRefNode) ∧
    (∀ (L : Layout) (s : State), ∃ b r,
      force_leak_scenario_setup L (reset_simulator_state L s) 3 = some b ∧
      force_leak_scenario_collect L b.1 b.2 = some r ∧
      force_leak_scenario L s 3 = some (reset_simulator_state L r.1, some r.2) ∧
      r.2.garbage_bytes_est = 5 * (L.sizeofObject + 3) ∧
      r.1.total_memory_freed - b.1.total_memory_freed = 5 * (L.sizeofObject + 3)) ∧
    (force_leak_scenario lp64 State.init 1).map
        (fun r => r.2.map fun x => (x.garbage_bytes_est, x.total_memory_freed)) =
      some (some (84, 100)) ∧
    (force_leak_scenario lp64 State.init 2).map
        (fun r => r.2.map fun x => (x.garbage_bytes_est, x.total_memory_freed)) =
      some (some (84, 116)) ∧
    (force_leak_scenario lp64 State.init 3).map
        (fun r => r.2.map fun x => (x.garbage_bytes_est, x.total_memory_freed)) =
      some (some (215, 215)) := by
  refine ⟨?_, ?_, ?_, scenario_estimates_lp64⟩
  · intro L s
    obtain ⟨rep, hcol, _, _, hg, _⟩ := scenario_1_collect L
    have hset : force_leak_scenario_setup L (reset_simulator_state L s) 1 =
        some (scenario_1_state L, [some 0, some 1, some 2, some 3, some 4]) := by
      simp [force_leak_scenario_setup, reset_simulator_state_eq, scenario_1_eq]
    refine ⟨_, (scenario_1_swept L, rep), hset, hcol, ?_, ?_, ?_⟩
    · simp [force_leak_scenario, hset, hcol]
    · rw [hg]
    · show 2 * (L.sizeofObject + 2) + L.sizeofRefNode - 0 = _
      omega
  · intro L s
    obtain ⟨rep, hcol, _, _, hg, _⟩ := scenario_2_collect L
    have hset : force_leak_scenario_setup L (reset_simulator_state L s) 2 =
        some (scenario_2_state L, [some 0, some 1, some 2, some 3, some 4]) := by
      simp [force_leak_scenario_setup, reset_simulator_state_eq, scenario_2_eq]
    refine ⟨_, (scenario_2_swept L, rep), hset, hcol, ?_, ?_, ?_⟩
    · simp [force_leak_scenario, hset, hcol]
    · rw [hg]
    · show 2 * (L.sizeofObject + 2) + 2 * L.sizeofRefNode - 0 = _
      omega
  · intro L s
    obtain ⟨b, hb, hh, hr, _, hc⟩ := scenario_3_built L
    have hset : force_leak_scenario_setup L (reset_simulator_state L s) 3 = some b := by
      simp [force_leak_scenario_setup, reset_simulator_state_eq, hb]
    have hz : b.1.total_memory_freed = 0 :=
      force_leak_scenario_setup_freed L _ 3 b rfl hset
    obtain ⟨r, hcol, _, hf, _, _, _, hg, _⟩ := scenario_3_collect L b.1 hh hr
    rw [← hc] at hcol
    refine ⟨b, r, hset, hcol, ?_, hg, ?_⟩
    · simp [force_leak_scenario, hset, hcol]
    · rw [hf, hz]
      omega

end GcSim
